import Mathlib

/-!
Verification of the WarframePrimeNexus pipeline.

This file gives a shallow embedding of the two text pipelines of the
repository:

* `currentPrimes/main.js` — rarity classification of a drop-chance cell
  (`determineRarity`), grouping of relic rewards by prime item
  (`extractPrimes`) and markdown serialization (`generateMarkdown`);
* the markdown parser `WarframeDataParser` — in its two variants, the one
  in `htmlConverter/htmlConverter.js` (suffix `V1`) and the stricter-typed,
  error-tolerant duplicate shipped in the repository (suffix `V2`);
* the renderer helpers of the tolerant variant: `escapeHtml`, `groupParts`,
  `sortRelics`, `separateWarframesWeapons`, `renderPrimeItem` and
  `renderRelicPopup`.

JS strings are modelled as `List Char` (`Str`).  JS string methods
(`trim`, `startsWith`, `includes`, `split`, `replace`) are modelled by
executable functions below.  JS objects / `Map`s keyed by strings are
modelled by association lists in insertion order; `Map.set` replaces the
value in place when the key is present and appends otherwise, which is the
ECMAScript behaviour.  JS `Array.prototype.sort` with a consistent
comparator is, per ES2019, a stable sort; it is modelled by the stable
insertion sort `jsSort`.  Where the source reads the current date or the
locale collation, the value is taken as an explicit parameter.
-/

set_option maxHeartbeats 1000000
set_option synthInstance.maxHeartbeats 400000

abbrev Str := List Char

/-- The whitespace test used by the model of `String.prototype.trim`
(the data handled by the pipeline only ever carries ASCII whitespace). -/
def isWS (c : Char) : Bool := c = ' ' || c = '\t' || c = '\n' || c = '\r'

/-- Model of the left half of JS `trim`. -/
def trimLeft (s : Str) : Str := s.dropWhile isWS

/-- Model of the right half of JS `trim`. -/
def trimRight (s : Str) : Str := (s.reverse.dropWhile isWS).reverse

/-- Model of JS `String.prototype.trim`. -/
def trimStr (s : Str) : Str := trimRight (trimLeft s)

/-- Model of JS `s.startsWith(p)` (first argument the receiver `s`). -/
def jsStartsWith : Str → Str → Bool
  | _, [] => true
  | [], _ :: _ => false
  | c :: s, d :: p => if c = d then jsStartsWith s p else false

/-- First occurrence of `sep` in `s`: `some (before, after)` on a match,
`none` when `sep` does not occur.  This is the primitive underlying the
models of JS `includes` and `split`. -/
def breakOnSub (sep : Str) : Str → Option (Str × Str)
  | [] => if sep = [] then some ([], []) else none
  | c :: rest =>
    if jsStartsWith (c :: rest) sep then some ([], (c :: rest).drop sep.length)
    else
      match breakOnSub sep rest with
      | some (pre, post) => some (c :: pre, post)
      | none => none

/-- Model of JS `s.includes(sub)`. -/
def jsIncludes (s sub : Str) : Bool := (breakOnSub sub s).isSome

theorem jsStartsWith_eq_append : ∀ (p s : Str), jsStartsWith s p = true →
    s = p ++ s.drop p.length := by
  intro p
  induction p with
  | nil => intro s _; simp
  | cons d p ih =>
    intro s h
    cases s with
    | nil => simp [jsStartsWith] at h
    | cons c s =>
      simp only [jsStartsWith] at h
      by_cases hc : c = d
      · subst hc
        simp only [if_pos rfl] at h
        have := ih s h
        simpa using this
      · simp [hc] at h

theorem breakOnSub_eq (sep : Str) : ∀ (s pre post : Str),
    breakOnSub sep s = some (pre, post) → s = pre ++ sep ++ post := by
  intro s
  induction s with
  | nil =>
    intro pre post h
    by_cases hsep : sep = []
    · subst hsep; simp [breakOnSub] at h; simp [h.1, h.2]
    · simp [breakOnSub, hsep] at h
  | cons c rest ih =>
    intro pre post h
    simp only [breakOnSub] at h
    by_cases hpre : jsStartsWith (c :: rest) sep = true
    · rw [if_pos hpre] at h
      have hc := jsStartsWith_eq_append sep (c :: rest) hpre
      cases h
      simpa using hc
    · rw [if_neg hpre] at h
      cases hb : breakOnSub sep rest with
      | none => rw [hb] at h; cases h
      | some pr =>
        rw [hb] at h
        obtain ⟨pre', post'⟩ := pr
        simp only [Option.some.injEq, Prod.mk.injEq] at h
        obtain ⟨h1, h2⟩ := h
        subst h1
        subst h2
        have := ih pre' post' hb
        simp [this]

/-- Fueled splitter; the fuel strictly dominates the number of possible
separator occurrences, so the wrapper below never exhausts it. -/
def splitOnSubAux (sep : Str) : Nat → Str → List Str
  | 0, s => [s]
  | Nat.succ n, s =>
    match breakOnSub sep s with
    | none => [s]
    | some (pre, post) => pre :: splitOnSubAux sep n post

/-- Model of JS `s.split(sep)` for the non-empty separators used in the
repository (for an empty separator JS splits into characters; that case is
never exercised, and the model returns `[s]`). -/
def splitOnSub (sep : Str) (s : Str) : List Str :=
  if sep = [] then [s] else splitOnSubAux sep (s.length + 1) s

theorem breakOnSub_post_lt (sep : Str) (hsep : sep ≠ []) (s pre post : Str)
    (h : breakOnSub sep s = some (pre, post)) : post.length < s.length := by
  have hlen : s = pre ++ sep ++ post := breakOnSub_eq sep s pre post h
  have h2 : s.length = pre.length + sep.length + post.length := by
    rw [hlen]; simp [List.length_append]; omega
  have hpos : 0 < sep.length := by
    cases sep with
    | nil => exact absurd rfl hsep
    | cons a t => simp
  omega

theorem splitOnSubAux_fuel (sep : Str) (hsep : sep ≠ []) :
    ∀ (n m : Nat) (s : Str), s.length < n → s.length < m →
      splitOnSubAux sep n s = splitOnSubAux sep m s := by
  intro n
  induction n with
  | zero => intro m s h; omega
  | succ n' ih =>
    intro m s hn hm
    cases m with
    | zero => omega
    | succ m' =>
      simp only [splitOnSubAux]
      cases hb : breakOnSub sep s with
      | none => rfl
      | some pr =>
        obtain ⟨pre, post⟩ := pr
        have hlt := breakOnSub_post_lt sep hsep s pre post hb
        show pre :: splitOnSubAux sep n' post = pre :: splitOnSubAux sep m' post
        rw [ih m' post (by omega) (by omega)]

/-- Model of JS `parts.join(sep)`. -/
def strJoin (sep : Str) : List Str → Str
  | [] => []
  | [x] => x
  | x :: rest => x ++ sep ++ strJoin sep rest

/-- Model of JS `s.replace(c, '')` for a one-character pattern: removes the
first occurrence of `c`, if any. -/
def replaceFirst (c : Char) : Str → Str
  | [] => []
  | d :: t => if d = c then t else d :: replaceFirst c t

/-- Model of JS `s.replace(/c/g, rep)` for a one-character global pattern. -/
def replaceAllChar (c : Char) (rep : Str) : Str → Str
  | [] => []
  | d :: t => if d = c then rep ++ replaceAllChar c rep t else d :: replaceAllChar c rep t

/-- Model of JS `list.indexOf(x)` (`-1` when absent). -/
def jsIndexOf (l : List Str) (x : Str) : Int :=
  match l.findIdx? (fun y => y == x) with
  | some n => (n : Int)
  | none => -1

/-- One step of the stable insertion sort: `x` is placed after every
already-placed element `y` with `le y x`. -/
def insLe (le : α → α → Bool) (x : α) : List α → List α
  | [] => [x]
  | y :: ys => if le y x then y :: insLe le x ys else x :: y :: ys

/-- Model of JS `Array.prototype.sort` for a consistent comparator
(stable, per ES2019): elements are inserted in order of appearance. -/
def jsSort (le : α → α → Bool) (l : List α) : List α :=
  l.foldl (fun acc x => insLe le x acc) []

/-- Lexicographic order on code points: the comparison JS applies to
strings under the default `sort()` (code-unit order; the repository's data
is ASCII, where code units and code points agree). -/
def lexLe : Str → Str → Bool
  | [], _ => true
  | _ :: _, [] => false
  | c :: a, d :: b =>
    if c.toNat < d.toNat then true
    else if d.toNat < c.toNat then false
    else lexLe a b

/-- Association-list lookup: JS `map.get(k)` / `obj[k]`. -/
def getAssoc (m : List (Str × α)) (k : Str) : Option α :=
  match m with
  | [] => none
  | (k', v) :: rest => if k' = k then some v else getAssoc rest k

/-- Association-list update with `Map.set` semantics: replace in place
when the key is present, append otherwise. -/
def setAssoc (m : List (Str × α)) (k : Str) (v : α) : List (Str × α) :=
  match m with
  | [] => [(k, v)]
  | (k', v') :: rest => if k' = k then (k, v) :: rest else (k', v') :: setAssoc rest k v

/-- Keys of a JS object in insertion order (`Object.keys`). -/
def objKeys (m : List (Str × α)) : List Str := m.map Prod.fst

/-- Occurrence test for the two-character patterns (`'->'`) handled by the
split lemmas below. -/
def has2 (a b : Char) : Str → Bool
  | [] => false
  | [_] => false
  | c :: d :: rest => (c = a && d = b) || has2 a b (d :: rest)

/-- Number of occurrences of a character. -/
def countChar (c : Char) (s : Str) : Nat := s.countP (fun d => d = c)

/-! ### String constants of the markdown dialect (as character lists) -/

def dashSp : Str := ['-', ' ']
def indentDash : Str := [' ', ' ', '-', ' ']
def hhSp : Str := ['#', '#', ' ']
def arrowS : Str := ['-', '>']
def hdrPrimes : Str := ['#', ' ', 'P', 'r', 'i', 'm', 'e', 's']
def hdrRelics : Str := ['#', ' ', 'R', 'e', 'l', 'i', 'c', 's']
def locTag : Str := ['*', '*', 'L', 'o', 'c', 'a', 't', 'i', 'o', 'n', '*', '*', ':']
def genPre : Str :=
  ['#', ' ', 'G', 'e', 'n', 'e', 'r', 'a', 't', 'e', 'd', ' ', 'o', 'n', ' ']
def nl1 : Str := ['\n']
def nl2 : Str := ['\n', '\n']
def parenOpenSp : Str := [' ', '(']
def parenArrowSp : Str := [')', ' ', '-', '>', ' ']
def parenClose : Str := [')']
def strUndef : Str := ['u', 'n', 'd', 'e', 'f', 'i', 'n', 'e', 'd']
def strPrime : Str := ['P', 'r', 'i', 'm', 'e']
def strSpPrime : Str := [' ', 'P', 'r', 'i', 'm', 'e']
def strForma : Str := ['F', 'o', 'r', 'm', 'a']
def strRare : Str := ['R', 'a', 'r', 'e']
def strUncommon : Str := ['U', 'n', 'c', 'o', 'm', 'm', 'o', 'n']
def strCommon : Str := ['C', 'o', 'm', 'm', 'o', 'n']
def pctCommon : Str := ['2', '5', '.', '3', '3', '%']
def pctUncommon : Str := ['1', '1', '.', '0', '0', '%']
def pctRare : Str := ['2', '.', '0', '0', '%']
def strSystems : Str := ['S', 'y', 's', 't', 'e', 'm', 's']
def strChassis : Str := ['C', 'h', 'a', 's', 's', 'i', 's']
def strNeuroptics : Str := ['N', 'e', 'u', 'r', 'o', 'p', 't', 'i', 'c', 's']

/-! ### Extractor (`currentPrimes/main.js`) -/

/-- A scraped reward row `{ item, rarity }` of `findRelicTableData`. -/
structure RewardSrc where
  item : Str
  rarity : Str
deriving DecidableEq, Repr

/-- An entry `{ item, rarity, source }` pushed by `extractPrimes`. -/
structure SrcPart where
  item : Str
  rarity : Str
  source : Str
deriving DecidableEq, Repr

/-- The rarity classification inside `findRelicTableData`
(`currentPrimes/main.js`, the `if`/`else if` chain on the drop-chance
cell): substring tests against three literal percentages, first match
wins, empty string otherwise. -/
def determineRarity (rarityText : Str) : Str :=
  if jsIncludes rarityText pctCommon then strCommon
  else if jsIncludes rarityText pctUncommon then strUncommon
  else if jsIncludes rarityText pctRare then strRare
  else []

/-- The grouping key of `extractPrimes`:
`item.split(' Prime')[0] + ' Prime'`. -/
def primeKeyOf (item : Str) : Str :=
  (match breakOnSub strSpPrime item with
   | some (pre, _) => pre
   | none => item) ++ strSpPrime

/-- One reward processed by the loop body of `extractPrimes`:
`if (!item.includes('Forma') && item.includes('Prime')) { ... push ... }`. -/
def addPrimeEntry (acc : List (Str × List SrcPart)) (source : Str) (rw : RewardSrc) :
    List (Str × List SrcPart) :=
  if !jsIncludes rw.item strForma && jsIncludes rw.item strPrime then
    let key := primeKeyOf rw.item
    match getAssoc acc key with
    | some ps => setAssoc acc key (ps ++ [⟨rw.item, rw.rarity, source⟩])
    | none => acc ++ [(key, [⟨rw.item, rw.rarity, source⟩])]
  else acc

/-- `extractPrimes` of `currentPrimes/main.js`: groups relic rewards by
prime item, scanning relics in insertion order. -/
def extractPrimes (relicData : List (Str × List RewardSrc)) : List (Str × List SrcPart) :=
  relicData.foldl (fun acc e => e.2.foldl (fun a rw => addPrimeEntry a e.1 rw) acc) []

/-- `['Rare', 'Uncommon', 'Common']` — the `rarityOrder` array of
`generateMarkdown`. -/
def rarityOrderL : List Str := [strRare, strUncommon, strCommon]

/-- `rarityOrder.indexOf(rarity)` (so `-1` for any other string,
including the empty rarity). -/
def rarityIdx (r : Str) : Int := jsIndexOf rarityOrderL r

/-- The sort order on parts used by `generateMarkdown`
(`rarityOrder.indexOf(a.rarity) - rarityOrder.indexOf(b.rarity)` as a
comparator, realised as the order of its sort keys). -/
def partLe (a b : SrcPart) : Bool := rarityIdx a.rarity ≤ rarityIdx b.rarity

/-- `relicLocations[relic.split(' ')[0]]`; a missing key renders as the
string `"undefined"` in the template literal. -/
def locLookup (relicLocations : List (Str × Str)) (relic : Str) : Str :=
  match getAssoc relicLocations (match splitOnSub [' '] relic with
                                 | x :: _ => x
                                 | [] => []) with
  | some l => l
  | none => strUndef

/-- `generateMarkdown` of `currentPrimes/main.js`.  The current date
string (`new Date().toLocaleDateString(...)`) is passed as the parameter
`today`. -/
def generateMarkdown (today : Str) (primes : List (Str × List SrcPart))
    (relicData : List (Str × List RewardSrc)) (relicLocations : List (Str × Str)) : Str :=
  let sortedPrimes := jsSort lexLe (objKeys primes)
  let primesSection : Str := (sortedPrimes.map (fun prime =>
      dashSp ++ prime ++ nl1 ++
      ((jsSort partLe ((getAssoc primes prime).getD [])).map (fun p =>
        indentDash ++ p.item ++ parenOpenSp ++ p.rarity ++ parenArrowSp ++ p.source ++ nl1)).flatten)).flatten
  let relicsSection : Str := (relicData.map (fun rel =>
      hhSp ++ rel.1 ++ nl2 ++
      (rel.2.map (fun r => dashSp ++ r.item ++ parenOpenSp ++ r.rarity ++ parenClose ++ nl1)).flatten ++
      nl1 ++ locTag ++ [' '] ++ locLookup relicLocations rel.1 ++ nl2)).flatten
  genPre ++ today ++ nl2 ++ hdrPrimes ++ nl2 ++ primesSection ++
    nl1 ++ hdrRelics ++ nl2 ++ relicsSection

/-! ### Parser data model -/

/-- Parsed reward `{ part, rarity }` of a relic. -/
structure RewardP where
  part : Str
  rarity : Str
deriving DecidableEq, Repr

/-- Parsed relic `{ location, rewards }`. -/
structure RelicE where
  location : Str
  rewards : List RewardP
deriving DecidableEq, Repr

/-- Part record produced by `parsePartInfo` of
`htmlConverter/htmlConverter.js`; `relic` is `none` when the line had no
`'->'` (the JS destructuring leaves `relicInfo` undefined). -/
structure PartV1 where
  part : Str
  rarity : Str
  relic : Option Str
deriving DecidableEq, Repr

/-- Parsed prime `{ name, parts }` of the `htmlConverter.js` parser. -/
structure PrimeV1 where
  name : Str
  parts : List PartV1
deriving DecidableEq, Repr

/-- Part record of the tolerant parser variant (`relic` always a string,
defaulted to `''`). -/
structure PartV2 where
  part : Str
  rarity : Str
  relic : Str
deriving DecidableEq, Repr

/-- Parsed prime of the tolerant parser variant. -/
structure PrimeV2 where
  name : Str
  parts : List PartV2
deriving DecidableEq, Repr

/-- The two section states of the parsers. -/
inductive MdSect
  | primes
  | relics
deriving DecidableEq, Repr

/-- Outcome of one JS handler call: `pass` models `return false`,
`handled st` models `return true` after mutating the parser state to
`st`, and `err` models an uncaught exception. -/
inductive HRes (σ : Type)
  | pass
  | handled (st : σ)
  | err
deriving DecidableEq, Repr

/-- Lines as seen by both parsers:
`content.trim().split('\n').map(line => line.trim())`. -/
def parseLinesOf (content : Str) : List Str :=
  (splitOnSub ['\n'] (trimStr content)).map trimStr

/-! ### Parser variant V1 (`htmlConverter/htmlConverter.js`) -/

/-- `parsePartAndRarity`: split on `'('`, take the first two trimmed
components, strip the first `')'` from the second.  (When the second
component is the empty string the JS conditional yields `''`, which
coincides with `replaceFirst` on `[]`.) -/
def parsePartAndRarityV1 (info : Str) : Str × Str :=
  match (splitOnSub ['('] info).map trimStr with
  | part :: rw :: _ => (part, replaceFirst ')' rw)
  | [part] => (part, [])
  | [] => ([], [])

/-- `parsePartInfo`: strip the leading run of `'-'`/`' '`, split on
`'->'`; a missing second component leaves `relic` undefined (`none`). -/
def parsePartInfoV1 (line : Str) : PartV1 :=
  let partLine := line.dropWhile (fun c => c = '-' || c = ' ')
  match (splitOnSub arrowS partLine).map trimStr with
  | pi :: ri :: _ =>
    let pr := parsePartAndRarityV1 pi
    ⟨pr.1, pr.2, some ri⟩
  | [pi] =>
    let pr := parsePartAndRarityV1 pi
    ⟨pr.1, pr.2, none⟩
  | [] => ⟨[], [], none⟩

/-- `parseRewardInfo`: drop the `'- '` prefix, split part and rarity. -/
def parseRewardInfoV1 (line : Str) : RewardP :=
  let pr := parsePartAndRarityV1 (line.drop 2)
  ⟨pr.1, pr.2⟩

/-- Mutable state of the `WarframeDataParser` of
`htmlConverter/htmlConverter.js`. -/
structure StV1 where
  primes : List (Str × PrimeV1)
  relics : List (Str × RelicE)
  currentSection : Option MdSect
  currentItem : Option Str
deriving DecidableEq, Repr

def handleSectionHeadersV1 (st : StV1) (line : Str) : Option StV1 :=
  if line = hdrPrimes then
    some {st with currentSection := some MdSect.primes, currentItem := none}
  else if line = hdrRelics then
    some {st with currentSection := some MdSect.relics, currentItem := none}
  else none

def handlePrimeSectionV1 (st : StV1) (line : Str) : HRes StV1 :=
  if st.currentSection ≠ some MdSect.primes then .pass
  else if jsStartsWith line dashSp && !jsIncludes line arrowS then
    let primeName := line.drop 2
    .handled {st with currentItem := some primeName,
                      primes := setAssoc st.primes primeName ⟨primeName, []⟩}
  else
    match st.currentItem with
    | some item =>
      if jsStartsWith line indentDash || (jsStartsWith line dashSp && jsIncludes line arrowS) then
        match getAssoc st.primes item with
        | some pe =>
          .handled {st with primes := setAssoc st.primes item ⟨pe.name, pe.parts ++ [parsePartInfoV1 line]⟩}
        | none => .err
      else .pass
    | none => .pass

def handleRelicSectionV1 (st : StV1) (line : Str) : HRes StV1 :=
  if st.currentSection ≠ some MdSect.relics then .pass
  else if jsStartsWith line hhSp then
    let relicName := line.drop 3
    .handled {st with currentItem := some relicName,
                      relics := setAssoc st.relics relicName ⟨[], []⟩}
  else
    match st.currentItem with
    | some item =>
      if jsStartsWith line locTag then
        match getAssoc st.relics item with
        | some re =>
          match splitOnSub [':'] line with
          | _ :: x :: _ =>
            .handled {st with relics := setAssoc st.relics item ⟨trimStr x, re.rewards⟩}
          | _ => .err
        | none => .err
      else if jsStartsWith line dashSp then
        match getAssoc st.relics item with
        | some re =>
          .handled {st with relics := setAssoc st.relics item ⟨re.location, re.rewards ++ [parseRewardInfoV1 line]⟩}
        | none => .err
      else .pass
    | none => .pass

/-- One line of `parse`: the short-circuit chain
`handleSectionHeaders(line) || handlePrimeSection(line) || handleRelicSection(line)`
(after the `if (!line) return;` guard).  `none` models an uncaught
exception escaping `parse`. -/
def stepV1 (st : StV1) (line : Str) : Option StV1 :=
  if line = [] then some st
  else
    match handleSectionHeadersV1 st line with
    | some st' => some st'
    | none =>
      match handlePrimeSectionV1 st line with
      | .handled st' => some st'
      | .err => none
      | .pass =>
        match handleRelicSectionV1 st line with
        | .handled st' => some st'
        | .err => none
        | .pass => some st

def initStV1 : StV1 := ⟨[], [], none, none⟩

/-- Result of `parse` (`Object.fromEntries` of the two maps). -/
structure ParseRes (π : Type) where
  primes : List (Str × π)
  relics : List (Str × RelicE)
deriving DecidableEq, Repr

/-- `WarframeDataParser.parse` of `htmlConverter/htmlConverter.js`. -/
def parseV1 (content : Str) : Option (ParseRes PrimeV1) :=
  ((parseLinesOf content).foldlM stepV1 initStV1).map (fun st => ⟨st.primes, st.relics⟩)

/-! ### Parser variant V2 (the error-tolerant duplicate) -/

/-- Whether `rest` is exactly `mid ++ [')']` with `mid` non-empty and
`')'`-free — i.e. whether the regex `\(([^)]+)\)$` matches right after an
opening parenthesis followed by `rest`; returns the group `mid`. -/
def parenTail (rest : Str) : Option Str :=
  match rest.reverse with
  | c :: m => if c = ')' && (!m.isEmpty && m.all (fun d => d != ')')) then some m.reverse else none
  | [] => none

/-- Position of the match of `/\(([^)]+)\)$/`: the leftmost `'('` whose
tail matches to the end of the string; returns the prefix before it and
the group. -/
def findParen : Str → Option (Str × Str)
  | [] => none
  | c :: rest =>
    if c = '(' then
      match parenTail rest with
      | some m => some ([], m)
      | none => (findParen rest).map (fun pm => (c :: pm.1, pm.2))
    else (findParen rest).map (fun pm => (c :: pm.1, pm.2))

/-- `parsePartAndRarity` of the tolerant variant: the regex
`/\(([^)]+)\)$/`; on a match, `part` is the trimmed prefix before the
match and `rarity` the trimmed group, otherwise `part` is `info`
unchanged and `rarity` empty. -/
def parsePartAndRarityV2 (info : Str) : Str × Str :=
  if info = [] then ([], [])
  else
    match findParen info with
    | some (pre, mid) => (trimStr pre, trimStr mid)
    | none => (info, [])

/-- `parsePartInfo` of the tolerant variant; `none` models the thrown
`Invalid part format` error (fewer than two `'->'` components). -/
def parsePartInfoV2 (line : Str) : Option PartV2 :=
  let partLine := line.dropWhile (fun c => c = '-' || c = ' ')
  match (splitOnSub arrowS partLine).map trimStr with
  | pi :: ri :: _ =>
    let pr := parsePartAndRarityV2 pi
    some ⟨pr.1, pr.2, ri⟩
  | _ => none

/-- `parseRewardInfo` of the tolerant variant; `none` models the thrown
`Empty reward line` error. -/
def parseRewardInfoV2 (line : Str) : Option RewardP :=
  let rewardLine := trimStr (line.drop 2)
  if rewardLine = [] then none
  else
    let pr := parsePartAndRarityV2 rewardLine
    some ⟨pr.1, pr.2⟩

/-- Mutable state of the tolerant `WarframeDataParser`. -/
structure StV2 where
  primes : List (Str × PrimeV2)
  relics : List (Str × RelicE)
  currentSection : Option MdSect
  currentItem : Option Str
deriving DecidableEq, Repr

def handleSectionHeadersV2 (st : StV2) (line : Str) : Option StV2 :=
  if line = hdrPrimes then
    some {st with currentSection := some MdSect.primes, currentItem := none}
  else if line = hdrRelics then
    some {st with currentSection := some MdSect.relics, currentItem := none}
  else none

def handlePrimeSectionV2 (st : StV2) (line : Str) : HRes StV2 :=
  if st.currentSection ≠ some MdSect.primes then .pass
  else if jsStartsWith line dashSp && !jsIncludes line arrowS then
    let primeName := trimStr (line.drop 2)
    if primeName = [] then .pass
    else
      .handled {st with currentItem := some primeName,
                        primes := setAssoc st.primes primeName ⟨primeName, []⟩}
  else
    match st.currentItem with
    | some item =>
      if jsStartsWith line indentDash || (jsStartsWith line dashSp && jsIncludes line arrowS) then
        match parsePartInfoV2 line with
        | some p =>
          match getAssoc st.primes item with
          | some pe =>
            .handled {st with primes := setAssoc st.primes item ⟨pe.name, pe.parts ++ [p]⟩}
          | none => .pass
        | none => .pass
      else .pass
    | none => .pass

def handleRelicSectionV2 (st : StV2) (line : Str) : HRes StV2 :=
  if st.currentSection ≠ some MdSect.relics then .pass
  else if jsStartsWith line hhSp then
    let relicName := trimStr (line.drop 3)
    if relicName = [] then .pass
    else
      .handled {st with currentItem := some relicName,
                        relics := setAssoc st.relics relicName ⟨[], []⟩}
  else
    match st.currentItem with
    | none => .pass
    | some item =>
      if jsStartsWith line locTag then
        let location := trimStr (strJoin [':'] ((splitOnSub [':'] line).drop 1))
        match getAssoc st.relics item with
        | some re => .handled {st with relics := setAssoc st.relics item ⟨location, re.rewards⟩}
        | none => .err
      else if jsStartsWith line dashSp then
        match parseRewardInfoV2 line with
        | some rw =>
          match getAssoc st.relics item with
          | some re =>
            .handled {st with relics := setAssoc st.relics item ⟨re.location, re.rewards ++ [rw]⟩}
          | none => .pass
        | none => .pass
      else .pass

def stepV2 (st : StV2) (line : Str) : Option StV2 :=
  if line = [] then some st
  else
    match handleSectionHeadersV2 st line with
    | some st' => some st'
    | none =>
      match handlePrimeSectionV2 st line with
      | .handled st' => some st'
      | .err => none
      | .pass =>
        match handleRelicSectionV2 st line with
        | .handled st' => some st'
        | .err => none
        | .pass => some st

def initStV2 : StV2 := ⟨[], [], none, none⟩

/-- `WarframeDataParser.parse` of the tolerant variant. -/
def parseV2 (content : Str) : Option (ParseRes PrimeV2) :=
  ((parseLinesOf content).foldlM stepV2 initStV2).map (fun st => ⟨st.primes, st.relics⟩)

/-! ### Basic lemmas about the string model -/

theorem jsStartsWith_append_self (p t : Str) : jsStartsWith (p ++ t) p = true := by
  induction p with
  | nil => cases t <;> simp [jsStartsWith]
  | cons c p ih => simpa [jsStartsWith] using ih

theorem jsStartsWith_iff (s p : Str) : jsStartsWith s p = true ↔ ∃ t, s = p ++ t := by
  constructor
  · intro h
    exact ⟨s.drop p.length, jsStartsWith_eq_append p s h⟩
  · rintro ⟨t, rfl⟩
    exact jsStartsWith_append_self p t

theorem getAssoc_setAssoc_self (m : List (Str × α)) (k : Str) (v : α) :
    getAssoc (setAssoc m k v) k = some v := by
  induction m with
  | nil => simp [setAssoc, getAssoc]
  | cons e rest ih =>
    obtain ⟨k', v'⟩ := e
    by_cases h : k' = k
    · subst h; simp [setAssoc, getAssoc]
    · simp [setAssoc, getAssoc, h, ih]

theorem getAssoc_setAssoc_ne (m : List (Str × α)) (k k' : Str) (v : α) (h : k ≠ k') :
    getAssoc (setAssoc m k v) k' = getAssoc m k' := by
  induction m with
  | nil => simp [setAssoc, getAssoc, h]
  | cons e rest ih =>
    obtain ⟨k'', v''⟩ := e
    by_cases h2 : k'' = k
    · subst h2; simp [setAssoc, getAssoc, h]
    · simp [setAssoc, getAssoc, h2, ih]

theorem getAssoc_eq_none_iff (m : List (Str × α)) (k : Str) :
    getAssoc m k = none ↔ k ∉ objKeys m := by
  induction m with
  | nil => simp [getAssoc, objKeys]
  | cons e rest ih =>
    obtain ⟨k', v⟩ := e
    by_cases h : k' = k
    · subst h; simp [getAssoc, objKeys]
    · simp [getAssoc, objKeys, h, ih, Ne.symm h]

theorem getAssoc_isSome_iff (m : List (Str × α)) (k : Str) :
    (getAssoc m k).isSome = true ↔ k ∈ objKeys m := by
  rw [Option.isSome_iff_ne_none]
  constructor
  · intro h
    by_contra hk
    exact h ((getAssoc_eq_none_iff m k).2 hk)
  · intro h hn
    exact ((getAssoc_eq_none_iff m k).1 hn) h

theorem setAssoc_of_not_mem (m : List (Str × α)) (k : Str) (v : α) (h : k ∉ objKeys m) :
    setAssoc m k v = m ++ [(k, v)] := by
  induction m with
  | nil => simp [setAssoc]
  | cons e rest ih =>
    obtain ⟨k', v'⟩ := e
    simp only [objKeys, List.map_cons, List.mem_cons] at h
    push_neg at h
    simp [setAssoc, Ne.symm h.1, ih (by simpa [objKeys] using h.2)]

theorem objKeys_setAssoc_mem (m : List (Str × α)) (k : Str) (v : α) (h : k ∈ objKeys m) :
    objKeys (setAssoc m k v) = objKeys m := by
  induction m with
  | nil => simp [objKeys] at h
  | cons e rest ih =>
    obtain ⟨k', v'⟩ := e
    by_cases h2 : k' = k
    · subst h2; simp [setAssoc, objKeys]
    · simp only [objKeys, List.map_cons, List.mem_cons] at h
      rcases h with h | h
      · exact absurd h.symm h2
      · have hrec := ih (by simpa [objKeys] using h)
        simp only [objKeys] at hrec
        simp [setAssoc, objKeys, h2, hrec]

theorem objKeys_setAssoc_not_mem (m : List (Str × α)) (k : Str) (v : α) (h : k ∉ objKeys m) :
    objKeys (setAssoc m k v) = objKeys m ++ [k] := by
  rw [setAssoc_of_not_mem m k v h]
  simp [objKeys]

theorem nodup_objKeys_setAssoc (m : List (Str × α)) (k : Str) (v : α)
    (h : (objKeys m).Nodup) : (objKeys (setAssoc m k v)).Nodup := by
  by_cases hm : k ∈ objKeys m
  · rwa [objKeys_setAssoc_mem m k v hm]
  · rw [objKeys_setAssoc_not_mem m k v hm]
    simpa [List.nodup_append] using ⟨h, hm⟩

/-! ### Trim lemmas -/

/-- `true` when the string is empty or opens with a non-whitespace character. -/
def headNonWS (s : Str) : Bool :=
  match s with
  | [] => true
  | c :: _ => !isWS c

/-- `true` when the string is empty or ends with a non-whitespace character. -/
def lastNonWS (s : Str) : Bool := headNonWS s.reverse

/-- `true` when JS `trim` leaves the string unchanged. -/
def trimStable (s : Str) : Bool := headNonWS s && lastNonWS s

theorem trimLeft_eq_self (s : Str) (h : headNonWS s = true) : trimLeft s = s := by
  cases s with
  | nil => rfl
  | cons c t =>
    simp only [headNonWS, Bool.not_eq_true'] at h
    simp [trimLeft, List.dropWhile_cons, h]

theorem trimRight_eq_self (s : Str) (h : lastNonWS s = true) : trimRight s = s := by
  unfold lastNonWS at h
  cases hr : s.reverse with
  | nil =>
    have : s = [] := by simpa using congrArg List.reverse hr
    simp [this, trimRight]
  | cons c t =>
    rw [hr] at h
    simp only [headNonWS, Bool.not_eq_true'] at h
    have : s.reverse.dropWhile isWS = s.reverse := by
      rw [hr]; simp [List.dropWhile_cons, h]
    simp [trimRight, this]

theorem trimStr_eq_self (s : Str) (h : trimStable s = true) : trimStr s = s := by
  simp only [trimStable, Bool.and_eq_true] at h
  rw [trimStr, trimLeft_eq_self s h.1, trimRight_eq_self s h.2]

theorem trimLeft_cons_ws (c : Char) (s : Str) (h : isWS c = true) :
    trimLeft (c :: s) = trimLeft s := by
  simp [trimLeft, List.dropWhile_cons, h]

theorem trimRight_append_ws (s : Str) (c : Char) (h : isWS c = true) :
    trimRight (s ++ [c]) = trimRight s := by
  simp [trimRight, List.dropWhile_cons, h]

theorem headNonWS_append (s t : Str) (hs : s ≠ []) (h : headNonWS s = true) :
    headNonWS (s ++ t) = true := by
  cases s with
  | nil => exact absurd rfl hs
  | cons c s' => simpa [headNonWS] using h

theorem lastNonWS_append (s t : Str) (ht : t ≠ []) (h : lastNonWS t = true) :
    lastNonWS (s ++ t) = true := by
  unfold lastNonWS at *
  rw [List.reverse_append]
  cases htr : t.reverse with
  | nil =>
    have : t = [] := by simpa using congrArg List.reverse htr
    exact absurd this ht
  | cons c r =>
    rw [htr] at h
    simpa [headNonWS] using (by simpa [headNonWS] using h : (!isWS c) = true)

/-! ### Occurrence and split lemmas -/

theorem jsIncludes_cons (sep : Str) (c : Char) (rest : Str) :
    jsIncludes (c :: rest) sep = (jsStartsWith (c :: rest) sep || jsIncludes rest sep) := by
  simp only [jsIncludes, breakOnSub]
  by_cases h : jsStartsWith (c :: rest) sep = true
  · simp [h]
  · simp only [h, if_neg, Bool.false_or]
    cases hb : breakOnSub sep rest with
    | none => simp [hb]
    | some pr => obtain ⟨pre, post⟩ := pr; simp [hb]

theorem jsIncludes_eq_has2 (a b : Char) (s : Str) : jsIncludes s [a, b] = has2 a b s := by
  induction s with
  | nil => simp [jsIncludes, breakOnSub, has2]
  | cons c rest ih =>
    rw [jsIncludes_cons, ih]
    cases rest with
    | nil => simp [jsStartsWith, has2]
    | cons d r =>
      by_cases hc : c = a
      · subst hc
        by_cases hd : d = b
        · subst hd; simp [jsStartsWith, has2]
        · simp [jsStartsWith, has2, hd]
      · simp [jsStartsWith, has2, hc]

theorem has2_append_true (a b : Char) (x y : Str) (h : has2 a b (x ++ y) = true) :
    has2 a b x = true ∨ has2 a b y = true ∨ (x.getLast? = some a ∧ y.head? = some b) := by
  induction x with
  | nil => simp at h; right; left; exact h
  | cons c x' ih =>
    cases x' with
    | nil =>
      cases y with
      | nil => simp at h; simp [has2] at h
      | cons d y' =>
        simp only [List.singleton_append] at h
        simp only [has2] at h
        rw [Bool.or_eq_true] at h
        rcases h with h1 | h1
        · simp only [Bool.and_eq_true, decide_eq_true_eq] at h1
          right; right
          simp [h1.1, h1.2]
        · right; left; exact h1
    | cons c2 x'' =>
      simp only [List.cons_append] at h
      simp only [has2] at h
      rw [Bool.or_eq_true] at h
      rcases h with h1 | h1
      · left
        simp only [has2]
        simp [h1]
      · have h2 : has2 a b ((c2 :: x'') ++ y) = true := by simpa using h1
        rcases ih h2 with h3 | h3 | h3
        · left; simp only [has2]; simp [h3]
        · right; left; exact h3
        · right; right
          refine ⟨?_, h3.2⟩
          simpa [List.getLast?_cons_cons] using h3.1

theorem has2_append_false (a b : Char) (x y : Str) (hx : has2 a b x = false)
    (hy : has2 a b y = false) (hb : ¬(x.getLast? = some a ∧ y.head? = some b)) :
    has2 a b (x ++ y) = false := by
  by_contra h
  rw [Bool.not_eq_false] at h
  rcases has2_append_true a b x y h with h1 | h1 | h1
  · rw [hx] at h1; cases h1
  · rw [hy] at h1; cases h1
  · exact hb h1

theorem breakOnSub_none_of_has2_false (a b : Char) (s : Str) (h : has2 a b s = false) :
    breakOnSub [a, b] s = none := by
  have hinc : jsIncludes s [a, b] = false := by rw [jsIncludes_eq_has2, h]
  cases hb : breakOnSub [a, b] s with
  | none => rfl
  | some pr => rw [jsIncludes, hb] at hinc; simp at hinc

theorem breakOnSub2_exact (a b : Char) (hab : a ≠ b) (A B : Str) (hA : has2 a b A = false) :
    breakOnSub [a, b] (A ++ a :: b :: B) = some (A, B) := by
  induction A with
  | nil =>
    have hpre : jsStartsWith (a :: b :: B) [a, b] = true := by
      simpa using jsStartsWith_append_self [a, b] B
    simp [breakOnSub, hpre]
  | cons c A' ih =>
    have hA' : has2 a b A' = false := by
      cases A' with
      | nil => rfl
      | cons d A'' =>
        simp only [has2, Bool.or_eq_false_iff] at hA
        exact hA.2
    have hnot : jsStartsWith (c :: (A' ++ a :: b :: B)) [a, b] = false := by
      cases A' with
      | nil =>
        by_cases hc : c = a
        · subst hc
          simp [jsStartsWith, hab]
        · simp [jsStartsWith, hc]
      | cons d A'' =>
        by_cases hc : c = a
        · subst hc
          by_cases hd : d = b
          · subst hd
            simp only [has2, Bool.or_eq_false_iff] at hA
            simp at hA
          · simp [jsStartsWith, hd]
        · simp [jsStartsWith, hc]
    simp only [List.cons_append, breakOnSub, List.append_eq]
    rw [hnot]
    simp only [Bool.false_eq_true, if_false]
    rw [ih hA']

theorem breakOnSub1_none (c : Char) (s : Str) (h : c ∉ s) : breakOnSub [c] s = none := by
  induction s with
  | nil => simp [breakOnSub]
  | cons d rest ih =>
    simp only [List.mem_cons] at h
    push_neg at h
    have hnot : jsStartsWith (d :: rest) [c] = false := by
      simp [jsStartsWith, Ne.symm h.1]
    simp only [breakOnSub, hnot, Bool.false_eq_true, if_false]
    rw [ih h.2]

theorem breakOnSub1_exact (c : Char) (A B : Str) (hA : c ∉ A) :
    breakOnSub [c] (A ++ c :: B) = some (A, B) := by
  induction A with
  | nil =>
    have hpre : jsStartsWith (c :: B) [c] = true := by
      simpa using jsStartsWith_append_self [c] B
    simp [breakOnSub, hpre]
  | cons d A' ih =>
    simp only [List.mem_cons] at hA
    push_neg at hA
    have hnot : jsStartsWith (d :: (A' ++ c :: B)) [c] = false := by
      simp [jsStartsWith, Ne.symm hA.1]
    simp only [List.cons_append, breakOnSub, List.append_eq]
    rw [hnot]
    simp only [Bool.false_eq_true, if_false]
    rw [ih hA.2]

theorem splitOnSub_of_none (sep : Str) (s : Str) (h : breakOnSub sep s = none) :
    splitOnSub sep s = [s] := by
  rw [splitOnSub]
  by_cases hsep : sep = []
  · simp [hsep]
  · rw [if_neg hsep]
    simp only [splitOnSubAux, h]

theorem splitOnSub_of_some (sep : Str) (hsep : sep ≠ []) (s pre post : Str)
    (h : breakOnSub sep s = some (pre, post)) :
    splitOnSub sep s = pre :: splitOnSub sep post := by
  have h1 : splitOnSub sep s = pre :: splitOnSubAux sep s.length post := by
    rw [splitOnSub, if_neg hsep]
    show splitOnSubAux sep (Nat.succ s.length) s = _
    simp only [splitOnSubAux, h]
  rw [h1, splitOnSub, if_neg hsep]
  rw [splitOnSubAux_fuel sep hsep s.length (post.length + 1) post
    (breakOnSub_post_lt sep hsep s pre post h) (by omega)]

theorem splitOnSub1_nodcc (c : Char) (s : Str) (h : c ∉ s) : splitOnSub [c] s = [s] :=
  splitOnSub_of_none [c] s (breakOnSub1_none c s h)

theorem splitOnSub1_exact (c : Char) (A B : Str) (hA : c ∉ A) :
    splitOnSub [c] (A ++ c :: B) = A :: splitOnSub [c] B :=
  splitOnSub_of_some [c] (by simp) (A ++ c :: B) A B (breakOnSub1_exact c A B hA)

theorem splitOnSub2_exact (a b : Char) (hab : a ≠ b) (A B : Str) (hA : has2 a b A = false)
    (hB : has2 a b B = false) :
    splitOnSub [a, b] (A ++ a :: b :: B) = [A, B] := by
  rw [splitOnSub_of_some [a, b] (by simp) _ A B (breakOnSub2_exact a b hab A B hA),
    splitOnSub_of_none [a, b] B (breakOnSub_none_of_has2_false a b B hB)]

theorem splitOnSub_ne_nil (sep s : Str) : splitOnSub sep s ≠ [] := by
  cases h : breakOnSub sep s with
  | none => rw [splitOnSub_of_none sep s h]; simp
  | some pr =>
    obtain ⟨pre, post⟩ := pr
    by_cases hsep : sep = []
    · rw [splitOnSub, if_pos hsep]; simp
    · rw [splitOnSub_of_some sep hsep s pre post h]; simp

theorem strJoin_cons (sep : Str) (x : Str) (rest : List Str) (h : rest ≠ []) :
    strJoin sep (x :: rest) = x ++ sep ++ strJoin sep rest := by
  cases rest with
  | nil => exact absurd rfl h
  | cons y t => rfl

theorem strJoin_splitOnSub_aux (sep : Str) (hsep : sep ≠ []) :
    ∀ (n : Nat) (s : Str), s.length ≤ n → strJoin sep (splitOnSub sep s) = s := by
  intro n
  induction n with
  | zero =>
    intro s hs
    have hz : s = [] := by
      cases s with
      | nil => rfl
      | cons c t => simp at hs
    subst hz
    have hb : breakOnSub sep [] = none := by
      cases sep with
      | nil => exact absurd rfl hsep
      | cons a t => simp [breakOnSub]
    rw [splitOnSub_of_none sep [] hb]
    rfl
  | succ n ih =>
    intro s hs
    cases h : breakOnSub sep s with
    | none => rw [splitOnSub_of_none sep s h]; rfl
    | some pr =>
      obtain ⟨pre, post⟩ := pr
      rw [splitOnSub_of_some sep hsep s pre post h]
      rw [strJoin_cons sep pre _ (splitOnSub_ne_nil sep post)]
      have hlt : post.length < s.length := by
        have heq := breakOnSub_eq sep s pre post h
        have hlen : s.length = pre.length + sep.length + post.length := by
          rw [heq]; simp [List.length_append]; omega
        have hpos : 0 < sep.length := List.length_pos.2 hsep
        omega
      rw [ih post (by omega)]
      exact (breakOnSub_eq sep s pre post h).symm

theorem strJoin_splitOnSub (sep : Str) (hsep : sep ≠ []) (s : Str) :
    strJoin sep (splitOnSub sep s) = s :=
  strJoin_splitOnSub_aux sep hsep s.length s (Nat.le_refl _)

/-! ### Lemmas about the stable sort model -/

theorem insLe_perm (le : α → α → Bool) (x : α) (l : List α) :
    (insLe le x l).Perm (x :: l) := by
  induction l with
  | nil => simp [insLe]
  | cons y ys ih =>
    simp only [insLe]
    by_cases hle : le y x = true
    · rw [if_pos hle]
      exact (ih.cons y).trans (List.Perm.swap x y ys)
    · rw [if_neg hle]

theorem pairwise_insLe (le : α → α → Bool)
    (htot : ∀ a b, le a b = true ∨ le b a = true)
    (htr : ∀ a b c, le a b = true → le b c = true → le a c = true)
    (x : α) (l : List α) (h : l.Pairwise (fun a b => le a b = true)) :
    (insLe le x l).Pairwise (fun a b => le a b = true) := by
  induction l with
  | nil => simp [insLe]
  | cons y ys ih =>
    rcases List.pairwise_cons.1 h with ⟨hy, hys⟩
    by_cases hle : le y x = true
    · rw [insLe, if_pos hle]
      refine List.pairwise_cons.2 ⟨?_, ih hys⟩
      intro z hz
      have hz' : z ∈ x :: ys := (insLe_perm le x ys).mem_iff.1 hz
      rcases List.mem_cons.1 hz' with rfl | hz2
      · exact hle
      · exact hy z hz2
    · rw [insLe, if_neg hle]
      refine List.pairwise_cons.2 ⟨?_, h⟩
      intro z hz
      have hxy : le x y = true := by
        rcases htot x y with h1 | h1
        · exact h1
        · exact absurd h1 hle
      rcases List.mem_cons.1 hz with rfl | hz2
      · exact hxy
      · exact htr x y z hxy (hy z hz2)

theorem jsSort_aux_perm (le : α → α → Bool) :
    ∀ (l acc : List α), (l.foldl (fun acc x => insLe le x acc) acc).Perm (acc ++ l) := by
  intro l
  induction l with
  | nil => intro acc; simp
  | cons x l' ih =>
    intro acc
    have h1 := ih (insLe le x acc)
    have h2 : (insLe le x acc ++ l').Perm ((x :: acc) ++ l') :=
      (insLe_perm le x acc).append_right l'
    exact h1.trans (h2.trans (@List.perm_middle α x acc l').symm)

theorem jsSort_perm (le : α → α → Bool) (l : List α) : (jsSort le l).Perm l := by
  simpa [jsSort] using jsSort_aux_perm le l []

theorem jsSort_pairwise (le : α → α → Bool)
    (htot : ∀ a b, le a b = true ∨ le b a = true)
    (htr : ∀ a b c, le a b = true → le b c = true → le a c = true)
    (l : List α) : (jsSort le l).Pairwise (fun a b => le a b = true) := by
  have haux : ∀ (l acc : List α), acc.Pairwise (fun a b => le a b = true) →
      (l.foldl (fun acc x => insLe le x acc) acc).Pairwise (fun a b => le a b = true) := by
    intro l
    induction l with
    | nil => intro acc h; simpa using h
    | cons x l' ih =>
      intro acc h
      exact ih (insLe le x acc) (pairwise_insLe le htot htr x acc h)
  exact haux l [] (by simp)

theorem lexLe_total : ∀ a b : Str, lexLe a b = true ∨ lexLe b a = true := by
  intro a
  induction a with
  | nil => intro b; left; cases b <;> rfl
  | cons c a' ih =>
    intro b
    cases b with
    | nil => right; rfl
    | cons d b' =>
      by_cases h1 : c.toNat < d.toNat
      · left; simp [lexLe, h1]
      · by_cases h2 : d.toNat < c.toNat
        · right; simp [lexLe, h2]
        · rcases ih b' with h | h
          · left; simp [lexLe, h1, h2, h]
          · right
            have h1' : ¬d.toNat < c.toNat := h2
            have h2' : ¬c.toNat < d.toNat := h1
            simp [lexLe, h1', h2', h]

theorem lexLe_cons_iff (c d : Char) (a b : Str) :
    lexLe (c :: a) (d :: b) = true ↔
      (c.toNat < d.toNat ∨ (c.toNat = d.toNat ∧ lexLe a b = true)) := by
  simp only [lexLe]
  by_cases h1 : c.toNat < d.toNat
  · simp [h1]
  · by_cases h2 : d.toNat < c.toNat
    · simp only [h1, if_false, h2, if_true]
      constructor
      · intro h; cases h
      · intro h
        exfalso
        rcases h with h | h
        · exact h
        · rcases h with ⟨h, _⟩
          omega
    · have he : c.toNat = d.toNat := by omega
      simp [h1, h2, he]

theorem lexLe_trans : ∀ a b c : Str, lexLe a b = true → lexLe b c = true →
    lexLe a c = true := by
  intro a
  induction a with
  | nil => intro b c _ _; cases c <;> rfl
  | cons x a' ih =>
    intro b c hab hbc
    cases b with
    | nil => simp [lexLe] at hab
    | cons y b' =>
      cases c with
      | nil => simp [lexLe] at hbc
      | cons z c' =>
        rw [lexLe_cons_iff] at hab hbc ⊢
        rcases hab with h | ⟨he, hr⟩
        · rcases hbc with h2 | ⟨he2, _⟩
          · left; omega
          · left; omega
        · rcases hbc with h2 | ⟨he2, hr2⟩
          · left; omega
          · right; exact ⟨by omega, ih b' c' hr hr2⟩

/-! ### Further association-list lemmas -/

theorem getAssoc_mem (m : List (Str × α)) (k : Str) (v : α) (h : getAssoc m k = some v) :
    (k, v) ∈ m := by
  induction m with
  | nil => simp [getAssoc] at h
  | cons e rest ih =>
    obtain ⟨k', v'⟩ := e
    by_cases hk : k' = k
    · subst hk
      rw [getAssoc, if_pos rfl] at h
      injection h with h
      subst h
      exact List.mem_cons_self _ _
    · rw [getAssoc, if_neg hk] at h
      exact List.mem_cons_of_mem _ (ih h)

theorem mem_setAssoc_elim (m : List (Str × α)) (k : Str) (v : α) (e : Str × α)
    (h : e ∈ setAssoc m k v) : e ∈ m ∨ e = (k, v) := by
  induction m with
  | nil => simp [setAssoc] at h; right; exact h
  | cons e' rest ih =>
    obtain ⟨k', v'⟩ := e'
    by_cases hk : k' = k
    · subst hk
      rw [setAssoc, if_pos rfl] at h
      rcases List.mem_cons.1 h with h1 | h1
      · right; exact h1
      · left; exact List.mem_cons_of_mem _ h1
    · rw [setAssoc, if_neg hk] at h
      rcases List.mem_cons.1 h with h1 | h1
      · left; simp [h1]
      · rcases ih h1 with h2 | h2
        · left; exact List.mem_cons_of_mem _ h2
        · right; exact h2

theorem getAssoc_append_of_some (m m' : List (Str × α)) (k : Str) (v : α)
    (h : getAssoc m k = some v) : getAssoc (m ++ m') k = some v := by
  induction m with
  | nil => simp [getAssoc] at h
  | cons e rest ih =>
    obtain ⟨k', v'⟩ := e
    by_cases hk : k' = k
    · subst hk
      rw [getAssoc, if_pos rfl] at h
      simpa [getAssoc] using h
    · rw [getAssoc, if_neg hk] at h
      simpa [getAssoc, hk] using ih h

theorem getAssoc_append_of_none (m m' : List (Str × α)) (k : Str)
    (h : getAssoc m k = none) : getAssoc (m ++ m') k = getAssoc m' k := by
  induction m with
  | nil => simp
  | cons e rest ih =>
    obtain ⟨k', v'⟩ := e
    by_cases hk : k' = k
    · rw [getAssoc, if_pos hk] at h; cases h
    · rw [getAssoc, if_neg hk] at h
      simpa [getAssoc, hk] using ih h

/-! ### Invariants of `extractPrimes` -/

theorem addPrimeEntry_inv (P : Str → SrcPart → Prop) (acc : List (Str × List SrcPart))
    (source : Str) (rw : RewardSrc)
    (hacc : ∀ k ps, (k, ps) ∈ acc → ps ≠ [] ∧ ∀ p ∈ ps, P k p)
    (hnew : jsIncludes rw.item strForma = false → jsIncludes rw.item strPrime = true →
      P (primeKeyOf rw.item) ⟨rw.item, rw.rarity, source⟩) :
    ∀ k ps, (k, ps) ∈ addPrimeEntry acc source rw → ps ≠ [] ∧ ∀ p ∈ ps, P k p := by
  intro k ps hmem
  simp only [addPrimeEntry] at hmem
  by_cases hcond : (!jsIncludes rw.item strForma && jsIncludes rw.item strPrime) = true
  · rw [if_pos hcond] at hmem
    simp only [Bool.and_eq_true, Bool.not_eq_true'] at hcond
    have hP := hnew hcond.1 hcond.2
    cases hget : getAssoc acc (primeKeyOf rw.item) with
    | some ps0 =>
      rw [hget] at hmem
      rcases mem_setAssoc_elim _ _ _ _ hmem with h1 | h1
      · exact hacc k ps h1
      · injection h1 with h2 h3
        subst h2
        subst h3
        have h0 := hacc _ _ (getAssoc_mem _ _ _ hget)
        refine ⟨by simp, ?_⟩
        intro p hp
        rcases List.mem_append.1 hp with h4 | h4
        · exact h0.2 p h4
        · rw [List.mem_singleton.1 h4]
          exact hP
    | none =>
      rw [hget] at hmem
      rcases List.mem_append.1 hmem with h1 | h1
      · exact hacc k ps h1
      · rcases List.mem_singleton.1 h1 with h2
        injection h2 with h3 h4
        subst h3
        subst h4
        exact ⟨by simp, by intro p hp; rw [List.mem_singleton.1 hp]; exact hP⟩
  · rw [if_neg hcond] at hmem
    exact hacc k ps hmem

theorem extractPrimes_fold1_inv (P : Str → SrcPart → Prop) (source : Str) :
    ∀ (rws : List RewardSrc) (acc : List (Str × List SrcPart)),
      (∀ k ps, (k, ps) ∈ acc → ps ≠ [] ∧ ∀ p ∈ ps, P k p) →
      (∀ rw ∈ rws, jsIncludes rw.item strForma = false → jsIncludes rw.item strPrime = true →
        P (primeKeyOf rw.item) ⟨rw.item, rw.rarity, source⟩) →
      ∀ k ps, (k, ps) ∈ rws.foldl (fun a rw => addPrimeEntry a source rw) acc →
        ps ≠ [] ∧ ∀ p ∈ ps, P k p := by
  intro rws
  induction rws with
  | nil => intro acc hacc _ k ps h; exact hacc k ps h
  | cons rw rws' ih =>
    intro acc hacc hnew k ps h
    refine ih (addPrimeEntry acc source rw)
      (addPrimeEntry_inv P acc source rw hacc (hnew rw (List.mem_cons_self _ _))) ?_ k ps h
    intro rw' hrw'
    exact hnew rw' (List.mem_cons_of_mem _ hrw')

theorem extractPrimes_fold2_inv (P : Str → SrcPart → Prop) :
    ∀ (l : List (Str × List RewardSrc)) (acc : List (Str × List SrcPart)),
      (∀ k ps, (k, ps) ∈ acc → ps ≠ [] ∧ ∀ p ∈ ps, P k p) →
      (∀ e ∈ l, ∀ rw ∈ e.2,
        jsIncludes rw.item strForma = false → jsIncludes rw.item strPrime = true →
        P (primeKeyOf rw.item) ⟨rw.item, rw.rarity, e.1⟩) →
      ∀ k ps,
        (k, ps) ∈ l.foldl (fun acc e => e.2.foldl (fun a rw => addPrimeEntry a e.1 rw) acc) acc →
        ps ≠ [] ∧ ∀ p ∈ ps, P k p := by
  intro l
  induction l with
  | nil => intro acc hacc _ k ps h; exact hacc k ps h
  | cons e l' ih =>
    intro acc hacc hnew k ps h
    refine ih _ ?_ ?_ k ps h
    · exact extractPrimes_fold1_inv P e.1 e.2 acc hacc
        (fun rw hrw => hnew e (List.mem_cons_self _ _) rw hrw) 
    · intro e' he' rw hrw
      exact hnew e' (List.mem_cons_of_mem _ he') rw hrw

/-- Soundness of the grouping: every recorded part traces back to a reward
of the input relic data, passed the Forma/Prime filter, and its group key
is the truncate-and-reappend key of its item name. -/
theorem extractPrimes_sound (rd : List (Str × List RewardSrc)) :
    ∀ k ps, (k, ps) ∈ extractPrimes rd → ps ≠ [] ∧ ∀ p ∈ ps,
      ∃ r rws, (r, rws) ∈ rd ∧ (⟨p.item, p.rarity⟩ : RewardSrc) ∈ rws ∧ p.source = r ∧
        jsIncludes p.item strForma = false ∧ jsIncludes p.item strPrime = true ∧
        k = primeKeyOf p.item := by
  intro k ps h
  refine extractPrimes_fold2_inv
    (fun k p => ∃ r rws, (r, rws) ∈ rd ∧ (⟨p.item, p.rarity⟩ : RewardSrc) ∈ rws ∧
      p.source = r ∧ jsIncludes p.item strForma = false ∧ jsIncludes p.item strPrime = true ∧
      k = primeKeyOf p.item)
    rd [] (by intro k ps h; simp at h) ?_ k ps h
  intro e he rw hrw hf hp
  exact ⟨e.1, e.2, by simpa using he, hrw, rfl, hf, hp, rfl⟩

theorem addPrimeEntry_get_mono (acc : List (Str × List SrcPart)) (source : Str) (rw : RewardSrc)
    (k : Str) (ps : List SrcPart) (p : SrcPart)
    (h : getAssoc acc k = some ps) (hp : p ∈ ps) :
    ∃ ps', getAssoc (addPrimeEntry acc source rw) k = some ps' ∧ p ∈ ps' := by
  simp only [addPrimeEntry]
  by_cases hcond : (!jsIncludes rw.item strForma && jsIncludes rw.item strPrime) = true
  · rw [if_pos hcond]
    by_cases hkey : primeKeyOf rw.item = k
    · rw [hkey]
      rw [h]
      exact ⟨ps ++ [⟨rw.item, rw.rarity, source⟩], getAssoc_setAssoc_self _ _ _,
        List.mem_append.2 (Or.inl hp)⟩
    · cases hget : getAssoc acc (primeKeyOf rw.item) with
      | some ps0 =>
        exact ⟨ps, by rw [getAssoc_setAssoc_ne _ _ _ _ hkey]; exact h, hp⟩
      | none =>
        exact ⟨ps, getAssoc_append_of_some _ _ _ _ h, hp⟩
  · rw [if_neg hcond]
    exact ⟨ps, h, hp⟩

theorem addPrimeEntry_adds (acc : List (Str × List SrcPart)) (source : Str) (rw : RewardSrc)
    (hf : jsIncludes rw.item strForma = false) (hp : jsIncludes rw.item strPrime = true) :
    ∃ ps', getAssoc (addPrimeEntry acc source rw) (primeKeyOf rw.item) = some ps' ∧
      (⟨rw.item, rw.rarity, source⟩ : SrcPart) ∈ ps' := by
  simp only [addPrimeEntry]
  rw [if_pos (by simp [hf, hp])]
  cases hget : getAssoc acc (primeKeyOf rw.item) with
  | some ps0 =>
    exact ⟨ps0 ++ [⟨rw.item, rw.rarity, source⟩], getAssoc_setAssoc_self _ _ _, by simp⟩
  | none =>
    refine ⟨[⟨rw.item, rw.rarity, source⟩], ?_, by simp⟩
    rw [getAssoc_append_of_none _ _ _ hget]
    simp [getAssoc]

theorem fold1_get_mono (source : Str) :
    ∀ (rws : List RewardSrc) (acc : List (Str × List SrcPart)) (k : Str) (ps : List SrcPart)
      (p : SrcPart), getAssoc acc k = some ps → p ∈ ps →
      ∃ ps', getAssoc (rws.foldl (fun a rw => addPrimeEntry a source rw) acc) k = some ps' ∧
        p ∈ ps' := by
  intro rws
  induction rws with
  | nil => intro acc k ps p h hp; exact ⟨ps, h, hp⟩
  | cons rw rws' ih =>
    intro acc k ps p h hp
    obtain ⟨ps1, h1, hp1⟩ := addPrimeEntry_get_mono acc source rw k ps p h hp
    exact ih (addPrimeEntry acc source rw) k ps1 p h1 hp1

theorem fold2_get_mono :
    ∀ (l : List (Str × List RewardSrc)) (acc : List (Str × List SrcPart)) (k : Str)
      (ps : List SrcPart) (p : SrcPart), getAssoc acc k = some ps → p ∈ ps →
      ∃ ps', getAssoc
        (l.foldl (fun acc e => e.2.foldl (fun a rw => addPrimeEntry a e.1 rw) acc) acc) k =
          some ps' ∧ p ∈ ps' := by
  intro l
  induction l with
  | nil => intro acc k ps p h hp; exact ⟨ps, h, hp⟩
  | cons e l' ih =>
    intro acc k ps p h hp
    obtain ⟨ps1, h1, hp1⟩ := fold1_get_mono e.1 e.2 acc k ps p h hp
    exact ih _ k ps1 p h1 hp1

/-- Completeness of the grouping: every reward that contains `'Prime'` and
not `'Forma'` lands, with its relic as source, in the group keyed by the
truncate-and-reappend key of its item name. -/
theorem extractPrimes_complete (rd : List (Str × List RewardSrc)) :
    ∀ r rws, (r, rws) ∈ rd → ∀ rw ∈ rws,
      jsIncludes rw.item strForma = false → jsIncludes rw.item strPrime = true →
      ∃ ps, getAssoc (extractPrimes rd) (primeKeyOf rw.item) = some ps ∧
        (⟨rw.item, rw.rarity, r⟩ : SrcPart) ∈ ps := by
  intro r rws hmem rw hrw hf hp
  obtain ⟨l1, l2, rfl⟩ := List.append_of_mem hmem
  obtain ⟨w1, w2, rfl⟩ := List.append_of_mem hrw
  rw [extractPrimes, List.foldl_append]
  rw [List.foldl_cons]
  have hstep : ∃ ps',
      getAssoc ((w1 ++ rw :: w2).foldl (fun a x => addPrimeEntry a r x)
        (l1.foldl (fun acc e => e.2.foldl (fun a x => addPrimeEntry a e.1 x) acc) [])) 
        (primeKeyOf rw.item) = some ps' ∧ (⟨rw.item, rw.rarity, r⟩ : SrcPart) ∈ ps' := by
    rw [List.foldl_append, List.foldl_cons]
    obtain ⟨ps0, h0, hp0⟩ := addPrimeEntry_adds
      (w1.foldl (fun a x => addPrimeEntry a r x)
        (l1.foldl (fun acc e => e.2.foldl (fun a x => addPrimeEntry a e.1 x) acc) [])) r rw hf hp
    exact fold1_get_mono r w2 _ _ _ _ h0 hp0
  obtain ⟨ps1, h1, hp1⟩ := hstep
  exact fold2_get_mono l2 _ _ _ _ h1 hp1

theorem addPrimeEntry_keys_nodup (acc : List (Str × List SrcPart)) (source : Str)
    (rw : RewardSrc) (h : (objKeys acc).Nodup) :
    (objKeys (addPrimeEntry acc source rw)).Nodup := by
  simp only [addPrimeEntry]
  by_cases hcond : (!jsIncludes rw.item strForma && jsIncludes rw.item strPrime) = true
  · rw [if_pos hcond]
    cases hget : getAssoc acc (primeKeyOf rw.item) with
    | some ps0 =>
      exact nodup_objKeys_setAssoc _ _ _ h
    | none =>
      have hnot : primeKeyOf rw.item ∉ objKeys acc := (getAssoc_eq_none_iff _ _).1 hget
      simpa [objKeys, List.nodup_append] using ⟨by simpa [objKeys] using h, by simpa [objKeys] using hnot⟩
  · rw [if_neg hcond]
    exact h

theorem extractPrimes_keys_nodup (rd : List (Str × List RewardSrc)) :
    (objKeys (extractPrimes rd)).Nodup := by
  have aux1 : ∀ (rws : List RewardSrc) (source : Str) (acc : List (Str × List SrcPart)),
      (objKeys acc).Nodup →
      (objKeys (rws.foldl (fun a x => addPrimeEntry a source x) acc)).Nodup := by
    intro rws
    induction rws with
    | nil => intro source acc h; exact h
    | cons rw rws' ih =>
      intro source acc h
      exact ih source _ (addPrimeEntry_keys_nodup acc source rw h)
  have aux2 : ∀ (l : List (Str × List RewardSrc)) (acc : List (Str × List SrcPart)),
      (objKeys acc).Nodup →
      (objKeys (l.foldl (fun acc e => e.2.foldl (fun a x => addPrimeEntry a e.1 x) acc) acc)).Nodup := by
    intro l
    induction l with
    | nil => intro acc h; exact h
    | cons e l' ih =>
      intro acc h
      exact ih _ (aux1 e.2 e.1 acc h)
  exact aux2 rd [] (by simp [objKeys])

/-- Conversion of a Lean string literal to the `Str` model. -/
def strL (s : String) : Str := s.data

/-- Spec-side formulation of §4.2: a small ordered list of
`(matchToken, label)` pairs evaluated in order, first match wins, empty
label when nothing matches. -/
def specFirstMatch : List (Str × Str) → Str → Str
  | [], _ => []
  | (tok, lab) :: rest, s => if jsIncludes s tok then lab else specFirstMatch rest s

/-- C6: the rarity classification inside `findRelicTableData` is a pure
function of the drop-chance cell string, decided by substring containment
against three literal percentages in a fixed order with first match
winning: a string containing `'25.33%'` yields `'Common'`, otherwise one
containing `'11.00%'` yields `'Uncommon'`, otherwise one containing
`'2.00%'` yields `'Rare'`, and any other string yields the empty string —
equivalently, it is the first-match evaluation of the ordered
token/label list of §4.2. -/
theorem C6_rarity_classifier :
    (∀ s, determineRarity s =
      specFirstMatch [(pctCommon, strCommon), (pctUncommon, strUncommon), (pctRare, strRare)] s) ∧
    (∀ s, jsIncludes s pctCommon = true → determineRarity s = strCommon) ∧
    (∀ s, jsIncludes s pctCommon = false → jsIncludes s pctUncommon = true →
      determineRarity s = strUncommon) ∧
    (∀ s, jsIncludes s pctCommon = false → jsIncludes s pctUncommon = false →
      jsIncludes s pctRare = true → determineRarity s = strRare) ∧
    (∀ s, jsIncludes s pctCommon = false → jsIncludes s pctUncommon = false →
      jsIncludes s pctRare = false → determineRarity s = []) := by
  refine ⟨fun s => rfl, fun s h => ?_, fun s h1 h2 => ?_, fun s h1 h2 h3 => ?_,
    fun s h1 h2 h3 => ?_⟩
  · simp [determineRarity, h]
  · simp [determineRarity, h1, h2]
  · simp [determineRarity, h1, h2, h3]
  · simp [determineRarity, h1, h2, h3]

theorem C6_rarity_classifier_witness :
    (jsIncludes (strL "Rare (2.00%)") pctCommon = false ∧
     jsIncludes (strL "Rare (2.00%)") pctUncommon = false ∧
     jsIncludes (strL "Rare (2.00%)") pctRare = true ∧
     determineRarity (strL "Rare (2.00%)") = strRare) ∧
    (jsIncludes (strL "25.33% 2.00%") pctCommon = true ∧
     determineRarity (strL "25.33% 2.00%") = strCommon) ∧
    (jsIncludes (strL "Uncommon (11.00%)") pctCommon = false ∧
     jsIncludes (strL "Uncommon (11.00%)") pctUncommon = true ∧
     determineRarity (strL "Uncommon (11.00%)") = strUncommon) ∧
    determineRarity (strL "no percentage here") = [] :=
  ⟨⟨by decide, by decide, by decide,
      C6_rarity_classifier.2.2.2.1 _ (by decide) (by decide) (by decide)⟩,
   ⟨by decide, C6_rarity_classifier.2.1 _ (by decide)⟩,
   ⟨by decide, by decide, C6_rarity_classifier.2.2.1 _ (by decide) (by decide)⟩,
   C6_rarity_classifier.2.2.2.2 _ (by decide) (by decide) (by decide)⟩

/-- C5: `extractPrimes` assigns a reward entry to some ProducedItem if and
only if the item name contains `'Prime'` and not `'Forma'`; the group key
is the item name truncated at `' Prime'` with the marker re-appended, so
`'Volt Prime Systems'` groups under `'Volt Prime'`, and an entry whose
name contains `'Forma'` (or lacks `'Prime'`) contributes to no group. -/
theorem C5_grouper (rd : List (Str × List RewardSrc)) :
    (∀ k ps, (k, ps) ∈ extractPrimes rd → ∀ p ∈ ps,
      ∃ r rws, (r, rws) ∈ rd ∧ (⟨p.item, p.rarity⟩ : RewardSrc) ∈ rws ∧ p.source = r ∧
        jsIncludes p.item strForma = false ∧ jsIncludes p.item strPrime = true ∧
        k = primeKeyOf p.item) ∧
    (∀ r rws, (r, rws) ∈ rd → ∀ rw ∈ rws,
      jsIncludes rw.item strForma = false → jsIncludes rw.item strPrime = true →
      ∃ ps, getAssoc (extractPrimes rd) (primeKeyOf rw.item) = some ps ∧
        (⟨rw.item, rw.rarity, r⟩ : SrcPart) ∈ ps) ∧
    primeKeyOf (strL "Volt Prime Systems") = strL "Volt Prime" := by
  refine ⟨?_, extractPrimes_complete rd, by decide⟩
  intro k ps h
  exact (extractPrimes_sound rd k ps h).2

theorem C5_grouper_witness :
    (∃ ps, getAssoc (extractPrimes [(strL "Lith A1", [⟨strL "Volt Prime Systems", strRare⟩])])
        (primeKeyOf (strL "Volt Prime Systems")) = some ps ∧
      (⟨strL "Volt Prime Systems", strRare, strL "Lith A1"⟩ : SrcPart) ∈ ps) ∧
    primeKeyOf (strL "Volt Prime Systems") = strL "Volt Prime" ∧
    extractPrimes [(strL "Lith A1", [⟨strL "Forma Blueprint", strCommon⟩])] = [] :=
  ⟨(C5_grouper _).2.1 _ _ (List.mem_singleton.2 rfl) _ (List.mem_singleton.2 rfl)
      (by decide) (by decide),
   (C5_grouper []).2.2, by decide⟩

/-- C9: every part recorded in the ProducedItem groups produced by
`extractPrimes` carries a `source` naming an existing Container, i.e. a
key of the input relic dataset. -/
theorem C9_container_ref (rd : List (Str × List RewardSrc)) :
    ∀ k ps, (k, ps) ∈ extractPrimes rd → ∀ p ∈ ps, p.source ∈ objKeys rd := by
  intro k ps h p hp
  obtain ⟨-, hsound⟩ := extractPrimes_sound rd k ps h
  obtain ⟨r, rws, hmem, -, hsrc, -⟩ := hsound p hp
  rw [hsrc]
  exact List.mem_map.2 ⟨(r, rws), hmem, rfl⟩

theorem C9_container_ref_witness :
    ((strL "Volt Prime", [⟨strL "Volt Prime Systems", strRare, strL "Lith A1"⟩]) ∈
      extractPrimes [(strL "Lith A1", [⟨strL "Volt Prime Systems", strRare⟩])]) ∧
    strL "Lith A1" ∈
      objKeys [(strL "Lith A1", [(⟨strL "Volt Prime Systems", strRare⟩ : RewardSrc)])] :=
  ⟨by decide,
   C9_container_ref [(strL "Lith A1", [⟨strL "Volt Prime Systems", strRare⟩])]
     (strL "Volt Prime") [⟨strL "Volt Prime Systems", strRare, strL "Lith A1"⟩] (by decide)
     ⟨strL "Volt Prime Systems", strRare, strL "Lith A1"⟩ (by decide)⟩

/-! ### Category classifier (`HTMLGenerator.separateWarframesWeapons`) -/

/-- Result `{ warframes, weapons }` of the classifier. -/
structure SeparatedPrimes where
  warframes : List (Str × PrimeV2)
  weapons : List (Str × PrimeV2)
deriving DecidableEq, Repr

/-- The frame test of the tolerant `separateWarframesWeapons`: some part
name contains `'Systems'`, `'Chassis'` or `'Neuroptics'`. -/
def isWarframeInfo (info : PrimeV2) : Bool :=
  info.parts.any (fun p =>
    jsIncludes p.part strSystems || jsIncludes p.part strChassis ||
      jsIncludes p.part strNeuroptics)

/-- `HTMLGenerator.separateWarframesWeapons` (tolerant variant): a single
pass over `Object.entries(primes)` pushing each entry into exactly one of
the two objects, realised as two order-preserving filters. -/
def separateWarframesWeapons (primes : List (Str × PrimeV2)) : SeparatedPrimes :=
  ⟨primes.filter (fun e => isWarframeInfo e.2),
   primes.filter (fun e => !isWarframeInfo e.2)⟩

/-- C3: `separateWarframesWeapons` is total — the two buckets partition
the input — an entry with a part containing a frame-specific substring
(in particular `'Chassis'`) is classified frame-like, and an entry none
of whose parts contains such a substring is classified weapon-like. -/
theorem C3_category_classifier (primes : List (Str × PrimeV2)) :
    (((separateWarframesWeapons primes).warframes ++
        (separateWarframesWeapons primes).weapons).Perm primes) ∧
    (∀ e ∈ primes,
      (e ∈ (separateWarframesWeapons primes).warframes ∨
        e ∈ (separateWarframesWeapons primes).weapons) ∧
      ¬(e ∈ (separateWarframesWeapons primes).warframes ∧
        e ∈ (separateWarframesWeapons primes).weapons) ∧
      ((∃ p ∈ e.2.parts, jsIncludes p.part strChassis = true) →
        e ∈ (separateWarframesWeapons primes).warframes) ∧
      ((∃ p ∈ e.2.parts, jsIncludes p.part strSystems = true ∨
          jsIncludes p.part strChassis = true ∨ jsIncludes p.part strNeuroptics = true) →
        e ∈ (separateWarframesWeapons primes).warframes) ∧
      ((∀ p ∈ e.2.parts, jsIncludes p.part strSystems = false ∧
          jsIncludes p.part strChassis = false ∧ jsIncludes p.part strNeuroptics = false) →
        e ∈ (separateWarframesWeapons primes).weapons)) := by
  constructor
  · exact List.filter_append_perm _ primes
  · intro e he
    refine ⟨?_, ?_, ?_, ?_, ?_⟩
    · by_cases h : isWarframeInfo e.2 = true
      · left; exact List.mem_filter.2 ⟨he, h⟩
      · right
        exact List.mem_filter.2 ⟨he, by simp [h]⟩
    · rintro ⟨h1, h2⟩
      have hq1 := (List.mem_filter.1 h1).2
      have hq2 := (List.mem_filter.1 h2).2
      rw [hq1] at hq2
      cases hq2
    · rintro ⟨p, hp, hc⟩
      refine List.mem_filter.2 ⟨he, ?_⟩
      simp only [isWarframeInfo, List.any_eq_true]
      exact ⟨p, hp, by simp [hc]⟩
    · rintro ⟨p, hp, hc⟩
      refine List.mem_filter.2 ⟨he, ?_⟩
      simp only [isWarframeInfo, List.any_eq_true]
      rcases hc with h | h | h
      · exact ⟨p, hp, by simp [h]⟩
      · exact ⟨p, hp, by simp [h]⟩
      · exact ⟨p, hp, by simp [h]⟩
    · intro hall
      refine List.mem_filter.2 ⟨he, ?_⟩
      simp only [isWarframeInfo, Bool.not_eq_true', List.any_eq_false]
      intro p hp
      obtain ⟨h1, h2, h3⟩ := hall p hp
      simp [h1, h2, h3]

theorem C3_category_classifier_witness :
    ((strL "Volt Prime",
        (⟨strL "Volt Prime", [⟨strL "Volt Prime Chassis", strRare, strL "Lith A1"⟩]⟩ : PrimeV2)) ∈
      (separateWarframesWeapons
        [(strL "Volt Prime",
            ⟨strL "Volt Prime", [⟨strL "Volt Prime Chassis", strRare, strL "Lith A1"⟩]⟩),
         (strL "Braton Prime",
            ⟨strL "Braton Prime", [⟨strL "Braton Prime Barrel", strRare, strL "Lith A1"⟩]⟩)]).warframes) ∧
    ((strL "Braton Prime",
        (⟨strL "Braton Prime", [⟨strL "Braton Prime Barrel", strRare, strL "Lith A1"⟩]⟩ : PrimeV2)) ∈
      (separateWarframesWeapons
        [(strL "Volt Prime",
            ⟨strL "Volt Prime", [⟨strL "Volt Prime Chassis", strRare, strL "Lith A1"⟩]⟩),
         (strL "Braton Prime",
            ⟨strL "Braton Prime", [⟨strL "Braton Prime Barrel", strRare, strL "Lith A1"⟩]⟩)]).weapons) :=
  ⟨((C3_category_classifier _).2 _ (by decide)).2.2.1
      ⟨⟨strL "Volt Prime Chassis", strRare, strL "Lith A1"⟩, by decide, by decide⟩,
   ((C3_category_classifier _).2 _ (by decide)).2.2.2.2 (by decide)⟩

/-! ### C2 — ordering of the `# Primes` section -/

/-- C2 counterexample: in the emitted `# Primes` section the part with
unspecified (empty) rarity is emitted FIRST, before the `Rare` part —
`rarityOrder.indexOf('')` is `-1`, which sorts before every named rarity —
contradicting the claim that unspecified-rarity parts come last. -/
theorem C2_counterexample :
    generateMarkdown (strL "D")
      [(strL "Ankyros Prime",
        [⟨strL "Ankyros Prime Blade", strRare, strL "Lith A1"⟩,
         ⟨strL "Ankyros Prime Gauntlet", [], strL "Lith A1"⟩])]
      [] [] =
    strL "# Generated on D\n\n# Primes\n\n- Ankyros Prime\n  - Ankyros Prime Gauntlet () -> Lith A1\n  - Ankyros Prime Blade (Rare) -> Lith A1\n\n# Relics\n\n" := by
  decide

/-- C2 (amended): in the `# Primes` section emitted by `generateMarkdown`
the produced items appear sorted alphabetically (code-point order) by
name, and within each item the part lines appear sorted by the key
`rarityOrder.indexOf`: `Rare` (0) before `Uncommon` (1) before `Common`
(2), with parts of unspecified (empty, or any unlisted) rarity FIRST
(index `-1`) — not last, as originally claimed. -/
theorem C2_ordering_amended (today : Str) (primes : List (Str × List SrcPart))
    (rd : List (Str × List RewardSrc)) (locs : List (Str × Str)) :
    ((jsSort lexLe (objKeys primes)).Perm (objKeys primes) ∧
     (jsSort lexLe (objKeys primes)).Pairwise (fun a b => lexLe a b = true)) ∧
    (∀ ps : List SrcPart,
      (jsSort partLe ps).Perm ps ∧
      (jsSort partLe ps).Pairwise (fun a b => rarityIdx a.rarity ≤ rarityIdx b.rarity)) ∧
    (rarityIdx strRare = 0 ∧ rarityIdx strUncommon = 1 ∧ rarityIdx strCommon = 2 ∧
     rarityIdx [] = -1) ∧
    generateMarkdown today primes rd locs =
      genPre ++ today ++ nl2 ++ hdrPrimes ++ nl2 ++
      ((jsSort lexLe (objKeys primes)).map (fun prime =>
        dashSp ++ prime ++ nl1 ++
        ((jsSort partLe ((getAssoc primes prime).getD [])).map (fun p =>
          indentDash ++ p.item ++ parenOpenSp ++ p.rarity ++ parenArrowSp ++ p.source ++
            nl1)).flatten)).flatten ++
      nl1 ++ hdrRelics ++ nl2 ++
      ((rd.map (fun rel =>
        hhSp ++ rel.1 ++ nl2 ++
        (rel.2.map (fun r =>
          dashSp ++ r.item ++ parenOpenSp ++ r.rarity ++ parenClose ++ nl1)).flatten ++
        nl1 ++ locTag ++ [' '] ++ locLookup locs rel.1 ++ nl2)).flatten) := by
  refine ⟨⟨jsSort_perm _ _, jsSort_pairwise _ lexLe_total lexLe_trans _⟩, ?_, ⟨rfl, rfl, rfl, rfl⟩, rfl⟩
  intro ps
  refine ⟨jsSort_perm _ _, ?_⟩
  have h := jsSort_pairwise partLe ?_ ?_ ps
  · exact h.imp (fun hab => by simpa [partLe, decide_eq_true_eq] using hab)
  · intro a b
    rcases Int.le_total (rarityIdx a.rarity) (rarityIdx b.rarity) with h | h
    · left; simpa [partLe, decide_eq_true_eq] using h
    · right; simpa [partLe, decide_eq_true_eq] using h
  · intro a b c hab hbc
    simp only [partLe, decide_eq_true_eq] at hab hbc ⊢
    exact le_trans hab hbc

/-! ### Shape lemmas for trimmed generated lines -/

theorem trimStr_eq_trimRight (s : Str) (h : headNonWS s = true) : trimStr s = trimRight s := by
  rw [trimStr, trimLeft_eq_self s h]

theorem trimStr_cons_ws (c : Char) (s : Str) (h : isWS c = true) :
    trimStr (c :: s) = trimStr s := by
  rw [trimStr, trimLeft_cons_ws c s h, trimStr]

theorem headNonWS_cons (c : Char) (s : Str) (h : isWS c = false) :
    headNonWS (c :: s) = true := by
  simp [headNonWS, h]

theorem has2_cons_of (a b c : Char) (s : Str) (h : has2 a b s = true) :
    has2 a b (c :: s) = true := by
  cases s with
  | nil => simp [has2] at h
  | cons d rest =>
    simp only [has2] at h ⊢
    simp [h]

theorem has2_mid (a b : Char) : ∀ (x y : Str), has2 a b (x ++ a :: b :: y) = true := by
  intro x
  induction x with
  | nil => intro y; simp [has2]
  | cons c x' ih =>
    intro y
    rw [List.cons_append]
    exact has2_cons_of a b c _ (ih y)

theorem parenTail_exact (M : Str) (hM : M ≠ []) (hMp : ')' ∉ M) :
    parenTail (M ++ [')']) = some M := by
  have h1 : (M ++ [')']).reverse = ')' :: M.reverse := by simp
  simp only [parenTail, h1]
  have h2 : (!M.reverse.isEmpty) = true := by
    simp [List.isEmpty_iff, hM]
  have h3 : M.reverse.all (fun d => d != ')') = true := by
    rw [List.all_eq_true]
    intro d hd
    have : d ∈ M := List.mem_reverse.1 hd
    simp only [bne_iff_ne, ne_eq]
    intro hdp
    exact hMp (hdp ▸ this)
  simp [h2, h3]

theorem findParen_exact (X M : Str) (hX : '(' ∉ X) (hM : M ≠ []) (hMp : ')' ∉ M) :
    findParen (X ++ '(' :: (M ++ [')'])) = some (X, M) := by
  induction X with
  | nil =>
    simp only [List.nil_append, findParen, if_pos rfl, parenTail_exact M hM hMp]
    simp
  | cons c X' ih =>
    have hc : ¬(c = '(') := by
      intro h
      exact hX (h ▸ List.mem_cons_self _ _)
    have hX' : '(' ∉ X' := fun h => hX (List.mem_cons_of_mem _ h)
    rw [List.cons_append]
    simp only [findParen, if_neg hc]
    rw [ih hX']
    rfl

theorem findParen_none (s : Str) (h : '(' ∉ s) : findParen s = none := by
  induction s with
  | nil => rfl
  | cons c rest ih =>
    have hc : ¬(c = '(') := by
      intro hh
      exact h (hh ▸ List.mem_cons_self _ _)
    simp only [findParen, if_neg hc]
    rw [ih (fun hh => h (List.mem_cons_of_mem _ hh))]
    rfl

/-! ### Dispatch computations for generated lines (tolerant parser) -/

theorem trimStable_head (s : Str) (h : trimStable s = true) : headNonWS s = true := by
  simp only [trimStable, Bool.and_eq_true] at h
  exact h.1

theorem trimStable_last (s : Str) (h : trimStable s = true) : lastNonWS s = true := by
  simp only [trimStable, Bool.and_eq_true] at h
  exact h.2

theorem sectionHeadersV2_none_dash (st : StV2) (rest : Str) :
    handleSectionHeadersV2 st ('-' :: rest) = none := by
  simp [handleSectionHeadersV2, hdrPrimes, hdrRelics]

theorem sectionHeadersV2_none_hh (st : StV2) (rest : Str) :
    handleSectionHeadersV2 st ('#' :: '#' :: rest) = none := by
  simp [handleSectionHeadersV2, hdrPrimes, hdrRelics]

theorem sectionHeadersV2_none_star (st : StV2) (rest : Str) :
    handleSectionHeadersV2 st ('*' :: rest) = none := by
  simp [handleSectionHeadersV2, hdrPrimes, hdrRelics]

theorem arrow_eq : arrowS = ['-', '>'] := rfl

theorem jsIncludes_arrow_dashSp (n : Str) (hn : has2 '-' '>' n = false) :
    jsIncludes ('-' :: ' ' :: n) arrowS = false := by
  rw [arrow_eq, jsIncludes_eq_has2]
  have : ('-' :: ' ' :: n : Str) = ['-', ' '] ++ n := rfl
  rw [this]
  refine has2_append_false _ _ _ _ (by decide) hn ?_
  rintro ⟨h1, -⟩
  simp at h1

theorem trimStable_append (s t : Str) (hs : s ≠ []) (ht : t ≠ [])
    (h1 : headNonWS s = true) (h2 : lastNonWS t = true) : trimStable (s ++ t) = true := by
  simp [trimStable, headNonWS_append s t hs h1, lastNonWS_append s t ht h2]

theorem trimStr_append_sp (X : Str) (hX : trimStable X = true) (hne : X ≠ []) :
    trimStr (X ++ [' ']) = X := by
  rw [trimStr_eq_trimRight _ (headNonWS_append _ _ hne (trimStable_head _ hX)),
    trimRight_append_ws _ _ (by decide), trimRight_eq_self _ (trimStable_last _ hX)]

/-- The part produced by `parsePartInfo` (tolerant variant) for a
serialized part line `'- P (R) -> C'` with well-behaved fields. -/
theorem parsePartInfoV2_gen (P R C : Str)
    (hPt : trimStable P = true) (hPne : P ≠ []) (hPd : P.head? ≠ some '-')
    (hPa : has2 '-' '>' P = false) (hPp : '(' ∉ P)
    (hRt : trimStable R = true) (hRne : R ≠ []) (hRa : has2 '-' '>' R = false) (hRp : ')' ∉ R)
    (hCt : trimStable C = true) (hCa : has2 '-' '>' C = false) :
    parsePartInfoV2 (dashSp ++ P ++ parenOpenSp ++ R ++ parenArrowSp ++ C) =
      some ⟨P, R, C⟩ := by
  obtain ⟨p0, P', rfl⟩ : ∃ p0 P', P = p0 :: P' := by
    cases P with
    | nil => exact absurd rfl hPne
    | cons a b => exact ⟨a, b, rfl⟩
  have hp0ws : isWS p0 = false := by
    have := trimStable_head _ hPt
    simpa [headNonWS] using this
  have hp0d : ¬(p0 = '-' ∨ p0 = ' ') := by
    rintro (h | h)
    · exact hPd (by simp [h])
    · rw [h] at hp0ws
      simp [isWS] at hp0ws
  have hline : (dashSp ++ (p0 :: P') ++ parenOpenSp ++ R ++ parenArrowSp ++ C : Str) =
      '-' :: ' ' :: (p0 :: (P' ++ [' ', '('] ++ R ++ [')', ' '] ++ ['-', '>'] ++ (' ' :: C))) := by
    simp [dashSp, parenOpenSp, parenArrowSp, List.append_assoc]
  rw [hline]
  simp only [parsePartInfoV2]
  have hdrop : (('-' :: ' ' ::
      (p0 :: (P' ++ [' ', '('] ++ R ++ [')', ' '] ++ ['-', '>'] ++ (' ' :: C)))) : Str).dropWhile
        (fun c => c = '-' || c = ' ') =
      p0 :: (P' ++ [' ', '('] ++ R ++ [')', ' '] ++ ['-', '>'] ++ (' ' :: C)) := by
    rw [List.dropWhile_cons, List.dropWhile_cons, List.dropWhile_cons]
    simp only [decide_eq_true_eq]
    have : (decide (p0 = '-') || decide (p0 = ' ')) = false := by
      simp only [Bool.or_eq_false_iff, decide_eq_false_iff_not]
      constructor
      · intro h; exact hp0d (Or.inl h)
      · intro h; exact hp0d (Or.inr h)
    simp [this]
  rw [hdrop]
  have hshape : (p0 :: (P' ++ [' ', '('] ++ R ++ [')', ' '] ++ ['-', '>'] ++ (' ' :: C)) : Str) =
      (p0 :: P' ++ [' ', '('] ++ R ++ [')', ' ']) ++ '-' :: '>' :: (' ' :: C) := by
    simp [List.append_assoc]
  rw [hshape]
  have hAfree : has2 '-' '>' (p0 :: P' ++ [' ', '('] ++ R ++ [')', ' ']) = false := by
    have h1 : has2 '-' '>' (R ++ [')', ' ']) = false := by
      refine has2_append_false _ _ _ _ hRa (by decide) ?_
      rintro ⟨-, h⟩
      simp at h
    have h2 : has2 '-' '>' ([' ', '('] ++ (R ++ [')', ' '])) = false := by
      refine has2_append_false _ _ _ _ (by decide) h1 ?_
      rintro ⟨h, -⟩
      simp at h
    have h3 : has2 '-' '>' ((p0 :: P') ++ ([' ', '('] ++ (R ++ [')', ' ']))) = false := by
      refine has2_append_false _ _ _ _ hPa h2 ?_
      rintro ⟨-, h⟩
      simp at h
    simpa [List.append_assoc] using h3
  have hBfree : has2 '-' '>' (' ' :: C) = false := by
    have : (' ' :: C : Str) = [' '] ++ C := rfl
    rw [this]
    refine has2_append_false _ _ _ _ (by decide) hCa ?_
    rintro ⟨h, -⟩
    simp at h
  have hsplit : splitOnSub arrowS
      (p0 :: P' ++ [' ', '('] ++ R ++ [')', ' '] ++ '-' :: '>' :: ' ' :: C) =
      [p0 :: P' ++ [' ', '('] ++ R ++ [')', ' '], ' ' :: C] := by
    rw [arrow_eq]
    have hs : (p0 :: P' ++ [' ', '('] ++ R ++ [')', ' '] ++ '-' :: '>' :: ' ' :: C : Str) =
        (p0 :: P' ++ [' ', '('] ++ R ++ [')', ' ']) ++ '-' :: '>' :: (' ' :: C) := by
      simp [List.append_assoc]
    rw [hs]
    exact splitOnSub2_exact '-' '>' (by decide) _ _ hAfree hBfree
  rw [hsplit]
  simp only [List.map_cons, List.map_nil]
  have hheadA : headNonWS (p0 :: P' ++ [' ', '('] ++ R : Str) = true := by
    have e3 : (p0 :: P' ++ [' ', '('] ++ R : Str) = (p0 :: P') ++ ([' ', '('] ++ R) := by simp
    rw [e3]
    exact headNonWS_append _ _ (by simp) (headNonWS_cons _ _ hp0ws)
  have hstableA : trimStable ((p0 :: P' ++ [' ', '('] ++ R) ++ [')']) = true :=
    trimStable_append _ _ (by simp) (by simp) hheadA (by decide)
  have htrimA : trimStr (p0 :: P' ++ [' ', '('] ++ R ++ [')', ' ']) =
      p0 :: P' ++ [' ', '('] ++ R ++ [')'] := by
    have e1 : (p0 :: P' ++ [' ', '('] ++ R ++ [')', ' '] : Str) =
        ((p0 :: P' ++ [' ', '('] ++ R) ++ [')']) ++ [' '] := by simp
    rw [e1, trimStr_append_sp _ hstableA (by simp)]
  have htrimB : trimStr (' ' :: C) = C := by
    rw [trimStr_cons_ws _ _ (by decide), trimStr_eq_self _ hCt]
  rw [htrimA, htrimB]
  have hpar : parsePartAndRarityV2 (p0 :: P' ++ [' ', '('] ++ R ++ [')']) = (p0 :: P', R) := by
    simp only [parsePartAndRarityV2]
    rw [if_neg (by simp)]
    have hshape2 : (p0 :: P' ++ [' ', '('] ++ R ++ [')'] : Str) =
        (p0 :: P' ++ [' ']) ++ '(' :: (R ++ [')']) := by
      simp [List.append_assoc]
    have hX : '(' ∉ (p0 :: P' ++ [' '] : Str) := by
      intro hmem
      rcases List.mem_cons.1 hmem with h | h
      · rw [← h] at hp0ws; simp [isWS] at hp0ws
        exact hPp (by rw [← h]; exact List.mem_cons_self _ _)
      · rcases List.mem_append.1 h with h2 | h2
        · exact hPp (List.mem_cons_of_mem _ h2)
        · simp at h2
    rw [hshape2, findParen_exact _ _ hX hRne hRp]
    have ht1 : trimStr (p0 :: P' ++ [' ']) = p0 :: P' :=
      trimStr_append_sp (p0 :: P') hPt (by simp)
    simp only [ht1, trimStr_eq_self _ hRt]
  simp only [hpar]

/-- C7 counterexample: the parser trims every line before dispatch, so a
two-space-indented `'- '` line WITHOUT `'->'` opens a NEW ProducedItem
instead of being appended as a part of the open item `A`. -/
theorem C7_counterexample :
    parseV2 (strL "# Primes\n- A\n  - NoArrow") =
      some ⟨[(strL "A", ⟨strL "A", []⟩), (strL "NoArrow", ⟨strL "NoArrow", []⟩)], []⟩ := by
  decide

/-- C7 (amended): the parser trims every line before dispatch, so the
two-space-indent clause of the original claim never fires (see the
counterexample: an indented line without `'->'` opens a NEW item).  While
the tolerant parser is in the `primes` section with an open item whose
record exists, a dispatched `'- '` line containing `'->'` never opens a
new ProducedItem and never changes the key set: when `parsePartInfo`
succeeds the parsed part is appended to the open item, and when it throws
(fewer than two `'->'` components once the leading `'-'`/`' '` run is
stripped, e.g. `'- -> C'`) the exception is caught and the line is
skipped with the state unchanged.  On a well-formed serialized part line
`'- P (R) -> C'` the parsed part is exactly `⟨P, R, C⟩` — split on
`'->'`, rarity from the parenthesized suffix of the first half. -/
theorem C7_part_line_amended (st : StV2) (i : Str) (e : PrimeV2) (T : Str)
    (hsec : st.currentSection = some MdSect.primes)
    (hcur : st.currentItem = some i)
    (hget : getAssoc st.primes i = some e)
    (harrow : jsIncludes (dashSp ++ T) arrowS = true) :
    (∀ p : PartV2, parsePartInfoV2 (dashSp ++ T) = some p →
      stepV2 st (dashSp ++ T) =
        some {st with primes := setAssoc st.primes i ⟨e.name, e.parts ++ [p]⟩}) ∧
    (parsePartInfoV2 (dashSp ++ T) = none → stepV2 st (dashSp ++ T) = some st) ∧
    (∀ v : PrimeV2, objKeys (setAssoc st.primes i v) = objKeys st.primes) ∧
    (∀ P R C : Str, trimStable P = true → P ≠ [] → P.head? ≠ some '-' →
      has2 '-' '>' P = false → '(' ∉ P →
      trimStable R = true → R ≠ [] → has2 '-' '>' R = false → ')' ∉ R →
      trimStable C = true → has2 '-' '>' C = false →
      parsePartInfoV2 (dashSp ++ P ++ parenOpenSp ++ R ++ parenArrowSp ++ C) =
        some ⟨P, R, C⟩) := by
  have hkey : i ∈ objKeys st.primes := by
    rw [← getAssoc_isSome_iff]
    simp [hget]
  have hline : (dashSp ++ T : Str) = '-' :: ' ' :: T := rfl
  have hstarts : jsStartsWith (dashSp ++ T) dashSp = true := jsStartsWith_append_self dashSp T
  have hlne : (dashSp ++ T : Str) ≠ [] := by
    rw [hline]
    simp
  have hsecne : ¬(st.currentSection ≠ some MdSect.primes) := by
    rw [hsec]
    simp
  have hcond1 : ¬((jsStartsWith (dashSp ++ T) dashSp &&
      !jsIncludes (dashSp ++ T) arrowS) = true) := by
    rw [hstarts, harrow]
    simp
  have hcond2 : (jsStartsWith (dashSp ++ T) indentDash ||
      (jsStartsWith (dashSp ++ T) dashSp && jsIncludes (dashSp ++ T) arrowS)) = true := by
    rw [hstarts, harrow]
    simp
  refine ⟨?_, ?_, fun v => objKeys_setAssoc_mem _ _ _ hkey,
    fun P R C h1 h2 h3 h4 h5 h6 h7 h8 h9 h10 h11 =>
      parsePartInfoV2_gen P R C h1 h2 h3 h4 h5 h6 h7 h8 h9 h10 h11⟩
  · intro p hp
    have hprime : handlePrimeSectionV2 st (dashSp ++ T) =
        .handled {st with primes := setAssoc st.primes i ⟨e.name, e.parts ++ [p]⟩} := by
      unfold handlePrimeSectionV2
      rw [if_neg hsecne, if_neg hcond1, hcur]
      simp only []
      rw [if_pos hcond2, hp]
      simp only []
      rw [hget]
    unfold stepV2
    rw [if_neg hlne, hline, sectionHeadersV2_none_dash, ← hline, hprime]
  · intro hp
    have hprime : handlePrimeSectionV2 st (dashSp ++ T) = .pass := by
      unfold handlePrimeSectionV2
      rw [if_neg hsecne, if_neg hcond1, hcur]
      simp only []
      rw [if_pos hcond2, hp]
    have hrel : handleRelicSectionV2 st (dashSp ++ T) = .pass := by
      unfold handleRelicSectionV2
      rw [if_pos (by rw [hsec]; simp)]
    unfold stepV2
    rw [if_neg hlne, hline, sectionHeadersV2_none_dash, ← hline, hprime, hrel]

/-- C7 witness: with `Volt Prime` open, the serialized part line is
appended (and characterized by the split/suffix conjunct), while the
in-scope line `'- -> Lith A1'` — whose leading-run strip consumes the
arrow dash — is skipped with the state unchanged; the key set never
changes. -/
theorem C7_part_line_amended_witness :
    (stepV2
        ⟨[(strL "Volt Prime", ⟨strL "Volt Prime", []⟩)], [], some MdSect.primes,
          some (strL "Volt Prime")⟩
        (dashSp ++ strL "Volt Prime Systems (Rare) -> Lith A1") =
      some
        ⟨setAssoc [(strL "Volt Prime", ⟨strL "Volt Prime", []⟩)] (strL "Volt Prime")
            ⟨strL "Volt Prime", [⟨strL "Volt Prime Systems", strRare, strL "Lith A1"⟩]⟩,
          [], some MdSect.primes, some (strL "Volt Prime")⟩) ∧
    (stepV2
        ⟨[(strL "Volt Prime", ⟨strL "Volt Prime", []⟩)], [], some MdSect.primes,
          some (strL "Volt Prime")⟩
        (dashSp ++ strL "-> Lith A1") =
      some
        ⟨[(strL "Volt Prime", ⟨strL "Volt Prime", []⟩)], [], some MdSect.primes,
          some (strL "Volt Prime")⟩) ∧
    (objKeys (setAssoc [(strL "Volt Prime", (⟨strL "Volt Prime", []⟩ : PrimeV2))]
        (strL "Volt Prime") ⟨strL "Volt Prime", []⟩) =
      objKeys [(strL "Volt Prime", (⟨strL "Volt Prime", []⟩ : PrimeV2))]) ∧
    (parsePartInfoV2 (dashSp ++ strL "Volt Prime Systems" ++ parenOpenSp ++ strRare ++
        parenArrowSp ++ strL "Lith A1") =
      some ⟨strL "Volt Prime Systems", strRare, strL "Lith A1"⟩) :=
  ⟨(C7_part_line_amended
      ⟨[(strL "Volt Prime", ⟨strL "Volt Prime", []⟩)], [], some MdSect.primes,
        some (strL "Volt Prime")⟩
      (strL "Volt Prime") ⟨strL "Volt Prime", []⟩
      (strL "Volt Prime Systems (Rare) -> Lith A1")
      rfl rfl (by decide) (by decide)).1
     ⟨strL "Volt Prime Systems", strRare, strL "Lith A1"⟩ (by decide),
   (C7_part_line_amended
      ⟨[(strL "Volt Prime", ⟨strL "Volt Prime", []⟩)], [], some MdSect.primes,
        some (strL "Volt Prime")⟩
      (strL "Volt Prime") ⟨strL "Volt Prime", []⟩
      (strL "-> Lith A1")
      rfl rfl (by decide) (by decide)).2.1 (by decide),
   (C7_part_line_amended
      ⟨[(strL "Volt Prime", ⟨strL "Volt Prime", []⟩)], [], some MdSect.primes,
        some (strL "Volt Prime")⟩
      (strL "Volt Prime") ⟨strL "Volt Prime", []⟩
      (strL "Volt Prime Systems (Rare) -> Lith A1")
      rfl rfl (by decide) (by decide)).2.2.1 ⟨strL "Volt Prime", []⟩,
   (C7_part_line_amended
      ⟨[(strL "Volt Prime", ⟨strL "Volt Prime", []⟩)], [], some MdSect.primes,
        some (strL "Volt Prime")⟩
      (strL "Volt Prime") ⟨strL "Volt Prime", []⟩
      (strL "Volt Prime Systems (Rare) -> Lith A1")
      rfl rfl (by decide) (by decide)).2.2.2
     (strL "Volt Prime Systems") strRare (strL "Lith A1")
     (by decide) (by decide) (by decide) (by decide) (by decide) (by decide)
     (by decide) (by decide) (by decide) (by decide) (by decide)⟩

/-- C8: a relics-section reward line whose text after `'- '` has no
parenthesized suffix (the regex finds no match) is parsed without raising:
the reward is appended to the open Container with rarity the empty string
and `part` the full text after the `'- '` prefix. -/
theorem C8_malformed_reward_tolerated (st : StV2) (i : Str) (e : RelicE) (T : Str)
    (hsec : st.currentSection = some MdSect.relics)
    (hcur : st.currentItem = some i)
    (hget : getAssoc st.relics i = some e)
    (hT : trimStable T = true) (hTne : T ≠ [])
    (hnoparen : findParen T = none) :
    stepV2 st (dashSp ++ T) =
      some {st with relics := setAssoc st.relics i ⟨e.location, e.rewards ++ [⟨T, []⟩]⟩} := by
  have hline : (dashSp ++ T : Str) = '-' :: ' ' :: T := rfl
  have hlne : (dashSp ++ T : Str) ≠ [] := by rw [hline]; simp
  have hsecp : st.currentSection ≠ some MdSect.primes := by rw [hsec]; simp
  have hsecr : ¬(st.currentSection ≠ some MdSect.relics) := by rw [hsec]; simp
  have hnothh : jsStartsWith (dashSp ++ T) hhSp = false := by
    rw [hline]; simp [jsStartsWith, hhSp]
  have hnotloc : jsStartsWith (dashSp ++ T) locTag = false := by
    rw [hline]; simp [jsStartsWith, locTag]
  have hdash : jsStartsWith (dashSp ++ T) dashSp = true := by
    rw [hline]; simp [jsStartsWith, dashSp]
  have hreward : parseRewardInfoV2 (dashSp ++ T) = some ⟨T, []⟩ := by
    unfold parseRewardInfoV2
    have hdrop : (dashSp ++ T : Str).drop 2 = T := rfl
    rw [hdrop, trimStr_eq_self _ hT, if_neg hTne]
    unfold parsePartAndRarityV2
    rw [if_neg hTne, hnoparen]
  have hrel : handleRelicSectionV2 st (dashSp ++ T) =
      .handled {st with relics := setAssoc st.relics i ⟨e.location, e.rewards ++ [⟨T, []⟩]⟩} := by
    unfold handleRelicSectionV2
    rw [if_neg hsecr, if_neg (by rw [hnothh]; simp), hcur]
    simp only []
    rw [if_neg (by rw [hnotloc]; simp), if_pos hdash, hreward]
    simp only []
    rw [hget]
  have hprime : handlePrimeSectionV2 st (dashSp ++ T) = .pass := by
    unfold handlePrimeSectionV2
    rw [if_pos hsecp]
  unfold stepV2
  rw [if_neg hlne, hline, sectionHeadersV2_none_dash, ← hline, hprime, hrel]

theorem C8_malformed_reward_tolerated_witness :
    stepV2 ⟨[], [(strL "Lith A1", ⟨strL "L1", []⟩)], some MdSect.relics, some (strL "Lith A1")⟩
      (dashSp ++ strL "BadLineNoParen") =
      some ⟨[], setAssoc [(strL "Lith A1", ⟨strL "L1", []⟩)] (strL "Lith A1")
          ⟨strL "L1", [⟨strL "BadLineNoParen", []⟩]⟩,
        some MdSect.relics, some (strL "Lith A1")⟩ :=
  C8_malformed_reward_tolerated
    ⟨[], [(strL "Lith A1", ⟨strL "L1", []⟩)], some MdSect.relics, some (strL "Lith A1")⟩
    (strL "Lith A1") ⟨strL "L1", []⟩ (strL "BadLineNoParen")
    rfl rfl (by decide) (by decide) (by decide) (by decide)

/-! ### Map-shape lemmas for the tolerant parser steps -/

theorem handleSectionHeadersV2_maps (st : StV2) (line : Str) (st' : StV2)
    (h : handleSectionHeadersV2 st line = some st') :
    st'.primes = st.primes ∧ st'.relics = st.relics := by
  unfold handleSectionHeadersV2 at h
  split at h
  · injection h with h
    subst h
    exact ⟨rfl, rfl⟩
  · split at h
    · injection h with h
      subst h
      exact ⟨rfl, rfl⟩
    · cases h

theorem handlePrimeSectionV2_maps (st : StV2) (line : Str) (st' : StV2)
    (h : handlePrimeSectionV2 st line = .handled st') :
    (st'.primes = st.primes ∨ ∃ k v, st'.primes = setAssoc st.primes k v) ∧
    st'.relics = st.relics := by
  unfold handlePrimeSectionV2 at h
  split at h
  · cases h
  · split at h
    · dsimp only [] at h
      split at h
      · cases h
      · injection h with h
        subst h
        exact ⟨Or.inr ⟨_, _, rfl⟩, rfl⟩
    · split at h
      · split at h
        · split at h
          · split at h
            · injection h with h
              subst h
              exact ⟨Or.inr ⟨_, _, rfl⟩, rfl⟩
            · cases h
          · cases h
        · cases h
      · cases h

theorem handleRelicSectionV2_maps (st : StV2) (line : Str) (st' : StV2)
    (h : handleRelicSectionV2 st line = .handled st') :
    st'.primes = st.primes ∧
    (st'.relics = st.relics ∨ ∃ k v, st'.relics = setAssoc st.relics k v) := by
  unfold handleRelicSectionV2 at h
  split at h
  · cases h
  · split at h
    · dsimp only [] at h
      split at h
      · cases h
      · injection h with h
        subst h
        exact ⟨rfl, Or.inr ⟨_, _, rfl⟩⟩
    · split at h
      · cases h
      · split at h
        · split at h
          · injection h with h
            subst h
            exact ⟨rfl, Or.inr ⟨_, _, rfl⟩⟩
          · cases h
        · split at h
          · split at h
            · split at h
              · injection h with h
                subst h
                exact ⟨rfl, Or.inr ⟨_, _, rfl⟩⟩
              · cases h
            · cases h
          · cases h

theorem stepV2_maps (st : StV2) (line : Str) (st' : StV2) (h : stepV2 st line = some st') :
    (st'.primes = st.primes ∨ ∃ k v, st'.primes = setAssoc st.primes k v) ∧
    (st'.relics = st.relics ∨ ∃ k v, st'.relics = setAssoc st.relics k v) := by
  unfold stepV2 at h
  split at h
  · injection h with h
    subst h
    exact ⟨Or.inl rfl, Or.inl rfl⟩
  · split at h
    · rename_i st1 heq
      obtain ⟨h1, h2⟩ := handleSectionHeadersV2_maps st line st1 heq
      injection h with h
      subst h
      exact ⟨Or.inl h1, Or.inl h2⟩
    · rename_i heq0
      split at h
      · rename_i st1 heq
        obtain ⟨h1, h2⟩ := handlePrimeSectionV2_maps st line st1 heq
        injection h with h
        subst h
        exact ⟨h1, Or.inl h2⟩
      · cases h
      · rename_i heq1
        split at h
        · rename_i st1 heq
          obtain ⟨h1, h2⟩ := handleRelicSectionV2_maps st line st1 heq
          injection h with h
          subst h
          exact ⟨Or.inl h1, h2⟩
        · cases h
        · injection h with h
          subst h
          exact ⟨Or.inl rfl, Or.inl rfl⟩

theorem stepV2_nodup (st st' : StV2) (line : Str)
    (h1 : (objKeys st.primes).Nodup) (h2 : (objKeys st.relics).Nodup)
    (h : stepV2 st line = some st') :
    (objKeys st'.primes).Nodup ∧ (objKeys st'.relics).Nodup := by
  obtain ⟨hp, hr⟩ := stepV2_maps st line st' h
  constructor
  · rcases hp with h3 | ⟨k, v, h3⟩ <;> rw [h3]
    · exact h1
    · exact nodup_objKeys_setAssoc _ _ _ h1
  · rcases hr with h3 | ⟨k, v, h3⟩ <;> rw [h3]
    · exact h2
    · exact nodup_objKeys_setAssoc _ _ _ h2

theorem foldlM_stepV2_nodup :
    ∀ (lines : List Str) (st : StV2),
      (objKeys st.primes).Nodup → (objKeys st.relics).Nodup →
      ∀ st', lines.foldlM stepV2 st = some st' →
        (objKeys st'.primes).Nodup ∧ (objKeys st'.relics).Nodup := by
  intro lines
  induction lines with
  | nil =>
    intro st h1 h2 st' h
    simp only [List.foldlM_nil] at h
    injection h with h
    subst h
    exact ⟨h1, h2⟩
  | cons l ls ih =>
    intro st h1 h2 st' h
    rw [List.foldlM_cons] at h
    cases hstep : stepV2 st l with
    | none => rw [hstep] at h; simp at h
    | some st1 =>
      rw [hstep] at h
      simp only [Option.bind_eq_bind, Option.some_bind] at h
      obtain ⟨h3, h4⟩ := stepV2_nodup st st1 l h1 h2 hstep
      exact ih st1 h3 h4 st' h

/-- C10: re-declaring a name resets its entry — a `'- Name'` line in the
primes section (resp. a `'## Name'` line in the relics section) stores a
fresh `{name, parts: []}` (resp. `{location: '', rewards: []}`) under that
key via `Map.set`, discarding whatever was accumulated under an earlier
declaration, and `parse` always returns a single entry per name (the key
lists of both result maps are duplicate-free). -/
theorem C10_last_declaration_wins :
    (∀ content r, parseV2 content = some r →
      (objKeys r.primes).Nodup ∧ (objKeys r.relics).Nodup) ∧
    (∀ (st : StV2) (n : Str), st.currentSection = some MdSect.primes →
      trimStable n = true → n ≠ [] → has2 '-' '>' n = false →
      stepV2 st (dashSp ++ n) =
        some {st with currentItem := some n, primes := setAssoc st.primes n ⟨n, []⟩} ∧
      getAssoc (setAssoc st.primes n ⟨n, []⟩) n = some ⟨n, []⟩) ∧
    (∀ (st : StV2) (n : Str), st.currentSection = some MdSect.relics →
      trimStable n = true → n ≠ [] →
      stepV2 st (hhSp ++ n) =
        some {st with currentItem := some n, relics := setAssoc st.relics n ⟨[], []⟩} ∧
      getAssoc (setAssoc st.relics n ⟨[], []⟩) n = some ⟨[], []⟩) := by
  refine ⟨?_, ?_, ?_⟩
  · intro content r h
    unfold parseV2 at h
    cases hf : (parseLinesOf content).foldlM stepV2 initStV2 with
    | none => rw [hf] at h; cases h
    | some st' =>
      rw [hf] at h
      injection h with h
      subst h
      exact foldlM_stepV2_nodup (parseLinesOf content) initStV2 (by simp [initStV2, objKeys])
        (by simp [initStV2, objKeys]) st' hf
  · intro st n hsec hn hne ha
    have hline : (dashSp ++ n : Str) = '-' :: ' ' :: n := rfl
    have hlne : (dashSp ++ n : Str) ≠ [] := by rw [hline]; simp
    have hsecp : ¬(st.currentSection ≠ some MdSect.primes) := by rw [hsec]; simp
    have hdash : jsStartsWith (dashSp ++ n) dashSp = true := jsStartsWith_append_self dashSp n
    have harrow : jsIncludes (dashSp ++ n) arrowS = false := by
      rw [hline]
      exact jsIncludes_arrow_dashSp n ha
    have hdrop : trimStr ((dashSp ++ n : Str).drop 2) = n := by
      have : (dashSp ++ n : Str).drop 2 = n := rfl
      rw [this, trimStr_eq_self _ hn]
    have hprime : handlePrimeSectionV2 st (dashSp ++ n) =
        .handled {st with currentItem := some n, primes := setAssoc st.primes n ⟨n, []⟩} := by
      unfold handlePrimeSectionV2
      rw [if_neg hsecp, if_pos (by rw [hdash, harrow]; simp)]
      rw [hdrop]
      rw [if_neg hne]
    refine ⟨?_, getAssoc_setAssoc_self _ _ _⟩
    unfold stepV2
    rw [if_neg hlne, hline, sectionHeadersV2_none_dash, ← hline, hprime]
  · intro st n hsec hn hne
    have hline : (hhSp ++ n : Str) = '#' :: '#' :: ' ' :: n := rfl
    have hlne : (hhSp ++ n : Str) ≠ [] := by rw [hline]; simp
    have hsecp : st.currentSection ≠ some MdSect.primes := by rw [hsec]; simp
    have hsecr : ¬(st.currentSection ≠ some MdSect.relics) := by rw [hsec]; simp
    have hhh : jsStartsWith (hhSp ++ n) hhSp = true := jsStartsWith_append_self hhSp n
    have hdrop : trimStr ((hhSp ++ n : Str).drop 3) = n := by
      have : (hhSp ++ n : Str).drop 3 = n := rfl
      rw [this, trimStr_eq_self _ hn]
    have hprime : handlePrimeSectionV2 st (hhSp ++ n) = .pass := by
      unfold handlePrimeSectionV2
      rw [if_pos hsecp]
    have hrel : handleRelicSectionV2 st (hhSp ++ n) =
        .handled {st with currentItem := some n, relics := setAssoc st.relics n ⟨[], []⟩} := by
      unfold handleRelicSectionV2
      rw [if_neg hsecr, if_pos hhh, hdrop, if_neg hne]
    refine ⟨?_, getAssoc_setAssoc_self _ _ _⟩
    unfold stepV2
    rw [if_neg hlne, hline, sectionHeadersV2_none_hh, ← hline, hprime, hrel]

theorem C10_last_declaration_wins_witness :
    (parseV2 (strL "# Primes\n- A\n- A P (Rare) -> R1\n- A") =
      some ⟨[(strL "A", ⟨strL "A", []⟩)], []⟩) ∧
    ((objKeys (⟨[(strL "A", ⟨strL "A", []⟩)], []⟩ : ParseRes PrimeV2).primes).Nodup ∧
     (objKeys (⟨[(strL "A", ⟨strL "A", []⟩)], []⟩ : ParseRes PrimeV2).relics).Nodup) ∧
    (stepV2 ⟨[(strL "A", ⟨strL "A", [⟨strL "P", strRare, strL "R1"⟩]⟩)], [],
        some MdSect.primes, some (strL "A")⟩ (dashSp ++ strL "A") =
      some ⟨setAssoc [(strL "A", ⟨strL "A", [⟨strL "P", strRare, strL "R1"⟩]⟩)]
          (strL "A") ⟨strL "A", []⟩, [], some MdSect.primes, some (strL "A")⟩ ∧
     getAssoc (setAssoc [(strL "A", (⟨strL "A", [⟨strL "P", strRare, strL "R1"⟩]⟩ : PrimeV2))]
        (strL "A") ⟨strL "A", []⟩) (strL "A") = some ⟨strL "A", []⟩) ∧
    (stepV2 ⟨[], [(strL "R1", ⟨strL "L", [⟨strL "P", strRare⟩]⟩)],
        some MdSect.relics, some (strL "R1")⟩ (hhSp ++ strL "R1") =
      some ⟨[], setAssoc [(strL "R1", ⟨strL "L", [⟨strL "P", strRare⟩]⟩)]
          (strL "R1") ⟨[], []⟩, some MdSect.relics, some (strL "R1")⟩ ∧
     getAssoc (setAssoc [(strL "R1", (⟨strL "L", [⟨strL "P", strRare⟩]⟩ : RelicE))]
        (strL "R1") ⟨[], []⟩) (strL "R1") = some ⟨[], []⟩) :=
  ⟨by decide,
   C10_last_declaration_wins.1 (strL "# Primes\n- A\n- A P (Rare) -> R1\n- A")
     ⟨[(strL "A", ⟨strL "A", []⟩)], []⟩ (by decide),
   C10_last_declaration_wins.2.1
     ⟨[(strL "A", ⟨strL "A", [⟨strL "P", strRare, strL "R1"⟩]⟩)], [],
       some MdSect.primes, some (strL "A")⟩ (strL "A") rfl (by decide) (by decide) (by decide),
   C10_last_declaration_wins.2.2
     ⟨[], [(strL "R1", ⟨strL "L", [⟨strL "P", strRare⟩]⟩)],
       some MdSect.relics, some (strL "R1")⟩ (strL "R1") rfl (by decide) (by decide)⟩

/-! ### Renderer embedding: the client-side `view` of `unnamed/part_000` -/

/-- The apostrophe character (U+0027). -/
def apos : Char := Char.ofNat 39

/-- `utils.escapeHtml`: five chained global replacements, ampersand first
so that the entities introduced later are not re-escaped. -/
def escapeHtml (s : Str) : Str :=
  replaceAllChar apos (strL "&#039;")
    (replaceAllChar '"' (strL "&quot;")
      (replaceAllChar '>' (strL "&gt;")
        (replaceAllChar '<' (strL "&lt;")
          (replaceAllChar '&' (strL "&amp;") s))))

/-- `tierOrder = { Lith: 1, Meso: 2, Neo: 3, Axi: 4 }` of the embedded
script. -/
def tierOrderL : List (Str × Nat) :=
  [(strL "Lith", 1), (strL "Meso", 2), (strL "Neo", 3), (strL "Axi", 4)]

/-- `tierOrder[tier] || 99` (an absent key yields `undefined`, falsy). -/
def tierValue (t : Str) : Nat :=
  match getAssoc tierOrderL t with
  | some v => v
  | none => 99

/-- `name.split(' ')[0]`. -/
def tierOf (s : Str) : Str :=
  match splitOnSub [' '] s with
  | x :: _ => x
  | [] => []

/-- The comparator of `utils.sortRelics`:
`aTierValue - bTierValue || a.localeCompare(b)`.  `localeCompare` is
locale-dependent, so it is passed in as the integer-valued `lc`. -/
def relicCmp (lc : Str → Str → Int) (a b : Str) : Int :=
  if (tierValue (tierOf a) : Int) - (tierValue (tierOf b) : Int) = 0 then lc a b
  else (tierValue (tierOf a) : Int) - (tierValue (tierOf b) : Int)

/-- `utils.sortRelics`: `Array.prototype.sort` under `relicCmp` (`x`
placed after `y` exactly when the comparator orders `y` not after `x`). -/
def sortRelics (lc : Str → Str → Int) (relics : List Str) : List Str :=
  jsSort (fun a b => decide (relicCmp lc a b ≤ 0)) relics

/-- One grouped entry of `utils.groupParts`. -/
structure GroupEntry where
  part : Str
  rarity : Str
  relics : List Str
deriving DecidableEq, Repr

/-- The grouping key of `utils.groupParts` (`part.rarity || ''` equals
`part.rarity`, both being empty when empty). -/
def groupKey (p : PartV2) : Str := p.part ++ ['|'] ++ p.rarity

/-- The `forEach` accumulation loop of `utils.groupParts`: a falsy
`part.part` is skipped, a fresh key inserts an empty group, and a truthy
`part.relic` is pushed onto the group in place (`Map` keeps insertion
order; `setAssoc` replaces in place). -/
def groupPartsAux (acc : List (Str × GroupEntry)) : List PartV2 → List (Str × GroupEntry)
  | [] => acc
  | p :: rest =>
    if p.part = [] then groupPartsAux acc rest
    else
      let acc1 := if (getAssoc acc (groupKey p)).isSome then acc
                  else setAssoc acc (groupKey p) ⟨p.part, p.rarity, []⟩
      let acc2 := if p.relic = [] then acc1
                  else match getAssoc acc1 (groupKey p) with
                       | some g => setAssoc acc1 (groupKey p) ⟨g.part, g.rarity, g.relics ++ [p.relic]⟩
                       | none => acc1
      groupPartsAux acc2 rest

/-- `[...new Set(list)]`: first-occurrence deduplication. -/
def dedupFirstAux (seen : List Str) : List Str → List Str
  | [] => []
  | x :: t => if seen.contains x then dedupFirstAux seen t
              else x :: dedupFirstAux (x :: seen) t

/-- `[...new Set(list)]`. -/
def dedupFirst (l : List Str) : List Str := dedupFirstAux [] l

/-- `utils.groupParts` of `unnamed/part_000`: accumulate, then per group
`relics.filter(Boolean)`, dedupe and sort. -/
def groupParts (lc : Str → Str → Int) (parts : List PartV2) : List GroupEntry :=
  (groupPartsAux [] parts).map (fun kv =>
    ⟨kv.2.part, kv.2.rarity,
      sortRelics lc (dedupFirst (kv.2.relics.filter (fun r => !r.isEmpty)))⟩)

/-! The fixed text between the interpolation points of the two template
literals, split out verbatim (apostrophes spliced in as `[apos]`). -/

def rpiT1 : Str := strL "\n                    <div class=\"prime-item\">\n                        <div class=\"prime-header\" onclick=\"controller.toggleItem(" ++ [apos]

def rpiT2 : Str := [apos] ++ strL ")\">\n                            <span>"

def rpiT3 : Str := strL "</span>\n                            <span>"

def rpiT4 : Str := strL "</span>\n                        </div>\n                        <div class=\"prime-content "

def rpiT5 : Str := strL "\">\n                            <ul class=\"part-list\">\n                                "

def rpiT6 : Str := strL "\n                            </ul>\n                        </div>\n                    </div>\n                "

def rpiP1 : Str := strL "\n                                    <li class=\"part-item\">\n                                        <span class=\"rarity-"

def rpiP2 : Str := strL "\">"

def rpiP3 : Str := strL "</span>\n                                        <span>→</span>\n                                        <span class=\"part-link\">\n                                            "

def rpiP4 : Str := strL "\n                                        </span>\n                                    </li>\n                                "

def rpiR1 : Str := strL "\n                                                <span class=\"relic-hover\"\n                                                    onmouseover=\"controller.showRelicPopup(" ++ [apos]

def rpiR2 : Str := [apos] ++ strL ")\"\n                                                    onmouseout=\"controller.hideRelicPopupWithDelay()\">\n                                                    "

def rpiR3 : Str := strL "\n                                                </span>\n                                            "

def rrpT1 : Str := strL "\n                    <h3>"

def rrpT2 : Str := strL "</h3>\n                    <div class=\"location\">"

def rrpT3 : Str := strL "</div>\n                    <ul class=\"part-list\">\n                        "

def rrpT4 : Str := strL "\n                    </ul>\n                "

def rrpV1 : Str := strL "\n                            <li class=\"part-item\">\n                                <span class=\"rarity-"

def rrpV2 : Str := strL "\">"

def rrpV3 : Str := strL "</span>\n                            </li>\n                        "

/-- `state.expandedItems.has(name) ? '▼' : '▶'`. -/
def expIcon (expanded : Bool) : Str := if expanded then ['▼'] else ['▶']

/-- `state.expandedItems.has(name) ? 'active' : ''`. -/
def activeCls (expanded : Bool) : Str := if expanded then strL "active" else []

/-- One relic hover span of `renderPrimeItem` (the innermost template,
joined with `' > '`). -/
def renderRelicSpan (r : Str) : Str :=
  rpiR1 ++ escapeHtml r ++ rpiR2 ++ escapeHtml r ++ rpiR3

/-- One part `<li>` of `renderPrimeItem` (the template mapped over
`groupedParts`); note `p.rarity` is interpolated raw. -/
def renderGroupItem (g : GroupEntry) : Str :=
  rpiP1 ++ g.rarity ++ rpiP2 ++ escapeHtml g.part ++ rpiP3 ++
    strJoin (strL " > ") (g.relics.map renderRelicSpan) ++ rpiP4

/-- `view.renderPrimeItem` of `unnamed/part_000`; `expanded` stands for
`state.expandedItems.has(name)` and `lc` for `localeCompare`. -/
def renderPrimeItem (lc : Str → Str → Int) (expanded : Bool) (name : Str) (info : PrimeV2) : Str :=
  rpiT1 ++ escapeHtml name ++ rpiT2 ++ escapeHtml name ++ rpiT3 ++ expIcon expanded ++
    rpiT4 ++ activeCls expanded ++ rpiT5 ++
    strJoin [] ((groupParts lc info.parts).map renderGroupItem) ++ rpiT6

/-- One reward `<li>` of `renderRelicPopup` (`r.part || ''` equals
`r.part`, both being empty when empty); `r.rarity` is interpolated raw. -/
def renderRewardLi (r : RewardP) : Str :=
  rrpV1 ++ r.rarity ++ rrpV2 ++ escapeHtml r.part ++ rrpV3

/-- `view.renderRelicPopup` of `unnamed/part_000` (`state.data.relics`
passed explicitly). -/
def renderRelicPopup (relics : List (Str × RelicE)) (relicName : Str) : Str :=
  match getAssoc relics relicName with
  | none => strL "<p>Relic information not found</p>"
  | some relic =>
    rrpT1 ++ escapeHtml relicName ++ rrpT2 ++
      escapeHtml (if relic.location = [] then strL "Unknown location" else relic.location) ++
      rrpT3 ++ strJoin [] (relic.rewards.map renderRewardLi) ++ rrpT4

/-! ### Character-count lemmas for the escaping analysis -/

theorem countChar_nil (c : Char) : countChar c [] = 0 := by
  simp [countChar]

theorem countChar_append (c : Char) (a b : Str) :
    countChar c (a ++ b) = countChar c a + countChar c b := by
  simp [countChar, List.countP_append]

theorem countChar_cons (c d : Char) (t : Str) :
    countChar c (d :: t) = countChar c t + (if d = c then 1 else 0) := by
  simp [countChar, List.countP_cons]

theorem countChar_strJoin (c : Char) (sep : Str) :
    ∀ l : List Str, countChar c (strJoin sep l) =
      (l.map (countChar c)).sum + (l.length - 1) * countChar c sep
  | [] => by simp [strJoin, countChar_nil]
  | [x] => by simp [strJoin]
  | x :: y :: t => by
    have ih := countChar_strJoin c sep (y :: t)
    have h1 : strJoin sep (x :: y :: t) = x ++ sep ++ strJoin sep (y :: t) := rfl
    rw [h1, countChar_append, countChar_append, ih]
    simp only [List.map_cons, List.sum_cons, List.length_cons, Nat.add_sub_cancel]
    have h2 : (t.length + 1) * countChar c sep = t.length * countChar c sep + countChar c sep := by
      rw [Nat.add_mul, Nat.one_mul]
    rw [h2]
    omega

theorem sum_map_constN {α : Type} (l : List α) (k : Nat) :
    (l.map (fun _ => k)).sum = l.length * k := by
  induction l with
  | nil => simp
  | cons x t ih =>
    simp only [List.map_cons, List.sum_cons, List.length_cons, ih, Nat.add_mul, Nat.one_mul]
    omega

theorem countChar_replaceAllChar_self (a : Char) (rep : Str)
    (hrep : countChar a rep = 0) :
    ∀ s : Str, countChar a (replaceAllChar a rep s) = 0
  | [] => by simp [replaceAllChar, countChar_nil]
  | d :: t => by
    by_cases h : d = a
    · simp only [replaceAllChar, if_pos h, countChar_append, hrep,
        countChar_replaceAllChar_self a rep hrep t]
    · simp only [replaceAllChar, if_neg h, countChar_cons,
        countChar_replaceAllChar_self a rep hrep t, if_neg h]

theorem countChar_replaceAllChar_other (c a : Char) (rep : Str) (hca : c ≠ a)
    (hrep : countChar c rep = 0) :
    ∀ s : Str, countChar c (replaceAllChar a rep s) = countChar c s
  | [] => rfl
  | d :: t => by
    by_cases h : d = a
    · have hdc : ¬ d = c := by rw [h]; exact fun hh => hca hh.symm
      simp only [replaceAllChar, if_pos h, countChar_append, hrep,
        countChar_replaceAllChar_other c a rep hca hrep t, countChar_cons, if_neg hdc]
      omega
    · simp only [replaceAllChar, if_neg h, countChar_cons,
        countChar_replaceAllChar_other c a rep hca hrep t]

theorem escapeHtml_count_zero (c : Char)
    (hc : c = '<' ∨ c = '>' ∨ c = '"' ∨ c = apos) (s : Str) :
    countChar c (escapeHtml s) = 0 := by
  unfold escapeHtml
  rcases hc with h | h | h | h <;> subst h
  · rw [countChar_replaceAllChar_other _ _ _ (by decide) (by decide),
      countChar_replaceAllChar_other _ _ _ (by decide) (by decide),
      countChar_replaceAllChar_other _ _ _ (by decide) (by decide)]
    exact countChar_replaceAllChar_self _ _ (by decide) _
  · rw [countChar_replaceAllChar_other _ _ _ (by decide) (by decide),
      countChar_replaceAllChar_other _ _ _ (by decide) (by decide)]
    exact countChar_replaceAllChar_self _ _ (by decide) _
  · rw [countChar_replaceAllChar_other _ _ _ (by decide) (by decide)]
    exact countChar_replaceAllChar_self _ _ (by decide) _
  · exact countChar_replaceAllChar_self _ _ (by decide) _

theorem renderRewardLi_count (c : Char)
    (hc : c = '<' ∨ c = '>' ∨ c = '"' ∨ c = apos) (r : RewardP) :
    countChar c (renderRewardLi r) =
      countChar c (rrpV1 ++ rrpV2 ++ rrpV3) + countChar c r.rarity := by
  simp only [renderRewardLi, countChar_append, escapeHtml_count_zero c hc]
  omega

theorem renderRelicSpan_count (c : Char)
    (hc : c = '<' ∨ c = '>' ∨ c = '"' ∨ c = apos) (r : Str) :
    countChar c (renderRelicSpan r) = countChar c (rpiR1 ++ rpiR2 ++ rpiR3) := by
  simp only [renderRelicSpan, countChar_append, escapeHtml_count_zero c hc]
  omega

theorem renderGroupItem_count (c : Char)
    (hc : c = '<' ∨ c = '>' ∨ c = '"' ∨ c = apos) (g : GroupEntry) :
    countChar c (renderGroupItem g) =
      countChar c (rpiP1 ++ rpiP2 ++ rpiP3 ++ rpiP4) + countChar c g.rarity +
      g.relics.length * countChar c (rpiR1 ++ rpiR2 ++ rpiR3) +
      (g.relics.length - 1) * countChar c (strL " > ") := by
  unfold renderGroupItem
  simp only [countChar_append, escapeHtml_count_zero c hc]
  rw [countChar_strJoin, List.map_map]
  have hfun : (countChar c ∘ renderRelicSpan) =
      (fun _ : Str => countChar c (rpiR1 ++ rpiR2 ++ rpiR3)) :=
    funext (fun r => renderRelicSpan_count c hc r)
  rw [hfun, sum_map_constN]
  simp only [List.length_map, countChar_append]
  omega

theorem renderRelicPopup_count (c : Char)
    (hc : c = '<' ∨ c = '>' ∨ c = '"' ∨ c = apos)
    (relics : List (Str × RelicE)) (n : Str) (relic : RelicE)
    (hfind : getAssoc relics n = some relic) :
    countChar c (renderRelicPopup relics n) =
      countChar c (rrpT1 ++ rrpT2 ++ rrpT3 ++ rrpT4) +
        (relic.rewards.map (fun r =>
            countChar c (rrpV1 ++ rrpV2 ++ rrpV3) + countChar c r.rarity)).sum := by
  unfold renderRelicPopup
  rw [hfind]
  simp only [countChar_append, escapeHtml_count_zero c hc]
  rw [countChar_strJoin, List.map_map]
  have hfun : (countChar c ∘ renderRewardLi) =
      (fun r : RewardP => countChar c (rrpV1 ++ rrpV2 ++ rrpV3) + countChar c r.rarity) :=
    funext (fun r => renderRewardLi_count c hc r)
  rw [hfun]
  simp only [countChar_nil, Nat.mul_zero, Nat.add_zero, countChar_append]
  omega

theorem renderPrimeItem_count (c : Char)
    (hc : c = '<' ∨ c = '>' ∨ c = '"' ∨ c = apos)
    (lc : Str → Str → Int) (expanded : Bool) (name : Str) (info : PrimeV2) :
    countChar c (renderPrimeItem lc expanded name info) =
      countChar c (rpiT1 ++ rpiT2 ++ rpiT3 ++ rpiT4 ++ rpiT5 ++ rpiT6) +
        countChar c (expIcon expanded) + countChar c (activeCls expanded) +
        ((groupParts lc info.parts).map (fun g =>
            countChar c (rpiP1 ++ rpiP2 ++ rpiP3 ++ rpiP4) + countChar c g.rarity +
            g.relics.length * countChar c (rpiR1 ++ rpiR2 ++ rpiR3) +
            (g.relics.length - 1) * countChar c (strL " > "))).sum := by
  unfold renderPrimeItem
  simp only [countChar_append, escapeHtml_count_zero c hc]
  rw [countChar_strJoin, List.map_map]
  have hfun : (countChar c ∘ renderGroupItem) =
      (fun g : GroupEntry =>
        countChar c (rpiP1 ++ rpiP2 ++ rpiP3 ++ rpiP4) + countChar c g.rarity +
        g.relics.length * countChar c (rpiR1 ++ rpiR2 ++ rpiR3) +
        (g.relics.length - 1) * countChar c (strL " > ")) :=
    funext (fun g => renderGroupItem_count c hc g)
  rw [hfun]
  simp only [countChar_nil, Nat.mul_zero, Nat.add_zero, countChar_append]
  omega

set_option maxRecDepth 40000 in
/-- C4: refuted as stated.  The renderers interpolate the dataset rarity
string raw into the `class="rarity-..."` attribute (no `escapeHtml`), so a
parsed dataset can put unescaped `<`, `>` and `"` into the markup: the
rarity `<script>` survives the tolerant parser (`parseV2`) and reappears
verbatim inside `renderRelicPopup`'s output. -/
theorem C4_counterexample :
    ((parseV2 (strL "# Relics\n## Lith X1\n**Location**: Void\n- P (<script>)")).map
        (fun res =>
          jsIncludes (renderRelicPopup res.relics (strL "Lith X1"))
            (strL "class=\"rarity-<script>\""))) = some true := by
  decide

/-- C4 (amended): every string the renderers pass through
`utils.escapeHtml` — prime names, part names, relic names, locations —
contributes no `<`, `>`, `"` or `'` to the markup: `escapeHtml` output
never contains these characters, and the number of occurrences of each of
them in `renderRelicPopup` and `renderPrimeItem` output equals a
template-literal constant plus exactly the occurrences inside the raw
`rarity` strings of the dataset, which are interpolated unescaped. -/
theorem C4_escaping_amended (c : Char)
    (hc : c = '<' ∨ c = '>' ∨ c = '"' ∨ c = apos)
    (relics : List (Str × RelicE)) (n : Str) (relic : RelicE)
    (hfind : getAssoc relics n = some relic)
    (lc : Str → Str → Int) (expanded : Bool) (name : Str) (info : PrimeV2) :
    (∀ s : Str, countChar c (escapeHtml s) = 0) ∧
    countChar c (renderRelicPopup relics n) =
      countChar c (rrpT1 ++ rrpT2 ++ rrpT3 ++ rrpT4) +
        (relic.rewards.map (fun r =>
            countChar c (rrpV1 ++ rrpV2 ++ rrpV3) + countChar c r.rarity)).sum ∧
    countChar c (renderPrimeItem lc expanded name info) =
      countChar c (rpiT1 ++ rpiT2 ++ rpiT3 ++ rpiT4 ++ rpiT5 ++ rpiT6) +
        countChar c (expIcon expanded) + countChar c (activeCls expanded) +
        ((groupParts lc info.parts).map (fun g =>
            countChar c (rpiP1 ++ rpiP2 ++ rpiP3 ++ rpiP4) + countChar c g.rarity +
            g.relics.length * countChar c (rpiR1 ++ rpiR2 ++ rpiR3) +
            (g.relics.length - 1) * countChar c (strL " > "))).sum :=
  ⟨escapeHtml_count_zero c hc,
   renderRelicPopup_count c hc relics n relic hfind,
   renderPrimeItem_count c hc lc expanded name info⟩

/-- C4 witness: the amended statement instantiated at `c = '<'` with a
one-relic, one-part dataset whose rarity is `<b>`. -/
theorem C4_escaping_amended_witness :
    countChar '<' (escapeHtml (strL "<a href=\"x\">")) = 0 ∧
    countChar '<' (renderRelicPopup
        [(strL "R1", ⟨strL "L", [⟨strL "P", strL "<b>"⟩]⟩)] (strL "R1")) =
      countChar '<' (rrpT1 ++ rrpT2 ++ rrpT3 ++ rrpT4) +
        (([⟨strL "P", strL "<b>"⟩] : List RewardP).map (fun r =>
            countChar '<' (rrpV1 ++ rrpV2 ++ rrpV3) + countChar '<' r.rarity)).sum ∧
    countChar '<' (renderPrimeItem (fun _ _ => 0) false (strL "N")
        ⟨strL "N", [⟨strL "P", strL "<b>", strL "R1"⟩]⟩) =
      countChar '<' (rpiT1 ++ rpiT2 ++ rpiT3 ++ rpiT4 ++ rpiT5 ++ rpiT6) +
        countChar '<' (expIcon false) + countChar '<' (activeCls false) +
        ((groupParts (fun _ _ => 0)
            (⟨strL "N", [⟨strL "P", strL "<b>", strL "R1"⟩]⟩ : PrimeV2).parts).map (fun g =>
            countChar '<' (rpiP1 ++ rpiP2 ++ rpiP3 ++ rpiP4) + countChar '<' g.rarity +
            g.relics.length * countChar '<' (rpiR1 ++ rpiR2 ++ rpiR3) +
            (g.relics.length - 1) * countChar '<' (strL " > "))).sum :=
  ⟨(C4_escaping_amended '<' (Or.inl rfl)
      [(strL "R1", ⟨strL "L", [⟨strL "P", strL "<b>"⟩]⟩)] (strL "R1")
      ⟨strL "L", [⟨strL "P", strL "<b>"⟩]⟩ (by decide) (fun _ _ => 0) false
      (strL "N") ⟨strL "N", [⟨strL "P", strL "<b>", strL "R1"⟩]⟩).1 (strL "<a href=\"x\">"),
   (C4_escaping_amended '<' (Or.inl rfl)
      [(strL "R1", ⟨strL "L", [⟨strL "P", strL "<b>"⟩]⟩)] (strL "R1")
      ⟨strL "L", [⟨strL "P", strL "<b>"⟩]⟩ (by decide) (fun _ _ => 0) false
      (strL "N") ⟨strL "N", [⟨strL "P", strL "<b>", strL "R1"⟩]⟩).2.1,
   (C4_escaping_amended '<' (Or.inl rfl)
      [(strL "R1", ⟨strL "L", [⟨strL "P", strL "<b>"⟩]⟩)] (strL "R1")
      ⟨strL "L", [⟨strL "P", strL "<b>"⟩]⟩ (by decide) (fun _ _ => 0) false
      (strL "N") ⟨strL "N", [⟨strL "P", strL "<b>", strL "R1"⟩]⟩).2.2⟩

/-! ### Line-join lemmas for the serialized document -/

/-- Newline-terminated line list: each line `l` contributes `l ++ '\n'`.
Both sections of `generateMarkdown` emit text of this shape. -/
def joinNL (ls : List Str) : Str := (ls.map (fun l => l ++ nl1)).flatten

theorem joinNL_nil : joinNL [] = [] := rfl

theorem joinNL_cons (x : Str) (ls : List Str) :
    joinNL (x :: ls) = x ++ nl1 ++ joinNL ls := by
  simp [joinNL, List.append_assoc]

theorem joinNL_append (a b : List Str) : joinNL (a ++ b) = joinNL a ++ joinNL b := by
  simp [joinNL]

theorem joinNL_eq_strJoin (ls : List Str) (h : ls ≠ []) :
    joinNL ls = strJoin nl1 ls ++ nl1 := by
  induction ls with
  | nil => exact absurd rfl h
  | cons x rest ih =>
    cases rest with
    | nil => simp [joinNL, strJoin]
    | cons y t =>
      rw [joinNL_cons, ih (by simp), strJoin_cons nl1 x (y :: t) (by simp)]
      simp [List.append_assoc]

theorem strJoin_append_single (sep : Str) (x : Str) :
    ∀ K : List Str, K ≠ [] → strJoin sep (K ++ [x]) = strJoin sep K ++ sep ++ x
  | [], h => absurd rfl h
  | [y], _ => by simp [strJoin]
  | y :: z :: t, _ => by
      rw [List.cons_append, strJoin_cons _ _ _ (by simp),
        strJoin_cons _ _ _ (by simp), strJoin_append_single sep x (z :: t) (by simp)]
      simp [List.append_assoc]

theorem splitOnSub1_join (c : Char) :
    ∀ ls : List Str, ls ≠ [] → (∀ l ∈ ls, c ∉ l) →
      splitOnSub [c] (strJoin [c] ls) = ls
  | [], h, _ => absurd rfl h
  | [x], _, hf => by
      simp only [strJoin]
      exact splitOnSub1_nodcc c x (hf x (by simp))
  | x :: y :: t, _, hf => by
      have h1 : strJoin [c] (x :: y :: t) = x ++ c :: strJoin [c] (y :: t) := by
        rw [strJoin_cons _ _ _ (by simp)]
        simp [List.append_assoc]
      rw [h1, splitOnSub1_exact c x _ (hf x (by simp)),
        splitOnSub1_join c (y :: t) (by simp) (fun l hl => hf l (List.mem_cons_of_mem _ hl))]

theorem trimRight_append (A X : Str) :
    trimRight (A ++ X) = if trimRight X = [] then trimRight A else A ++ trimRight X := by
  by_cases h : trimRight X = []
  · rw [if_pos h]
    have h1 : (X.reverse.dropWhile isWS).isEmpty = true := by
      rw [List.isEmpty_iff]
      have h2 := congrArg List.reverse h
      simpa [trimRight] using h2
    unfold trimRight
    rw [List.reverse_append, List.dropWhile_append, if_pos h1]
  · rw [if_neg h]
    have h1 : (X.reverse.dropWhile isWS).isEmpty = false := by
      rw [List.isEmpty_eq_false_iff_exists_mem]
      cases hd : X.reverse.dropWhile isWS with
      | nil =>
        exfalso
        apply h
        simp [trimRight, hd]
      | cons a t => exact ⟨a, by simp⟩
    unfold trimRight
    rw [List.reverse_append, List.dropWhile_append, if_neg (by simp [h1]),
      List.reverse_append, List.reverse_reverse]

/-! ### Dispatch computations for generated lines (strict parser) -/

theorem sectionHeadersV1_none_dash (st : StV1) (rest : Str) :
    handleSectionHeadersV1 st ('-' :: rest) = none := by
  simp [handleSectionHeadersV1, hdrPrimes, hdrRelics]

theorem sectionHeadersV1_none_hh (st : StV1) (rest : Str) :
    handleSectionHeadersV1 st ('#' :: '#' :: rest) = none := by
  simp [handleSectionHeadersV1, hdrPrimes, hdrRelics]

theorem sectionHeadersV1_none_star (st : StV1) (rest : Str) :
    handleSectionHeadersV1 st ('*' :: rest) = none := by
  simp [handleSectionHeadersV1, hdrPrimes, hdrRelics]

theorem sectionHeadersV1_none_gen (st : StV1) (rest : Str) :
    handleSectionHeadersV1 st ('#' :: ' ' :: 'G' :: rest) = none := by
  simp [handleSectionHeadersV1, hdrPrimes, hdrRelics]

theorem replaceFirst_not_mem (c : Char) : ∀ R : Str, c ∉ R → replaceFirst c (R ++ [c]) = R
  | [], _ => by simp [replaceFirst]
  | d :: t, h => by
    have hd : ¬ d = c := fun hh => by simp [hh] at h
    simp only [List.cons_append, replaceFirst, if_neg hd, List.append_eq]
    rw [replaceFirst_not_mem c t (fun hh => h (List.mem_cons_of_mem _ hh))]

/-- `parsePartAndRarity` of the strict parser on a serialized
`'P (R)'` chunk with well-behaved fields (the rarity may be empty —
`trimStable []` holds). -/
theorem parsePartAndRarityV1_gen (P R : Str)
    (hPt : trimStable P = true) (hPne : P ≠ []) (hPp : '(' ∉ P)
    (hRt : trimStable R = true) (hRp : ')' ∉ R) (hRq : '(' ∉ R) :
    parsePartAndRarityV1 (P ++ parenOpenSp ++ R ++ [')']) = (P, R) := by
  have hshape : (P ++ parenOpenSp ++ R ++ [')'] : Str) =
      (P ++ [' ']) ++ '(' :: (R ++ [')']) := by
    simp [parenOpenSp, List.append_assoc]
  have hA : '(' ∉ (P ++ [' '] : Str) := by
    intro hmem
    rcases List.mem_append.1 hmem with h | h
    · exact hPp h
    · simp at h
  have hB : '(' ∉ (R ++ [')'] : Str) := by
    intro hmem
    rcases List.mem_append.1 hmem with h | h
    · exact hRq h
    · simp at h
  have hsplit : splitOnSub ['('] (P ++ parenOpenSp ++ R ++ [')']) =
      [P ++ [' '], R ++ [')']] := by
    rw [hshape, splitOnSub1_exact '(' _ _ hA, splitOnSub1_nodcc '(' _ hB]
  simp only [parsePartAndRarityV1, hsplit, List.map_cons, List.map_nil]
  have ht1 : trimStr (P ++ [' ']) = P := trimStr_append_sp P hPt hPne
  have ht2 : trimStr (R ++ [')']) = R ++ [')'] := by
    cases hR : R with
    | nil => decide
    | cons r0 R' =>
      rw [← hR]
      refine trimStr_eq_self _ (trimStable_append R [')'] (by rw [hR]; simp) (by simp)
        (trimStable_head _ hRt) (by decide))
  rw [ht1, ht2, replaceFirst_not_mem ')' R hRp]

/-- `parsePartInfo` of the strict parser on a serialized part line
`'- P (R) -> C'` with well-behaved fields: the relic reference is
recovered in the `relic` field. -/
theorem parsePartInfoV1_gen (P R C : Str)
    (hPt : trimStable P = true) (hPne : P ≠ []) (hPd : P.head? ≠ some '-')
    (hPa : has2 '-' '>' P = false) (hPp : '(' ∉ P)
    (hRt : trimStable R = true) (hRa : has2 '-' '>' R = false)
    (hRp : ')' ∉ R) (hRq : '(' ∉ R)
    (hCt : trimStable C = true) (hCa : has2 '-' '>' C = false) :
    parsePartInfoV1 (dashSp ++ P ++ parenOpenSp ++ R ++ parenArrowSp ++ C) =
      ⟨P, R, some C⟩ := by
  obtain ⟨p0, P', rfl⟩ : ∃ p0 P', P = p0 :: P' := by
    cases P with
    | nil => exact absurd rfl hPne
    | cons a b => exact ⟨a, b, rfl⟩
  have hp0ws : isWS p0 = false := by
    have := trimStable_head _ hPt
    simpa [headNonWS] using this
  have hp0d : ¬(p0 = '-' ∨ p0 = ' ') := by
    rintro (h | h)
    · exact hPd (by simp [h])
    · rw [h] at hp0ws
      simp [isWS] at hp0ws
  have hline : (dashSp ++ (p0 :: P') ++ parenOpenSp ++ R ++ parenArrowSp ++ C : Str) =
      '-' :: ' ' :: (p0 :: (P' ++ [' ', '('] ++ R ++ [')', ' '] ++ ['-', '>'] ++ (' ' :: C))) := by
    simp [dashSp, parenOpenSp, parenArrowSp, List.append_assoc]
  rw [hline]
  simp only [parsePartInfoV1]
  have hdrop : (('-' :: ' ' ::
      (p0 :: (P' ++ [' ', '('] ++ R ++ [')', ' '] ++ ['-', '>'] ++ (' ' :: C)))) : Str).dropWhile
        (fun c => c = '-' || c = ' ') =
      p0 :: (P' ++ [' ', '('] ++ R ++ [')', ' '] ++ ['-', '>'] ++ (' ' :: C)) := by
    rw [List.dropWhile_cons, List.dropWhile_cons, List.dropWhile_cons]
    simp only [decide_eq_true_eq]
    have : (decide (p0 = '-') || decide (p0 = ' ')) = false := by
      simp only [Bool.or_eq_false_iff, decide_eq_false_iff_not]
      constructor
      · intro h; exact hp0d (Or.inl h)
      · intro h; exact hp0d (Or.inr h)
    simp [this]
  rw [hdrop]
  have hshape : (p0 :: (P' ++ [' ', '('] ++ R ++ [')', ' '] ++ ['-', '>'] ++ (' ' :: C)) : Str) =
      (p0 :: P' ++ [' ', '('] ++ R ++ [')', ' ']) ++ '-' :: '>' :: (' ' :: C) := by
    simp [List.append_assoc]
  rw [hshape]
  have hAfree : has2 '-' '>' (p0 :: P' ++ [' ', '('] ++ R ++ [')', ' ']) = false := by
    have h1 : has2 '-' '>' (R ++ [')', ' ']) = false := by
      refine has2_append_false _ _ _ _ hRa (by decide) ?_
      rintro ⟨-, h⟩
      simp at h
    have h2 : has2 '-' '>' ([' ', '('] ++ (R ++ [')', ' '])) = false := by
      refine has2_append_false _ _ _ _ (by decide) h1 ?_
      rintro ⟨h, -⟩
      simp at h
    have h3 : has2 '-' '>' ((p0 :: P') ++ ([' ', '('] ++ (R ++ [')', ' ']))) = false := by
      refine has2_append_false _ _ _ _ hPa h2 ?_
      rintro ⟨-, h⟩
      simp at h
    simpa [List.append_assoc] using h3
  have hBfree : has2 '-' '>' (' ' :: C) = false := by
    have : (' ' :: C : Str) = [' '] ++ C := rfl
    rw [this]
    refine has2_append_false _ _ _ _ (by decide) hCa ?_
    rintro ⟨h, -⟩
    simp at h
  have hsplit : splitOnSub arrowS
      ((p0 :: P' ++ [' ', '('] ++ R ++ [')', ' ']) ++ '-' :: '>' :: (' ' :: C)) =
      [p0 :: P' ++ [' ', '('] ++ R ++ [')', ' '], ' ' :: C] := by
    rw [arrow_eq]
    exact splitOnSub2_exact '-' '>' (by decide) _ _ hAfree hBfree
  rw [hsplit]
  simp only [List.map_cons, List.map_nil]
  have hheadA : headNonWS (p0 :: P' ++ [' ', '('] ++ R : Str) = true := by
    have e3 : (p0 :: P' ++ [' ', '('] ++ R : Str) = (p0 :: P') ++ ([' ', '('] ++ R) := by simp
    rw [e3]
    exact headNonWS_append _ _ (by simp) (headNonWS_cons _ _ hp0ws)
  have hstableA : trimStable ((p0 :: P' ++ [' ', '('] ++ R) ++ [')']) = true :=
    trimStable_append _ _ (by simp) (by simp) hheadA (by decide)
  have htrimA : trimStr (p0 :: P' ++ [' ', '('] ++ R ++ [')', ' ']) =
      p0 :: P' ++ [' ', '('] ++ R ++ [')'] := by
    have e1 : (p0 :: P' ++ [' ', '('] ++ R ++ [')', ' '] : Str) =
        ((p0 :: P' ++ [' ', '('] ++ R) ++ [')']) ++ [' '] := by simp
    rw [e1, trimStr_append_sp _ hstableA (by simp)]
  have htrimB : trimStr (' ' :: C) = C := by
    rw [trimStr_cons_ws _ _ (by decide), trimStr_eq_self _ hCt]
  rw [htrimA, htrimB]
  have hpar : parsePartAndRarityV1 (p0 :: P' ++ [' ', '('] ++ R ++ [')']) = (p0 :: P', R) := by
    have e2 : (p0 :: P' ++ [' ', '('] ++ R ++ [')'] : Str) =
        (p0 :: P') ++ parenOpenSp ++ R ++ [')'] := by
      simp [parenOpenSp, List.append_assoc]
    rw [e2]
    exact parsePartAndRarityV1_gen (p0 :: P') R hPt (by simp) hPp hRt hRp hRq
  simp only [hpar]

/-- `parseRewardInfo` of the strict parser on a serialized reward line
`'- P (R)'` with well-behaved fields. -/
theorem parseRewardInfoV1_gen (P R : Str)
    (hPt : trimStable P = true) (hPne : P ≠ []) (hPp : '(' ∉ P)
    (hRt : trimStable R = true) (hRp : ')' ∉ R) (hRq : '(' ∉ R) :
    parseRewardInfoV1 (dashSp ++ P ++ parenOpenSp ++ R ++ [')']) = ⟨P, R⟩ := by
  have hshape : (dashSp ++ P ++ parenOpenSp ++ R ++ [')'] : Str) =
      '-' :: ' ' :: (P ++ parenOpenSp ++ R ++ [')']) := by
    simp [dashSp, List.append_assoc]
  rw [hshape]
  simp only [parseRewardInfoV1, List.drop_succ_cons, List.drop_zero]
  rw [parsePartAndRarityV1_gen P R hPt hPne hPp hRt hRp hRq]

/-! ### Step lemmas of the strict parser on generated lines -/

theorem stepV1_nil (st : StV1) : stepV1 st [] = some st := rfl

theorem stepV1_hdrPrimes (st : StV1) :
    stepV1 st hdrPrimes =
      some {st with currentSection := some MdSect.primes, currentItem := none} := by
  unfold stepV1
  rw [if_neg (by decide)]
  unfold handleSectionHeadersV1
  rw [if_pos rfl]

theorem stepV1_hdrRelics (st : StV1) :
    stepV1 st hdrRelics =
      some {st with currentSection := some MdSect.relics, currentItem := none} := by
  unfold stepV1
  rw [if_neg (by decide)]
  unfold handleSectionHeadersV1
  rw [if_neg (by decide), if_pos rfl]

theorem stepV1_prime_open (st : StV1) (k : Str)
    (hsec : st.currentSection = some MdSect.primes)
    (hka : has2 '-' '>' k = false) :
    stepV1 st (dashSp ++ k) =
      some {st with primes := setAssoc st.primes k ⟨k, []⟩, currentItem := some k} := by
  have h1 : jsStartsWith (dashSp ++ k) dashSp = true := jsStartsWith_append_self dashSp k
  have h2 : jsIncludes (dashSp ++ k) arrowS = false := jsIncludes_arrow_dashSp k hka
  have hprime : handlePrimeSectionV1 st (dashSp ++ k) =
      .handled {st with primes := setAssoc st.primes k ⟨k, []⟩, currentItem := some k} := by
    unfold handlePrimeSectionV1
    rw [hsec]
    rw [if_neg (by simp)]
    rw [if_pos (by rw [h1, h2]; rfl)]
    rfl
  have hline : (dashSp ++ k : Str) = '-' :: (' ' :: k) := rfl
  unfold stepV1
  rw [if_neg (by simp [dashSp]), hline, sectionHeadersV1_none_dash, ← hline, hprime]

theorem stepV1_part_line (st : StV1) (k : Str) (pe : PrimeV1) (P R C : Str)
    (hsec : st.currentSection = some MdSect.primes)
    (hitem : st.currentItem = some k)
    (hget : getAssoc st.primes k = some pe)
    (hPt : trimStable P = true) (hPne : P ≠ []) (hPd : P.head? ≠ some '-')
    (hPa : has2 '-' '>' P = false) (hPp : '(' ∉ P)
    (hRt : trimStable R = true) (hRa : has2 '-' '>' R = false)
    (hRp : ')' ∉ R) (hRq : '(' ∉ R)
    (hCt : trimStable C = true) (hCa : has2 '-' '>' C = false) :
    stepV1 st (dashSp ++ P ++ parenOpenSp ++ R ++ parenArrowSp ++ C) =
      some {st with primes := setAssoc st.primes k ⟨pe.name, pe.parts ++ [⟨P, R, some C⟩]⟩} := by
  have hline : (dashSp ++ P ++ parenOpenSp ++ R ++ parenArrowSp ++ C : Str) =
      '-' :: ' ' :: (P ++ [' ', '('] ++ R ++ [')', ' '] ++ ['-', '>'] ++ (' ' :: C)) := by
    simp [dashSp, parenOpenSp, parenArrowSp, List.append_assoc]
  have harrow : jsIncludes (dashSp ++ P ++ parenOpenSp ++ R ++ parenArrowSp ++ C) arrowS = true := by
    rw [arrow_eq, jsIncludes_eq_has2, hline]
    have e : ('-' :: ' ' :: (P ++ [' ', '('] ++ R ++ [')', ' '] ++ ['-', '>'] ++ (' ' :: C)) : Str) =
        ('-' :: ' ' :: (P ++ [' ', '('] ++ R ++ [')', ' '])) ++ '-' :: '>' :: (' ' :: C) := by
      simp [List.append_assoc]
    rw [e]
    exact has2_mid '-' '>' _ _
  have hstarts : jsStartsWith (dashSp ++ P ++ parenOpenSp ++ R ++ parenArrowSp ++ C) dashSp = true := by
    have e : (dashSp ++ P ++ parenOpenSp ++ R ++ parenArrowSp ++ C : Str) =
        dashSp ++ (P ++ parenOpenSp ++ R ++ parenArrowSp ++ C) := by
      simp [List.append_assoc]
    rw [e]
    exact jsStartsWith_append_self dashSp _
  have hprime : handlePrimeSectionV1 st (dashSp ++ P ++ parenOpenSp ++ R ++ parenArrowSp ++ C) =
      .handled {st with primes := setAssoc st.primes k ⟨pe.name, pe.parts ++ [⟨P, R, some C⟩]⟩} := by
    unfold handlePrimeSectionV1
    rw [hsec]
    rw [if_neg (by simp)]
    rw [if_neg (by rw [hstarts, harrow]; simp)]
    rw [hitem]
    dsimp only []
    rw [if_pos (by rw [hstarts, harrow]; simp)]
    rw [hget]
    rw [parsePartInfoV1_gen P R C hPt hPne hPd hPa hPp hRt hRa hRp hRq hCt hCa]
  unfold stepV1
  rw [if_neg (by rw [hline]; simp), hline, sectionHeadersV1_none_dash, ← hline, hprime]

theorem stepV1_relic_open (st : StV1) (n : Str)
    (hsec : st.currentSection = some MdSect.relics) :
    stepV1 st (hhSp ++ n) =
      some {st with relics := setAssoc st.relics n ⟨[], []⟩, currentItem := some n} := by
  have hline : (hhSp ++ n : Str) = '#' :: '#' :: (' ' :: n) := rfl
  have hprime : handlePrimeSectionV1 st (hhSp ++ n) = .pass := by
    unfold handlePrimeSectionV1
    rw [hsec]
    rw [if_pos (by simp)]
  have hrel : handleRelicSectionV1 st (hhSp ++ n) =
      .handled {st with relics := setAssoc st.relics n ⟨[], []⟩, currentItem := some n} := by
    unfold handleRelicSectionV1
    rw [hsec]
    rw [if_neg (by simp)]
    rw [if_pos (jsStartsWith_append_self hhSp n)]
    rfl
  unfold stepV1
  rw [if_neg (by simp [hhSp]), hline, sectionHeadersV1_none_hh, ← hline, hprime, hrel]

theorem stepV1_reward_line (st : StV1) (n : Str) (re : RelicE) (P R : Str)
    (hsec : st.currentSection = some MdSect.relics)
    (hitem : st.currentItem = some n)
    (hget : getAssoc st.relics n = some re)
    (hPt : trimStable P = true) (hPne : P ≠ []) (hPp : '(' ∉ P)
    (hRt : trimStable R = true) (hRp : ')' ∉ R) (hRq : '(' ∉ R) :
    stepV1 st (dashSp ++ P ++ parenOpenSp ++ R ++ [')']) =
      some {st with relics := setAssoc st.relics n ⟨re.location, re.rewards ++ [⟨P, R⟩]⟩} := by
  have hline : (dashSp ++ P ++ parenOpenSp ++ R ++ [')'] : Str) =
      '-' :: ' ' :: (P ++ parenOpenSp ++ R ++ [')']) := by
    simp [dashSp, List.append_assoc]
  have hprime : handlePrimeSectionV1 st (dashSp ++ P ++ parenOpenSp ++ R ++ [')']) = .pass := by
    unfold handlePrimeSectionV1
    rw [hsec]
    rw [if_pos (by simp)]
  have hstarts : jsStartsWith (dashSp ++ P ++ parenOpenSp ++ R ++ [')']) dashSp = true := by
    have e : (dashSp ++ P ++ parenOpenSp ++ R ++ [')'] : Str) =
        dashSp ++ (P ++ parenOpenSp ++ R ++ [')']) := by
      simp [List.append_assoc]
    rw [e]
    exact jsStartsWith_append_self dashSp _
  have hrel : handleRelicSectionV1 st (dashSp ++ P ++ parenOpenSp ++ R ++ [')']) =
      .handled {st with relics := setAssoc st.relics n ⟨re.location, re.rewards ++ [⟨P, R⟩]⟩} := by
    unfold handleRelicSectionV1
    rw [hsec]
    rw [if_neg (by simp)]
    rw [if_neg (by rw [hline]; simp [jsStartsWith, hhSp])]
    rw [hitem]
    dsimp only []
    rw [if_neg (by rw [hline]; simp [jsStartsWith, locTag])]
    rw [if_pos hstarts]
    rw [hget]
    rw [parseRewardInfoV1_gen P R hPt hPne hPp hRt hRp hRq]
  unfold stepV1
  rw [if_neg (by rw [hline]; simp), hline, sectionHeadersV1_none_dash, ← hline, hprime, hrel]

theorem stepV1_loc_line (st : StV1) (n : Str) (re : RelicE) (L : Str)
    (hsec : st.currentSection = some MdSect.relics)
    (hitem : st.currentItem = some n)
    (hget : getAssoc st.relics n = some re)
    (hLc : ':' ∉ L) (hLt : trimStable L = true) :
    stepV1 st (locTag ++ ' ' :: L) =
      some {st with relics := setAssoc st.relics n ⟨L, re.rewards⟩} := by
  have hline : (locTag ++ ' ' :: L : Str) =
      '*' :: ('*' :: 'L' :: 'o' :: 'c' :: 'a' :: 't' :: 'i' :: 'o' :: 'n' :: '*' :: '*' :: ':' :: ' ' :: L) := rfl
  have hprime : handlePrimeSectionV1 st (locTag ++ ' ' :: L) = .pass := by
    unfold handlePrimeSectionV1
    rw [hsec]
    rw [if_pos (by simp)]
  have hsplit : splitOnSub [':'] (locTag ++ ' ' :: L) =
      [['*', '*', 'L', 'o', 'c', 'a', 't', 'i', 'o', 'n', '*', '*'], ' ' :: L] := by
    have e : (locTag ++ ' ' :: L : Str) =
        ['*', '*', 'L', 'o', 'c', 'a', 't', 'i', 'o', 'n', '*', '*'] ++ ':' :: (' ' :: L) := rfl
    rw [e, splitOnSub1_exact ':' _ _ (by decide),
      splitOnSub1_nodcc ':' (' ' :: L) (by simp [hLc])]
  have htrim : trimStr (' ' :: L) = L := by
    rw [trimStr_cons_ws _ _ (by decide), trimStr_eq_self _ hLt]
  have hrel : handleRelicSectionV1 st (locTag ++ ' ' :: L) =
      .handled {st with relics := setAssoc st.relics n ⟨L, re.rewards⟩} := by
    unfold handleRelicSectionV1
    rw [hsec]
    rw [if_neg (by simp)]
    rw [if_neg (by rw [hline]; simp [jsStartsWith, hhSp])]
    rw [hitem]
    dsimp only []
    rw [if_pos (jsStartsWith_append_self locTag (' ' :: L))]
    rw [hget, hsplit]
    simp only [htrim]
  unfold stepV1
  rw [if_neg (by rw [hline]; simp), hline, sectionHeadersV1_none_star, ← hline, hprime, hrel]

theorem stepV1_pass_nosec (st : StV1) (line : Str) (hne : line ≠ [])
    (hhdr : handleSectionHeadersV1 st line = none)
    (hsec : st.currentSection = none) :
    stepV1 st line = some st := by
  have hprime : handlePrimeSectionV1 st line = .pass := by
    unfold handlePrimeSectionV1
    rw [hsec]
    rw [if_pos (by simp)]
  have hrel : handleRelicSectionV1 st line = .pass := by
    unfold handleRelicSectionV1
    rw [hsec]
    rw [if_pos (by simp)]
  unfold stepV1
  rw [if_neg hne, hhdr, hprime, hrel]

/-! ### Serialized line forms and well-behaved fields -/

/-- A prime part as recovered by the strict parser from its own
serialization. -/
def convPart (p : SrcPart) : PartV1 := ⟨p.item, p.rarity, some p.source⟩

/-- A relic reward as recovered by the strict parser from its own
serialization. -/
def convReward (r : RewardSrc) : RewardP := ⟨r.item, r.rarity⟩

/-- The dispatched (trimmed) form of a serialized part line. -/
def partLineT (p : SrcPart) : Str :=
  dashSp ++ p.item ++ parenOpenSp ++ p.rarity ++ parenArrowSp ++ p.source

/-- A serialized relic reward line (already trim-stable). -/
def rewardLine (r : RewardSrc) : Str :=
  dashSp ++ r.item ++ parenOpenSp ++ r.rarity ++ [')']

/-- Fields that survive the round trip in name position. -/
def goodKey (s : Str) : Prop :=
  trimStable s = true ∧ s ≠ [] ∧ has2 '-' '>' s = false ∧ '\n' ∉ s

/-- Fields that survive the round trip in part/item position. -/
def goodItem (s : Str) : Prop :=
  trimStable s = true ∧ s ≠ [] ∧ s.head? ≠ some '-' ∧ has2 '-' '>' s = false ∧
    '(' ∉ s ∧ ')' ∉ s ∧ '\n' ∉ s

/-- Fields that survive the round trip in rarity position (the empty
rarity qualifies). -/
def goodRarity (s : Str) : Prop :=
  trimStable s = true ∧ has2 '-' '>' s = false ∧ '(' ∉ s ∧ ')' ∉ s ∧ '\n' ∉ s

/-- Fields that survive the round trip in location position. -/
def goodLoc (s : Str) : Prop :=
  trimStable s = true ∧ s ≠ [] ∧ ':' ∉ s ∧ '\n' ∉ s

theorem setAssoc_append_self (m : List (Str × α)) (k : Str) (v v' : α)
    (h : getAssoc m k = none) :
    setAssoc (m ++ [(k, v)]) k v' = m ++ [(k, v')] := by
  induction m with
  | nil => simp [setAssoc]
  | cons e rest ih =>
    obtain ⟨k1, v1⟩ := e
    by_cases hk : k1 = k
    · rw [getAssoc, if_pos hk] at h
      cases h
    · rw [getAssoc, if_neg hk] at h
      rw [List.cons_append, setAssoc, if_neg hk, ih h]
      simp

theorem getAssoc_append_single (m : List (Str × α)) (k : Str) (v : α)
    (h : getAssoc m k = none) :
    getAssoc (m ++ [(k, v)]) k = some v := by
  rw [getAssoc_append_of_none m _ k h]
  simp [getAssoc]

/-! ### Running the strict parser over serialized blocks -/

theorem runRewardLinesV1 (Pm : List (Str × PrimeV1)) (Rm : List (Str × RelicE)) (n : Str)
    (hnot : getAssoc Rm n = none) :
    ∀ (rws : List RewardSrc) (loc : Str) (acc : List RewardP),
      (∀ r ∈ rws, goodItem r.item ∧ goodRarity r.rarity) →
      (rws.map rewardLine).foldlM stepV1
          ⟨Pm, Rm ++ [(n, ⟨loc, acc⟩)], some MdSect.relics, some n⟩ =
        some ⟨Pm, Rm ++ [(n, ⟨loc, acc ++ rws.map convReward⟩)], some MdSect.relics, some n⟩
  | [], loc, acc, _ => by simp [List.foldlM]
  | r :: rws, loc, acc, hg => by
    obtain ⟨hi, hr⟩ := hg r (List.mem_cons_self _ _)
    obtain ⟨hi1, hi2, hi3, hi4, hi5, hi6, hi7⟩ := hi
    obtain ⟨hr1, hr2, hr3, hr4, hr5⟩ := hr
    have hget : getAssoc (Rm ++ [(n, (⟨loc, acc⟩ : RelicE))]) n = some ⟨loc, acc⟩ :=
      getAssoc_append_single Rm n _ hnot
    have hstep2 : stepV1 ⟨Pm, Rm ++ [(n, ⟨loc, acc⟩)], some MdSect.relics, some n⟩
        (rewardLine r) =
        some ⟨Pm, setAssoc (Rm ++ [(n, ⟨loc, acc⟩)]) n ⟨loc, acc ++ [convReward r]⟩,
          some MdSect.relics, some n⟩ :=
      stepV1_reward_line ⟨Pm, Rm ++ [(n, ⟨loc, acc⟩)], some MdSect.relics, some n⟩
        n ⟨loc, acc⟩ r.item r.rarity rfl rfl hget hi1 hi2 hi5 hr1 hr4 hr3
    rw [setAssoc_append_self Rm n _ _ hnot] at hstep2
    rw [List.map_cons, List.foldlM_cons, hstep2]
    show (rws.map rewardLine).foldlM stepV1
        ⟨Pm, Rm ++ [(n, ⟨loc, acc ++ [convReward r]⟩)], some MdSect.relics, some n⟩ = _
    rw [runRewardLinesV1 Pm Rm n hnot rws loc (acc ++ [convReward r])
      (fun x hx => hg x (List.mem_cons_of_mem _ hx))]
    simp

/-- The dispatched (trimmed) lines of one serialized relic block. -/
def relicBlockT (locs : List (Str × Str)) (rel : Str × List RewardSrc) : List Str :=
  (hhSp ++ rel.1) :: [] ::
    (rel.2.map rewardLine ++ [[], locTag ++ ' ' :: locLookup locs rel.1, []])

theorem runRelicBlockV1 (Pm : List (Str × PrimeV1)) (Rm : List (Str × RelicE))
    (ci : Option Str) (locs : List (Str × Str)) (rel : Str × List RewardSrc)
    (hnot : getAssoc Rm rel.1 = none)
    (hg : ∀ r ∈ rel.2, goodItem r.item ∧ goodRarity r.rarity)
    (hL : goodLoc (locLookup locs rel.1)) :
    (relicBlockT locs rel).foldlM stepV1 ⟨Pm, Rm, some MdSect.relics, ci⟩ =
      some ⟨Pm, Rm ++ [(rel.1, ⟨locLookup locs rel.1, rel.2.map convReward⟩)],
        some MdSect.relics, some rel.1⟩ := by
  obtain ⟨hLt, hLne, hLc, hLnl⟩ := hL
  have hopen : stepV1 ⟨Pm, Rm, some MdSect.relics, ci⟩ (hhSp ++ rel.1) =
      some ⟨Pm, Rm ++ [(rel.1, ⟨[], []⟩)], some MdSect.relics, some rel.1⟩ := by
    have h := stepV1_relic_open ⟨Pm, Rm, some MdSect.relics, ci⟩ rel.1 rfl
    rwa [setAssoc_of_not_mem Rm rel.1 _ ((getAssoc_eq_none_iff Rm rel.1).1 hnot)] at h
  rw [relicBlockT, List.foldlM_cons, hopen]
  show List.foldlM stepV1 _ ([] :: (rel.2.map rewardLine ++ [[], locTag ++ ' ' :: locLookup locs rel.1, []])) = _
  rw [List.foldlM_cons, stepV1_nil]
  show List.foldlM stepV1 _ (rel.2.map rewardLine ++ [[], locTag ++ ' ' :: locLookup locs rel.1, []]) = _
  rw [List.foldlM_append,
    runRewardLinesV1 Pm Rm rel.1 hnot rel.2 [] [] hg]
  show List.foldlM stepV1 _ [[], locTag ++ ' ' :: locLookup locs rel.1, []] = _
  rw [List.foldlM_cons, stepV1_nil]
  show List.foldlM stepV1 _ [locTag ++ ' ' :: locLookup locs rel.1, []] = _
  have hget : getAssoc (Rm ++ [(rel.1, (⟨[], [] ++ rel.2.map convReward⟩ : RelicE))]) rel.1 =
      some ⟨[], [] ++ rel.2.map convReward⟩ :=
    getAssoc_append_single Rm rel.1 _ hnot
  have hloc : stepV1 ⟨Pm, Rm ++ [(rel.1, ⟨[], [] ++ rel.2.map convReward⟩)],
        some MdSect.relics, some rel.1⟩ (locTag ++ ' ' :: locLookup locs rel.1) =
      some ⟨Pm, setAssoc (Rm ++ [(rel.1, ⟨[], [] ++ rel.2.map convReward⟩)]) rel.1
          ⟨locLookup locs rel.1, [] ++ rel.2.map convReward⟩,
        some MdSect.relics, some rel.1⟩ :=
    stepV1_loc_line _ rel.1 ⟨[], [] ++ rel.2.map convReward⟩ (locLookup locs rel.1)
      rfl rfl hget hLc hLt
  rw [setAssoc_append_self Rm rel.1 _ _ hnot] at hloc
  rw [List.foldlM_cons, hloc]
  show List.foldlM stepV1 _ [[]] = _
  rw [List.foldlM_cons, stepV1_nil]
  show some _ = _
  simp

theorem runRelicsV1 (locs : List (Str × Str)) :
    ∀ (rdl : List (Str × List RewardSrc)) (Pm : List (Str × PrimeV1))
      (Rm : List (Str × RelicE)) (ci : Option Str),
      (∀ e ∈ rdl, getAssoc Rm e.1 = none) → (objKeys rdl).Nodup →
      (∀ e ∈ rdl, (∀ r ∈ e.2, goodItem r.item ∧ goodRarity r.rarity) ∧
        goodLoc (locLookup locs e.1)) →
      ∃ ci', ((rdl.map (relicBlockT locs)).flatten).foldlM stepV1
          ⟨Pm, Rm, some MdSect.relics, ci⟩ =
        some ⟨Pm, Rm ++ rdl.map (fun rel =>
            (rel.1, ⟨locLookup locs rel.1, rel.2.map convReward⟩)),
          some MdSect.relics, ci'⟩
  | [], Pm, Rm, ci, _, _, _ => ⟨ci, by simp [List.foldlM]⟩
  | e :: rdl', Pm, Rm, ci, hfresh, hnd, hgood => by
    have hblock := runRelicBlockV1 Pm Rm ci locs e (hfresh e (List.mem_cons_self _ _))
      (hgood e (List.mem_cons_self _ _)).1 (hgood e (List.mem_cons_self _ _)).2
    have hnd2 : (e.1 :: objKeys rdl').Nodup := hnd
    have hnd' : (objKeys rdl').Nodup := (List.nodup_cons.1 hnd2).2
    have hnotin : e.1 ∉ objKeys rdl' := (List.nodup_cons.1 hnd2).1
    have hfresh' : ∀ e' ∈ rdl', getAssoc (Rm ++ [(e.1,
        (⟨locLookup locs e.1, e.2.map convReward⟩ : RelicE))]) e'.1 = none := by
      intro e' he'
      rw [getAssoc_append_of_none Rm _ _ (hfresh e' (List.mem_cons_of_mem _ he'))]
      have hne : ¬ e.1 = e'.1 := by
        intro hcontra
        exact hnotin (hcontra ▸ (by exact List.mem_map_of_mem Prod.fst he'))
      simp [getAssoc, hne]
    obtain ⟨ci', hrest⟩ := runRelicsV1 locs rdl'
      Pm (Rm ++ [(e.1, ⟨locLookup locs e.1, e.2.map convReward⟩)]) (some e.1)
      hfresh' hnd' (fun e' he' => hgood e' (List.mem_cons_of_mem _ he'))
    refine ⟨ci', ?_⟩
    rw [List.map_cons, List.flatten_cons, List.foldlM_append, hblock]
    show List.foldlM stepV1 _ ((rdl'.map (relicBlockT locs)).flatten) = _
    rw [hrest]
    simp

theorem runPartLinesV1 (Rm : List (Str × RelicE)) (Pm : List (Str × PrimeV1)) (k : Str)
    (hnot : getAssoc Pm k = none) :
    ∀ (ps : List SrcPart) (acc : List PartV1),
      (∀ p ∈ ps, goodItem p.item ∧ goodRarity p.rarity ∧ goodKey p.source) →
      (ps.map partLineT).foldlM stepV1
          ⟨Pm ++ [(k, ⟨k, acc⟩)], Rm, some MdSect.primes, some k⟩ =
        some ⟨Pm ++ [(k, ⟨k, acc ++ ps.map convPart⟩)], Rm, some MdSect.primes, some k⟩
  | [], acc, _ => by simp [List.foldlM]
  | p :: ps, acc, hg => by
    obtain ⟨hi, hr, hs⟩ := hg p (List.mem_cons_self _ _)
    obtain ⟨hi1, hi2, hi3, hi4, hi5, hi6, hi7⟩ := hi
    obtain ⟨hr1, hr2, hr3, hr4, hr5⟩ := hr
    obtain ⟨hs1, hs2, hs3, hs4⟩ := hs
    have hget : getAssoc (Pm ++ [(k, (⟨k, acc⟩ : PrimeV1))]) k = some ⟨k, acc⟩ :=
      getAssoc_append_single Pm k _ hnot
    have hstep2 : stepV1 ⟨Pm ++ [(k, ⟨k, acc⟩)], Rm, some MdSect.primes, some k⟩
        (partLineT p) =
        some ⟨setAssoc (Pm ++ [(k, ⟨k, acc⟩)]) k ⟨k, acc ++ [convPart p]⟩, Rm,
          some MdSect.primes, some k⟩ :=
      stepV1_part_line ⟨Pm ++ [(k, ⟨k, acc⟩)], Rm, some MdSect.primes, some k⟩
        k ⟨k, acc⟩ p.item p.rarity p.source rfl rfl hget
        hi1 hi2 hi3 hi4 hi5 hr1 hr2 hr4 hr3 hs1 hs3
    rw [setAssoc_append_self Pm k _ _ hnot] at hstep2
    rw [List.map_cons, List.foldlM_cons, hstep2]
    show (ps.map partLineT).foldlM stepV1
        ⟨Pm ++ [(k, ⟨k, acc ++ [convPart p]⟩)], Rm, some MdSect.primes, some k⟩ = _
    rw [runPartLinesV1 Rm Pm k hnot ps (acc ++ [convPart p])
      (fun x hx => hg x (List.mem_cons_of_mem _ hx))]
    simp

/-- The dispatched (trimmed) lines of one serialized prime block. -/
def primeBlockT (e : Str × List SrcPart) : List Str :=
  (dashSp ++ e.1) :: e.2.map partLineT

theorem runPrimeBlockV1 (Pm : List (Str × PrimeV1)) (Rm : List (Str × RelicE))
    (ci : Option Str) (e : Str × List SrcPart)
    (hnot : getAssoc Pm e.1 = none) (hk : goodKey e.1)
    (hg : ∀ p ∈ e.2, goodItem p.item ∧ goodRarity p.rarity ∧ goodKey p.source) :
    (primeBlockT e).foldlM stepV1 ⟨Pm, Rm, some MdSect.primes, ci⟩ =
      some ⟨Pm ++ [(e.1, ⟨e.1, e.2.map convPart⟩)], Rm, some MdSect.primes, some e.1⟩ := by
  obtain ⟨hk1, hk2, hk3, hk4⟩ := hk
  have hopen : stepV1 ⟨Pm, Rm, some MdSect.primes, ci⟩ (dashSp ++ e.1) =
      some ⟨Pm ++ [(e.1, ⟨e.1, []⟩)], Rm, some MdSect.primes, some e.1⟩ := by
    have h := stepV1_prime_open ⟨Pm, Rm, some MdSect.primes, ci⟩ e.1 rfl hk3
    rwa [setAssoc_of_not_mem Pm e.1 _ ((getAssoc_eq_none_iff Pm e.1).1 hnot)] at h
  rw [primeBlockT, List.foldlM_cons, hopen]
  show (e.2.map partLineT).foldlM stepV1
      ⟨Pm ++ [(e.1, ⟨e.1, []⟩)], Rm, some MdSect.primes, some e.1⟩ = _
  rw [runPartLinesV1 Rm Pm e.1 hnot e.2 [] hg]
  simp

theorem runPrimesV1 :
    ∀ (KL : List (Str × List SrcPart)) (Pm : List (Str × PrimeV1))
      (Rm : List (Str × RelicE)) (ci : Option Str),
      (∀ e ∈ KL, getAssoc Pm e.1 = none) → (objKeys KL).Nodup →
      (∀ e ∈ KL, goodKey e.1 ∧
        ∀ p ∈ e.2, goodItem p.item ∧ goodRarity p.rarity ∧ goodKey p.source) →
      ∃ ci', ((KL.map primeBlockT).flatten).foldlM stepV1
          ⟨Pm, Rm, some MdSect.primes, ci⟩ =
        some ⟨Pm ++ KL.map (fun e => (e.1, ⟨e.1, e.2.map convPart⟩)), Rm,
          some MdSect.primes, ci'⟩
  | [], Pm, Rm, ci, _, _, _ => ⟨ci, by simp [List.foldlM]⟩
  | e :: KL', Pm, Rm, ci, hfresh, hnd, hgood => by
    have hblock := runPrimeBlockV1 Pm Rm ci e (hfresh e (List.mem_cons_self _ _))
      (hgood e (List.mem_cons_self _ _)).1 (hgood e (List.mem_cons_self _ _)).2
    have hnd2 : (e.1 :: objKeys KL').Nodup := hnd
    have hnd' : (objKeys KL').Nodup := (List.nodup_cons.1 hnd2).2
    have hnotin : e.1 ∉ objKeys KL' := (List.nodup_cons.1 hnd2).1
    have hfresh' : ∀ e' ∈ KL', getAssoc (Pm ++ [(e.1,
        (⟨e.1, e.2.map convPart⟩ : PrimeV1))]) e'.1 = none := by
      intro e' he'
      rw [getAssoc_append_of_none Pm _ _ (hfresh e' (List.mem_cons_of_mem _ he'))]
      have hne : ¬ e.1 = e'.1 := by
        intro hcontra
        exact hnotin (hcontra ▸ (by exact List.mem_map_of_mem Prod.fst he'))
      simp [getAssoc, hne]
    obtain ⟨ci', hrest⟩ := runPrimesV1 KL'
      (Pm ++ [(e.1, ⟨e.1, e.2.map convPart⟩)]) Rm (some e.1)
      hfresh' hnd' (fun e' he' => hgood e' (List.mem_cons_of_mem _ he'))
    refine ⟨ci', ?_⟩
    rw [List.map_cons, List.flatten_cons, List.foldlM_append, hblock]
    show List.foldlM stepV1 _ ((KL'.map primeBlockT).flatten) = _
    rw [hrest]
    simp

/-! ### The serialized document as a list of raw lines -/

/-- A serialized part line as written (two-space indent). -/
def partLineRaw (p : SrcPart) : Str :=
  indentDash ++ p.item ++ parenOpenSp ++ p.rarity ++ parenArrowSp ++ p.source

/-- The raw lines of one prime block of the `# Primes` section (the parts
already rarity-sorted by the serializer). -/
def primeBlockRaw (e : Str × List SrcPart) : List Str :=
  (dashSp ++ e.1) :: e.2.map partLineRaw

/-- The raw lines of one relic block of the `# Relics` section. -/
def relicBlockRaw (locs : List (Str × Str)) (rel : Str × List RewardSrc) : List Str :=
  (hhSp ++ rel.1) :: [] ::
    (rel.2.map rewardLine ++ [[], locTag ++ [' '] ++ locLookup locs rel.1, []])

theorem joinNL_flatten : ∀ L : List (List Str), joinNL L.flatten = (L.map joinNL).flatten := by
  intro L
  induction L with
  | nil => rfl
  | cons x t ih => simp [List.flatten_cons, joinNL_append, ih]

theorem joinNL_primeBlock (e : Str × List SrcPart) :
    joinNL (primeBlockRaw e) =
      dashSp ++ e.1 ++ nl1 ++
        (e.2.map (fun p =>
          indentDash ++ p.item ++ parenOpenSp ++ p.rarity ++ parenArrowSp ++ p.source ++
            nl1)).flatten := by
  have hmap : e.2.map ((fun l => l ++ nl1) ∘ partLineRaw) =
      e.2.map (fun p =>
        indentDash ++ p.item ++ parenOpenSp ++ p.rarity ++ parenArrowSp ++ p.source ++ nl1) := by
    refine List.map_congr_left ?_
    intro p _
    simp [Function.comp, partLineRaw, List.append_assoc]
  rw [primeBlockRaw, joinNL_cons, joinNL, List.map_map, hmap]

theorem joinNL_relicBlock (locs : List (Str × Str)) (rel : Str × List RewardSrc) :
    joinNL (relicBlockRaw locs rel) =
      hhSp ++ rel.1 ++ nl2 ++
      (rel.2.map (fun r =>
        dashSp ++ r.item ++ parenOpenSp ++ r.rarity ++ parenClose ++ nl1)).flatten ++
      nl1 ++ locTag ++ [' '] ++ locLookup locs rel.1 ++ nl2 := by
  have hmap : rel.2.map ((fun l => l ++ nl1) ∘ rewardLine) =
      rel.2.map (fun r =>
        dashSp ++ r.item ++ parenOpenSp ++ r.rarity ++ parenClose ++ nl1) := by
    refine List.map_congr_left ?_
    intro r _
    simp [Function.comp, rewardLine, parenClose, List.append_assoc]
  rw [relicBlockRaw, joinNL_cons, joinNL_cons, joinNL_append, joinNL, List.map_map, hmap]
  simp [joinNL, nl1, nl2, List.append_assoc]

/-- The full raw line list of the serialized document. -/
def docLinesRaw (today : Str) (primes : List (Str × List SrcPart))
    (rd : List (Str × List RewardSrc)) (locs : List (Str × Str)) : List Str :=
  [genPre ++ today, [], hdrPrimes, []] ++
    ((jsSort lexLe (objKeys primes)).map (fun k =>
        primeBlockRaw (k, jsSort partLe ((getAssoc primes k).getD [])))).flatten ++
    [[], hdrRelics, []] ++ (rd.map (relicBlockRaw locs)).flatten

/-- `generateMarkdown` writes exactly its raw line list, each line
newline-terminated. -/
theorem generateMarkdown_lines (today : Str) (primes : List (Str × List SrcPart))
    (rd : List (Str × List RewardSrc)) (locs : List (Str × Str)) :
    generateMarkdown today primes rd locs =
      joinNL (docLinesRaw today primes rd locs) := by
  rw [docLinesRaw, joinNL_append, joinNL_append, joinNL_append, joinNL_flatten, joinNL_flatten]
  have hp : ((jsSort lexLe (objKeys primes)).map (fun k =>
      primeBlockRaw (k, jsSort partLe ((getAssoc primes k).getD [])))).map joinNL =
      (jsSort lexLe (objKeys primes)).map (fun prime =>
        dashSp ++ prime ++ nl1 ++
        ((jsSort partLe ((getAssoc primes prime).getD [])).map (fun p =>
          indentDash ++ p.item ++ parenOpenSp ++ p.rarity ++ parenArrowSp ++ p.source ++
            nl1)).flatten) := by
    rw [List.map_map]
    refine List.map_congr_left ?_
    intro k _
    show joinNL (primeBlockRaw (k, jsSort partLe ((getAssoc primes k).getD []))) = _
    rw [joinNL_primeBlock]
  have hr : (rd.map (relicBlockRaw locs)).map joinNL =
      rd.map (fun rel =>
        hhSp ++ rel.1 ++ nl2 ++
        (rel.2.map (fun r =>
          dashSp ++ r.item ++ parenOpenSp ++ r.rarity ++ parenClose ++ nl1)).flatten ++
        nl1 ++ locTag ++ [' '] ++ locLookup locs rel.1 ++ nl2) := by
    rw [List.map_map]
    refine List.map_congr_left ?_
    intro rel _
    show joinNL (relicBlockRaw locs rel) = _
    rw [joinNL_relicBlock]
  rw [hp, hr, generateMarkdown]
  simp [joinNL, nl1, nl2, List.append_assoc]

/-! ### Per-line trimming of the raw document lines -/

theorem notin_append {c : Char} {a b : Str} (ha : c ∉ a) (hb : c ∉ b) : c ∉ a ++ b := by
  intro h
  rcases List.mem_append.1 h with h | h
  · exact ha h
  · exact hb h

theorem trim_primeOpen (k : Str) (hk : goodKey k) : trimStr (dashSp ++ k) = dashSp ++ k := by
  obtain ⟨hk1, hk2, _, _⟩ := hk
  exact trimStr_eq_self _
    (trimStable_append dashSp k (by simp [dashSp]) hk2 (by decide) (trimStable_last _ hk1))

theorem trim_relicOpen (n : Str) (hk : goodKey n) : trimStr (hhSp ++ n) = hhSp ++ n := by
  obtain ⟨hk1, hk2, _, _⟩ := hk
  exact trimStr_eq_self _
    (trimStable_append hhSp n (by simp [hhSp]) hk2 (by decide) (trimStable_last _ hk1))

theorem trim_partLineRaw (p : SrcPart) (hs : goodKey p.source) :
    trimStr (partLineRaw p) = partLineT p := by
  obtain ⟨hs1, hs2, _, _⟩ := hs
  have hshape : partLineRaw p = ' ' :: ' ' :: partLineT p := by
    simp [partLineRaw, partLineT, indentDash, dashSp, List.append_assoc]
  rw [hshape, trimStr_cons_ws _ _ (by decide), trimStr_cons_ws _ _ (by decide)]
  refine trimStr_eq_self _ ?_
  have e : partLineT p =
      (dashSp ++ p.item ++ parenOpenSp ++ p.rarity ++ parenArrowSp) ++ p.source := by
    simp [partLineT, List.append_assoc]
  rw [e]
  refine trimStable_append _ _ ?_ hs2 ?_ (trimStable_last _ hs1)
  · simp [dashSp]
  · have e2 : (dashSp ++ p.item ++ parenOpenSp ++ p.rarity ++ parenArrowSp : Str) =
        '-' :: ' ' :: (p.item ++ parenOpenSp ++ p.rarity ++ parenArrowSp) := by
      simp [dashSp, List.append_assoc]
    rw [e2]
    exact headNonWS_cons _ _ (by decide)

theorem trim_rewardLine (r : RewardSrc) : trimStr (rewardLine r) = rewardLine r := by
  refine trimStr_eq_self _ ?_
  have e : rewardLine r = (dashSp ++ r.item ++ parenOpenSp ++ r.rarity) ++ [')'] := by
    simp [rewardLine, List.append_assoc]
  rw [e]
  refine trimStable_append _ _ ?_ (by simp) ?_ (by decide)
  · simp [dashSp]
  · have e2 : (dashSp ++ r.item ++ parenOpenSp ++ r.rarity : Str) =
        '-' :: ' ' :: (r.item ++ parenOpenSp ++ r.rarity) := by
      simp [dashSp, List.append_assoc]
    rw [e2]
    exact headNonWS_cons _ _ (by decide)

theorem trim_locLine (L : Str) (hL : goodLoc L) :
    trimStr (locTag ++ [' '] ++ L) = locTag ++ ' ' :: L := by
  obtain ⟨h1, h2, _, _⟩ := hL
  have ht : trimStable ((locTag ++ [' ']) ++ L) = true :=
    trimStable_append _ _ (by simp [locTag]) h2 (by decide) (trimStable_last _ h1)
  rw [trimStr_eq_self _ ht]
  simp [List.append_assoc]

theorem stepV1_genLine (st : StV1) (today : Str) (hsec : st.currentSection = none) :
    stepV1 st (trimStr (genPre ++ today)) = some st := by
  have hhead : headNonWS (genPre ++ today) = true := by
    have e : (genPre ++ today : Str) =
        '#' :: ([' ', 'G', 'e', 'n', 'e', 'r', 'a', 't', 'e', 'd', ' ', 'o', 'n', ' '] ++ today) := rfl
    rw [e]
    exact headNonWS_cons _ _ (by decide)
  have hshape : (genPre ++ today : Str) =
      (['#', ' ', 'G', 'e', 'n', 'e', 'r', 'a', 't', 'e', 'd', ' ', 'o', 'n'] : Str) ++
        (' ' :: today) := by
    simp [genPre, List.append_assoc]
  rw [trimStr_eq_trimRight _ hhead, hshape,
    trimRight_append (['#', ' ', 'G', 'e', 'n', 'e', 'r', 'a', 't', 'e', 'd', ' ', 'o', 'n']) (' ' :: today)]
  by_cases h : trimRight (' ' :: today) = []
  · rw [if_pos h]
    have e : trimRight (['#', ' ', 'G', 'e', 'n', 'e', 'r', 'a', 't', 'e', 'd', ' ', 'o', 'n'] : Str) =
        '#' :: ' ' :: 'G' :: ['e', 'n', 'e', 'r', 'a', 't', 'e', 'd', ' ', 'o', 'n'] := by decide
    rw [e]
    exact stepV1_pass_nosec st _ (by simp) (sectionHeadersV1_none_gen st _) hsec
  · rw [if_neg h]
    have e : (['#', ' ', 'G', 'e', 'n', 'e', 'r', 'a', 't', 'e', 'd', ' ', 'o', 'n'] : Str) ++
        trimRight (' ' :: today) =
        '#' :: ' ' :: 'G' :: (['e', 'n', 'e', 'r', 'a', 't', 'e', 'd', ' ', 'o', 'n'] ++
          trimRight (' ' :: today)) := rfl
    rw [e]
    exact stepV1_pass_nosec st _ (by simp) (sectionHeadersV1_none_gen st _) hsec

theorem primeBlockRaw_trim (e : Str × List SrcPart) (hk : goodKey e.1)
    (hg : ∀ p ∈ e.2, goodKey p.source) :
    (primeBlockRaw e).map trimStr = primeBlockT e := by
  rw [primeBlockRaw, primeBlockT, List.map_cons, trim_primeOpen e.1 hk, List.map_map]
  congr 1
  refine List.map_congr_left ?_
  intro p hp
  simpa [Function.comp] using trim_partLineRaw p (hg p hp)

theorem relicBlockRaw_trim (locs : List (Str × Str)) (rel : Str × List RewardSrc)
    (hk : goodKey rel.1) (hL : goodLoc (locLookup locs rel.1)) :
    (relicBlockRaw locs rel).map trimStr = relicBlockT locs rel := by
  rw [relicBlockRaw, relicBlockT]
  simp only [List.map_cons, List.map_append, List.map_map, List.map_nil]
  rw [trim_relicOpen rel.1 hk]
  have hrew : rel.2.map (trimStr ∘ rewardLine) = rel.2.map rewardLine := by
    refine List.map_congr_left ?_
    intro r _
    simpa [Function.comp] using trim_rewardLine r
  rw [hrew, trim_locLine _ hL]
  simp only [show trimStr ([] : Str) = [] from rfl]

theorem docLines_trim (today : Str) (primes : List (Str × List SrcPart))
    (rd : List (Str × List RewardSrc)) (locs : List (Str × Str))
    (hK : ∀ k ∈ jsSort lexLe (objKeys primes), goodKey k)
    (hKp : ∀ k ∈ jsSort lexLe (objKeys primes),
      ∀ p ∈ jsSort partLe ((getAssoc primes k).getD []), goodKey p.source)
    (hR : ∀ e ∈ rd, goodKey e.1)
    (hRL : ∀ e ∈ rd, goodLoc (locLookup locs e.1)) :
    (docLinesRaw today primes rd locs).map trimStr =
      [trimStr (genPre ++ today), [], hdrPrimes, []] ++
      ((jsSort lexLe (objKeys primes)).map (fun k =>
          primeBlockT (k, jsSort partLe ((getAssoc primes k).getD [])))).flatten ++
      [[], hdrRelics, []] ++ (rd.map (relicBlockT locs)).flatten := by
  have h2 : ((jsSort lexLe (objKeys primes)).map (fun k =>
      primeBlockRaw (k, jsSort partLe ((getAssoc primes k).getD [])))).map (List.map trimStr) =
      (jsSort lexLe (objKeys primes)).map (fun k =>
        primeBlockT (k, jsSort partLe ((getAssoc primes k).getD []))) := by
    rw [List.map_map]
    refine List.map_congr_left ?_
    intro k hk
    show (primeBlockRaw (k, jsSort partLe ((getAssoc primes k).getD []))).map trimStr = _
    exact primeBlockRaw_trim _ (hK k hk) (fun p hp => hKp k hk p hp)
  have h3 : (rd.map (relicBlockRaw locs)).map (List.map trimStr) =
      rd.map (relicBlockT locs) := by
    rw [List.map_map]
    refine List.map_congr_left ?_
    intro rel hrel
    show (relicBlockRaw locs rel).map trimStr = _
    exact relicBlockRaw_trim locs rel (hR rel hrel) (hRL rel hrel)
  rw [docLinesRaw]
  simp only [List.map_append, List.map_cons, List.map_nil, List.map_flatten]
  rw [h2, h3]
  simp only [show trimStr ([] : Str) = [] from rfl,
    show trimStr hdrPrimes = hdrPrimes by decide,
    show trimStr hdrRelics = hdrRelics by decide]

theorem partLineRaw_nl_free (p : SrcPart) (hi : '\n' ∉ p.item) (hr : '\n' ∉ p.rarity)
    (hs : '\n' ∉ p.source) : '\n' ∉ partLineRaw p := by
  rw [partLineRaw]
  exact notin_append (notin_append (notin_append (notin_append
    (notin_append (by decide) hi) (by decide)) hr) (by decide)) hs

theorem rewardLine_nl_free (r : RewardSrc) (hi : '\n' ∉ r.item) (hr : '\n' ∉ r.rarity) :
    '\n' ∉ rewardLine r := by
  rw [rewardLine]
  exact notin_append (notin_append (notin_append (notin_append
    (by decide) hi) (by decide)) hr) (by decide)

theorem docLines_nl_free (today : Str) (primes : List (Str × List SrcPart))
    (rd : List (Str × List RewardSrc)) (locs : List (Str × Str))
    (htoday : '\n' ∉ today)
    (hK : ∀ k ∈ jsSort lexLe (objKeys primes), goodKey k)
    (hKp : ∀ k ∈ jsSort lexLe (objKeys primes),
      ∀ p ∈ jsSort partLe ((getAssoc primes k).getD []),
        goodItem p.item ∧ goodRarity p.rarity ∧ goodKey p.source)
    (hR : ∀ e ∈ rd, goodKey e.1 ∧ (∀ r ∈ e.2, goodItem r.item ∧ goodRarity r.rarity) ∧
      goodLoc (locLookup locs e.1)) :
    ∀ l ∈ docLinesRaw today primes rd locs, '\n' ∉ l := by
  intro l hl
  rw [docLinesRaw] at hl
  rcases List.mem_append.1 hl with h1 | hD
  · rcases List.mem_append.1 h1 with h2 | hC
    · rcases List.mem_append.1 h2 with hA | hB
      · simp only [List.mem_cons, List.not_mem_nil, or_false] at hA
        rcases hA with rfl | rfl | rfl | rfl
        · exact notin_append (by decide) htoday
        · simp
        · decide
        · simp
      · obtain ⟨li, hli, hl2⟩ := List.mem_flatten.1 hB
        obtain ⟨k, hk, rfl⟩ := List.mem_map.1 hli
        rw [primeBlockRaw] at hl2
        rcases List.mem_cons.1 hl2 with rfl | h
        · exact notin_append (by decide) (hK k hk).2.2.2
        · obtain ⟨p, hp, rfl⟩ := List.mem_map.1 h
          obtain ⟨hgi, hgr, hgs⟩ := hKp k hk p hp
          exact partLineRaw_nl_free p hgi.2.2.2.2.2.2 hgr.2.2.2.2 hgs.2.2.2
    · simp only [List.mem_cons, List.not_mem_nil, or_false] at hC
      rcases hC with rfl | rfl | rfl
      · simp
      · decide
      · simp
  · obtain ⟨li, hli, hl2⟩ := List.mem_flatten.1 hD
    obtain ⟨rel, hrel, rfl⟩ := List.mem_map.1 hli
    obtain ⟨hkey, hrew, hloc⟩ := hR rel hrel
    rw [relicBlockRaw] at hl2
    rcases List.mem_cons.1 hl2 with rfl | h
    · exact notin_append (by decide) hkey.2.2.2
    rcases List.mem_cons.1 h with rfl | h
    · simp
    rcases List.mem_append.1 h with h | h
    · obtain ⟨r, hr, rfl⟩ := List.mem_map.1 h
      obtain ⟨hgi, hgr⟩ := hrew r hr
      exact rewardLine_nl_free r hgi.2.2.2.2.2.2 hgr.2.2.2.2
    rcases List.mem_cons.1 h with rfl | h
    · simp
    rcases List.mem_cons.1 h with rfl | h
    · exact notin_append (notin_append (by decide) (by decide)) hloc.2.2.2
    rcases List.mem_cons.1 h with rfl | h
    · simp
    · simp at h

/-! ### Goodness of the derived prime keys -/

theorem has2_append_left (a b : Char) : ∀ (x y : Str), has2 a b x = true →
    has2 a b (x ++ y) = true
  | [], _, h => by simp [has2] at h
  | [_], _, h => by simp [has2] at h
  | c :: d :: rest, y, h => by
    simp only [has2, Bool.or_eq_true] at h
    rcases h with h | h
    · simp only [List.cons_append, has2, List.append_eq]
      rw [Bool.or_eq_true]
      left
      exact h
    · have ih := has2_append_left a b (d :: rest) y h
      simp only [List.cons_append] at ih ⊢
      exact has2_cons_of a b c _ ih

theorem primeKeyOf_goodKey (it : Str) (hit : goodItem it) : goodKey (primeKeyOf it) := by
  obtain ⟨ht, hne, hd, ha, hp1, hp2, hnl⟩ := hit
  rw [primeKeyOf]
  cases hbk : breakOnSub strSpPrime it with
  | none =>
    refine ⟨trimStable_append it strSpPrime hne (by simp [strSpPrime])
        (trimStable_head _ ht) (by decide), by simp [strSpPrime], ?_, ?_⟩
    · refine has2_append_false _ _ _ _ ha (by decide) ?_
      rintro ⟨-, h⟩
      simp [strSpPrime] at h
    · exact notin_append hnl (by decide)
  | some pr =>
    obtain ⟨pre, post⟩ := pr
    have heq : it = pre ++ strSpPrime ++ post := breakOnSub_eq strSpPrime it pre post hbk
    have hprene : pre ≠ [] := by
      intro hcontra
      subst hcontra
      rw [heq] at ht
      have := trimStable_head _ ht
      simp [strSpPrime, headNonWS, isWS] at this
    have hprehead : headNonWS pre = true := by
      have h1 := trimStable_head _ ht
      rw [heq] at h1
      cases pre with
      | nil => exact absurd rfl hprene
      | cons c t => simpa [headNonWS] using h1
    have hprearrow : has2 '-' '>' pre = false := by
      by_contra hcontra
      rw [Bool.not_eq_false] at hcontra
      have := has2_append_left '-' '>' pre (strSpPrime ++ post) hcontra
      rw [← List.append_assoc, ← heq] at this
      rw [this] at ha
      cases ha
    have hprenl : '\n' ∉ pre := by
      intro hmem
      exact hnl (heq ▸ List.mem_append.2 (Or.inl (List.mem_append.2 (Or.inl hmem))))
    refine ⟨trimStable_append pre strSpPrime hprene (by simp [strSpPrime])
        hprehead (by decide), by simp [strSpPrime], ?_, ?_⟩
    · refine has2_append_false _ _ _ _ hprearrow (by decide) ?_
      rintro ⟨-, h⟩
      simp [strSpPrime] at h
    · exact notin_append hprenl (by decide)

theorem objKeys_map_pair (K : List Str) (f : Str → List SrcPart) :
    objKeys (K.map (fun k => (k, f k))) = K := by
  induction K with
  | nil => rfl
  | cons k t ih => simp [objKeys] at ih ⊢; exact ih

/-- The raw document lines always end in one empty line, preceded by a
line that trimming leaves alone (the last location line, or the
`# Relics` header when there are no relics). -/
theorem docLinesRaw_split (today : Str) (primes : List (Str × List SrcPart))
    (rd : List (Str × List RewardSrc)) (locs : List (Str × Str))
    (hRL : ∀ e ∈ rd, goodLoc (locLookup locs e.1)) :
    ∃ BIG Z last, docLinesRaw today primes rd locs = BIG ++ [[]] ∧
      BIG = Z ++ [last] ∧ lastNonWS last = true ∧ last ≠ [] := by
  have hstruct : docLinesRaw today primes rd locs =
      ([genPre ++ today, [], hdrPrimes, []] ++
        ((jsSort lexLe (objKeys primes)).map (fun k =>
          primeBlockRaw (k, jsSort partLe ((getAssoc primes k).getD [])))).flatten ++
        [[], hdrRelics]) ++ [[]] ++ (rd.map (relicBlockRaw locs)).flatten := by
    rw [docLinesRaw]
    simp [List.append_assoc]
  rcases List.eq_nil_or_concat rd with hrd | ⟨rd', lst, hrd⟩
  · subst hrd
    refine ⟨[genPre ++ today, [], hdrPrimes, []] ++
        ((jsSort lexLe (objKeys primes)).map (fun k =>
          primeBlockRaw (k, jsSort partLe ((getAssoc primes k).getD [])))).flatten ++
        [[], hdrRelics],
      [genPre ++ today, [], hdrPrimes, []] ++
        ((jsSort lexLe (objKeys primes)).map (fun k =>
          primeBlockRaw (k, jsSort partLe ((getAssoc primes k).getD [])))).flatten ++
        [[]],
      hdrRelics, ?_, ?_, by decide, by decide⟩
    · rw [hstruct]
      simp
    · simp [List.append_assoc]
  · subst hrd
    have hlst : lst ∈ rd' ++ [lst] := List.mem_append.2 (Or.inr (by simp))
    obtain ⟨hg1, hg2, hg3, hg4⟩ := hRL lst (by simpa [List.concat_eq_append] using hlst)
    refine ⟨([genPre ++ today, [], hdrPrimes, []] ++
        ((jsSort lexLe (objKeys primes)).map (fun k =>
          primeBlockRaw (k, jsSort partLe ((getAssoc primes k).getD [])))).flatten ++
        [[], hdrRelics]) ++ [[]] ++
        ((rd'.map (relicBlockRaw locs)).flatten ++
          ((hhSp ++ lst.1) :: [] :: (lst.2.map rewardLine ++
            [[], locTag ++ [' '] ++ locLookup locs lst.1]))),
      ([genPre ++ today, [], hdrPrimes, []] ++
        ((jsSort lexLe (objKeys primes)).map (fun k =>
          primeBlockRaw (k, jsSort partLe ((getAssoc primes k).getD [])))).flatten ++
        [[], hdrRelics]) ++ [[]] ++
        ((rd'.map (relicBlockRaw locs)).flatten ++
          ((hhSp ++ lst.1) :: [] :: (lst.2.map rewardLine ++ [[]]))),
      locTag ++ [' '] ++ locLookup locs lst.1, ?_, ?_, ?_, ?_⟩
    · rw [hstruct]
      simp [List.concat_eq_append, List.map_append, List.flatten_append,
        relicBlockRaw, List.append_assoc]
    · simp [List.append_assoc]
    · exact lastNonWS_append _ _ hg2 (trimStable_last _ hg1)
    · simp [locTag]

theorem foldlM_hdrRelicsSeg (st : StV1) :
    ([[], hdrRelics, []] : List Str).foldlM stepV1 st =
      some {st with currentSection := some MdSect.relics, currentItem := none} := by
  rw [List.foldlM_cons, stepV1_nil]
  show ([hdrRelics, []] : List Str).foldlM stepV1 st = _
  rw [List.foldlM_cons, stepV1_hdrRelics]
  show ([[]] : List Str).foldlM stepV1 _ = _
  rw [List.foldlM_cons, stepV1_nil]
  rfl

/-- The strict parser run on the serialized document of well-behaved
data: the primes map comes back as the sorted key list with the
rarity-sorted parts read back verbatim, and the relics map comes back in
encounter order with locations and reward lists intact. -/
theorem parseV1_generateMarkdown (today : Str) (primes : List (Str × List SrcPart))
    (rd : List (Str × List RewardSrc)) (locs : List (Str × Str))
    (htoday : '\n' ∉ today)
    (hpnd : (objKeys primes).Nodup)
    (hrnd : (objKeys rd).Nodup)
    (hK : ∀ k ∈ jsSort lexLe (objKeys primes), goodKey k)
    (hKp : ∀ k ∈ jsSort lexLe (objKeys primes),
      ∀ p ∈ jsSort partLe ((getAssoc primes k).getD []),
        goodItem p.item ∧ goodRarity p.rarity ∧ goodKey p.source)
    (hR : ∀ e ∈ rd, goodKey e.1)
    (hRrew : ∀ e ∈ rd, ∀ r ∈ e.2, goodItem r.item ∧ goodRarity r.rarity)
    (hRL : ∀ e ∈ rd, goodLoc (locLookup locs e.1)) :
    parseV1 (generateMarkdown today primes rd locs) =
      some ⟨(jsSort lexLe (objKeys primes)).map (fun k =>
          (k, ⟨k, (jsSort partLe ((getAssoc primes k).getD [])).map convPart⟩)),
        rd.map (fun rel => (rel.1, ⟨locLookup locs rel.1, rel.2.map convReward⟩))⟩ := by
  have hSKnd : (jsSort lexLe (objKeys primes)).Nodup :=
    ((jsSort_perm lexLe (objKeys primes)).nodup_iff).2 hpnd
  obtain ⟨ciP, hpfold⟩ := runPrimesV1
    ((jsSort lexLe (objKeys primes)).map (fun k =>
      (k, jsSort partLe ((getAssoc primes k).getD []))))
    [] [] none (fun _ _ => rfl)
    (by rw [objKeys_map_pair]; exact hSKnd)
    (by
      intro e he
      obtain ⟨k, hk, rfl⟩ := List.mem_map.1 he
      exact ⟨hK k hk, fun p hp => hKp k hk p hp⟩)
  obtain ⟨ciR, hrfold⟩ := runRelicsV1 locs rd
    ([] ++ ((jsSort lexLe (objKeys primes)).map (fun k =>
        (k, jsSort partLe ((getAssoc primes k).getD [])))).map
      (fun e => (e.1, ⟨e.1, e.2.map convPart⟩)))
    [] none (fun _ _ => rfl) hrnd
    (fun e he => ⟨hRrew e he, hRL e he⟩)
  have htrim := docLines_trim today primes rd locs hK
    (fun k hk p hp => (hKp k hk p hp).2.2) hR hRL
  have hblocks : ((jsSort lexLe (objKeys primes)).map (fun k =>
      primeBlockT (k, jsSort partLe ((getAssoc primes k).getD [])))) =
      (((jsSort lexLe (objKeys primes)).map (fun k =>
        (k, jsSort partLe ((getAssoc primes k).getD [])))).map primeBlockT) := by
    rw [List.map_map]
    rfl
  have hfull : ((docLinesRaw today primes rd locs).map trimStr).foldlM stepV1 initStV1 =
      some ⟨((jsSort lexLe (objKeys primes)).map (fun k =>
          (k, (⟨k, (jsSort partLe ((getAssoc primes k).getD [])).map convPart⟩ : PrimeV1)))),
        rd.map (fun rel => (rel.1, ⟨locLookup locs rel.1, rel.2.map convReward⟩)),
        some MdSect.relics, ciR⟩ := by
    rw [htrim, hblocks]
    rw [List.foldlM_append, List.foldlM_append, List.foldlM_append]
    have hA : ([trimStr (genPre ++ today), [], hdrPrimes, []] : List Str).foldlM stepV1
        initStV1 = some ⟨[], [], some MdSect.primes, none⟩ := by
      rw [List.foldlM_cons, stepV1_genLine initStV1 today rfl]
      show ([[], hdrPrimes, []] : List Str).foldlM stepV1 initStV1 = _
      rw [List.foldlM_cons, stepV1_nil]
      show ([hdrPrimes, []] : List Str).foldlM stepV1 initStV1 = _
      rw [List.foldlM_cons, stepV1_hdrPrimes]
      show ([[]] : List Str).foldlM stepV1 ⟨[], [], some MdSect.primes, none⟩ = _
      rw [List.foldlM_cons, stepV1_nil]
      rfl
    rw [hA]
    show ((((((jsSort lexLe (objKeys primes)).map (fun k =>
        (k, jsSort partLe ((getAssoc primes k).getD [])))).map
        primeBlockT).flatten).foldlM stepV1 ⟨[], [], some MdSect.primes, none⟩ >>= _) >>= _) = _
    rw [hpfold]
    show ((([[], hdrRelics, []] : List Str).foldlM stepV1 _) >>= _) = _
    rw [foldlM_hdrRelicsSeg]
    show ((rd.map (relicBlockT locs)).flatten).foldlM stepV1
      ⟨[] ++ ((jsSort lexLe (objKeys primes)).map (fun k =>
          (k, jsSort partLe ((getAssoc primes k).getD [])))).map
        (fun e => (e.1, ⟨e.1, e.2.map convPart⟩)), [], some MdSect.relics, none⟩ = _
    rw [hrfold]
    simp [List.map_map]
  obtain ⟨BIG, Z, last, hsplit, hZ, hlastNW, hlastne⟩ :=
    docLinesRaw_split today primes rd locs hRL
  have hBIGne : BIG ≠ [] := by
    rw [hZ]
    simp
  have hnlBIG : ∀ l ∈ BIG, '\n' ∉ l := by
    intro l hl
    exact docLines_nl_free today primes rd locs htoday hK hKp
      (fun e he => ⟨hR e he, hRrew e he, hRL e he⟩) l
      (by rw [hsplit]; exact List.mem_append.2 (Or.inl hl))
  have hjoin : generateMarkdown today primes rd locs =
      strJoin nl1 BIG ++ ['\n'] ++ ['\n'] := by
    rw [generateMarkdown_lines, hsplit, joinNL_append, joinNL_eq_strJoin BIG hBIGne]
    simp [joinNL, nl1, List.append_assoc]
  have hdocCons : ∃ T, docLinesRaw today primes rd locs = (genPre ++ today) :: T := ⟨_, rfl⟩
  obtain ⟨T, hT⟩ := hdocCons
  have hheadg : headNonWS (genPre ++ today) = true := by
    have e : (genPre ++ today : Str) =
        '#' :: ([' ', 'G', 'e', 'n', 'e', 'r', 'a', 't', 'e', 'd', ' ', 'o', 'n', ' '] ++ today) := rfl
    rw [e]
    exact headNonWS_cons _ _ (by decide)
  have hheadC : headNonWS (generateMarkdown today primes rd locs) = true := by
    rw [generateMarkdown_lines, hT, joinNL_cons]
    exact headNonWS_append _ _ (by simp [genPre]) (headNonWS_append _ _ (by simp [genPre]) hheadg)
  have htrimC : trimStr (generateMarkdown today primes rd locs) = strJoin nl1 BIG := by
    rw [trimStr_eq_trimRight _ hheadC, hjoin,
      trimRight_append_ws _ '\n' (by decide), trimRight_append_ws _ '\n' (by decide)]
    refine trimRight_eq_self _ ?_
    rw [hZ]
    by_cases hZnil : Z = []
    · subst hZnil
      simpa [strJoin] using hlastNW
    · rw [strJoin_append_single nl1 last Z hZnil]
      exact lastNonWS_append _ _ hlastne hlastNW
  have hlines : parseLinesOf (generateMarkdown today primes rd locs) = BIG.map trimStr := by
    rw [parseLinesOf, htrimC]
    have e : (nl1 : Str) = ['\n'] := rfl
    rw [e, splitOnSub1_join '\n' BIG hBIGne hnlBIG]
  have hmapsplit : (docLinesRaw today primes rd locs).map trimStr =
      BIG.map trimStr ++ [[]] := by
    rw [hsplit, List.map_append]
    rfl
  rw [hmapsplit, List.foldlM_append] at hfull
  cases hpart : (BIG.map trimStr).foldlM stepV1 initStV1 with
  | none =>
    rw [hpart] at hfull
    simp at hfull
  | some s =>
    rw [hpart] at hfull
    have hskip : ([[]] : List Str).foldlM stepV1 s = some s := by
      rw [List.foldlM_cons, stepV1_nil]
      rfl
    rw [show (some s >>= ([[]] : List Str).foldlM stepV1) =
      ([[]] : List Str).foldlM stepV1 s from rfl, hskip] at hfull
    rw [parseV1, hlines, hpart]
    injection hfull with hfull
    subst hfull
    rfl

set_option maxRecDepth 80000 in
/-- C1: refuted as stated.  The container name `'Lith K1 '` (trailing
space) meets every precondition of the claim — non-empty, no newline, no
`'->'`, no parenthesis — yet the round trip loses it: the parser trims
every line, so the re-parsed relic key is `'Lith K1'`, a different
string. -/
theorem C1_counterexample :
    (strL "Lith K1 " ≠ [] ∧ '\n' ∉ strL "Lith K1 " ∧
      has2 '-' '>' (strL "Lith K1 ") = false ∧
      '(' ∉ strL "Lith K1 " ∧ ')' ∉ strL "Lith K1 ") ∧
    ((parseV1 (generateMarkdown (strL "D")
        (extractPrimes [(strL "Lith K1 ", [⟨strL "Volt Prime Systems", strRare⟩])])
        [(strL "Lith K1 ", [⟨strL "Volt Prime Systems", strRare⟩])]
        [(strL "Lith", strL "Void")])).map (fun res => objKeys res.relics)) =
      some [strL "Lith K1"] ∧
    strL "Lith K1" ≠ strL "Lith K1 " := by
  decide

/-- C1 (amended): for relic data whose names, items, rarities and
looked-up locations are well behaved — trim-stable, non-empty (rarities
may be empty), free of newlines, `'->'`, parentheses (and, for items, not
starting with `'-'`; for locations, free of `':'`), with distinct relic
names — serializing with `generateMarkdown` and re-parsing with the
strict `WarframeDataParser.parse` succeeds and reproduces every relic
name in encounter order with its location and verbatim reward list, and
every grouped prime under its key with the rarity-sorted parts read back
verbatim (hence, up to permutation, exactly the original part set). -/
theorem C1_roundtrip_amended (today : Str) (rd : List (Str × List RewardSrc))
    (locs : List (Str × Str))
    (htoday : '\n' ∉ today)
    (hrnd : (objKeys rd).Nodup)
    (hkeys : ∀ e ∈ rd, goodKey e.1)
    (hrew : ∀ e ∈ rd, ∀ r ∈ e.2, goodItem r.item ∧ goodRarity r.rarity)
    (hloc : ∀ e ∈ rd, goodLoc (locLookup locs e.1)) :
    parseV1 (generateMarkdown today (extractPrimes rd) rd locs) =
      some ⟨(jsSort lexLe (objKeys (extractPrimes rd))).map (fun k =>
          (k, ⟨k, (jsSort partLe ((getAssoc (extractPrimes rd) k).getD [])).map convPart⟩)),
        rd.map (fun rel => (rel.1, ⟨locLookup locs rel.1, rel.2.map convReward⟩))⟩ ∧
    (∀ ps : List SrcPart, ((jsSort partLe ps).map convPart).Perm (ps.map convPart)) := by
  constructor
  · refine parseV1_generateMarkdown today (extractPrimes rd) rd locs htoday
      (extractPrimes_keys_nodup rd) hrnd ?_ ?_ hkeys hrew hloc
    · intro k hk
      have hkmem : k ∈ objKeys (extractPrimes rd) :=
        ((jsSort_perm lexLe (objKeys (extractPrimes rd))).mem_iff).1 hk
      obtain ⟨ps, hps⟩ := Option.isSome_iff_exists.1 ((getAssoc_isSome_iff _ _).2 hkmem)
      have hmem := getAssoc_mem _ _ _ hps
      obtain ⟨hne, hall⟩ := extractPrimes_sound rd k ps hmem
      obtain ⟨p0, hp0⟩ := List.exists_mem_of_ne_nil ps hne
      obtain ⟨r, rws, hrd, hrw, hsrc, hforma, hprime, hkey⟩ := hall p0 hp0
      have hgi : goodItem p0.item := (hrew (r, rws) hrd ⟨p0.item, p0.rarity⟩ hrw).1
      rw [hkey]
      exact primeKeyOf_goodKey p0.item hgi
    · intro k hk p hp
      have hkmem : k ∈ objKeys (extractPrimes rd) :=
        ((jsSort_perm lexLe (objKeys (extractPrimes rd))).mem_iff).1 hk
      obtain ⟨ps, hps⟩ := Option.isSome_iff_exists.1 ((getAssoc_isSome_iff _ _).2 hkmem)
      rw [hps] at hp
      have hpmem : p ∈ ps := ((jsSort_perm partLe ps).mem_iff).1 hp
      have hmem := getAssoc_mem _ _ _ hps
      obtain ⟨hne, hall⟩ := extractPrimes_sound rd k ps hmem
      obtain ⟨r, rws, hrd, hrw, hsrc, hforma, hprime, hkey⟩ := hall p hpmem
      have hgood := hrew (r, rws) hrd ⟨p.item, p.rarity⟩ hrw
      refine ⟨hgood.1, hgood.2, ?_⟩
      rw [hsrc]
      exact hkeys (r, rws) hrd
  · intro ps
    exact (jsSort_perm partLe ps).map convPart

instance (s : Str) : Decidable (goodKey s) := by
  unfold goodKey
  infer_instance

instance (s : Str) : Decidable (goodItem s) := by
  unfold goodItem
  infer_instance

instance (s : Str) : Decidable (goodRarity s) := by
  unfold goodRarity
  infer_instance

instance (s : Str) : Decidable (goodLoc s) := by
  unfold goodLoc
  infer_instance

/-- C1 witness: the amended round trip at a concrete two-relic dataset
whose shared prime collects parts from both relics. -/
theorem C1_roundtrip_amended_witness :
    (parseV1 (generateMarkdown (strL "1/1/2026")
        (extractPrimes [(strL "Lith K1", [⟨strL "Volt Prime Systems", strRare⟩]),
          (strL "Meso V2", [⟨strL "Volt Prime Blueprint", strUncommon⟩,
            ⟨strL "Forma Blueprint", strCommon⟩])])
        [(strL "Lith K1", [⟨strL "Volt Prime Systems", strRare⟩]),
          (strL "Meso V2", [⟨strL "Volt Prime Blueprint", strUncommon⟩,
            ⟨strL "Forma Blueprint", strCommon⟩])]
        [(strL "Lith", strL "Void T1"), (strL "Meso", strL "Void T2")]) =
      some ⟨(jsSort lexLe (objKeys (extractPrimes
            [(strL "Lith K1", [⟨strL "Volt Prime Systems", strRare⟩]),
              (strL "Meso V2", [⟨strL "Volt Prime Blueprint", strUncommon⟩,
                ⟨strL "Forma Blueprint", strCommon⟩])]))).map (fun k =>
          (k, ⟨k, (jsSort partLe ((getAssoc (extractPrimes
              [(strL "Lith K1", [⟨strL "Volt Prime Systems", strRare⟩]),
                (strL "Meso V2", [⟨strL "Volt Prime Blueprint", strUncommon⟩,
                  ⟨strL "Forma Blueprint", strCommon⟩])]) k).getD [])).map convPart⟩)),
        ([(strL "Lith K1", [⟨strL "Volt Prime Systems", strRare⟩]),
          (strL "Meso V2", [⟨strL "Volt Prime Blueprint", strUncommon⟩,
            ⟨strL "Forma Blueprint", strCommon⟩])] : List (Str × List RewardSrc)).map
          (fun rel => (rel.1,
            ⟨locLookup [(strL "Lith", strL "Void T1"), (strL "Meso", strL "Void T2")] rel.1,
              rel.2.map convReward⟩))⟩) ∧
    ((jsSort partLe [⟨strL "A", strRare, strL "R"⟩]).map convPart).Perm
      ([(⟨strL "A", strRare, strL "R"⟩ : SrcPart)].map convPart) :=
  ⟨(C1_roundtrip_amended (strL "1/1/2026")
      [(strL "Lith K1", [⟨strL "Volt Prime Systems", strRare⟩]),
        (strL "Meso V2", [⟨strL "Volt Prime Blueprint", strUncommon⟩,
          ⟨strL "Forma Blueprint", strCommon⟩])]
      [(strL "Lith", strL "Void T1"), (strL "Meso", strL "Void T2")]
      (by decide) (by decide) (by decide) (by decide) (by decide)).1,
   (C1_roundtrip_amended (strL "1/1/2026")
      [(strL "Lith K1", [⟨strL "Volt Prime Systems", strRare⟩]),
        (strL "Meso V2", [⟨strL "Volt Prime Blueprint", strUncommon⟩,
          ⟨strL "Forma Blueprint", strCommon⟩])]
      [(strL "Lith", strL "Void T1"), (strL "Meso", strL "Void T2")]
      (by decide) (by decide) (by decide) (by decide) (by decide)).2
     [⟨strL "A", strRare, strL "R"⟩]⟩
